import Mathlib

/-!
# Recurring maintenance scheduling and reconciliation

A shallow embedding of the package `maintenance` (files `command_recurring.go`,
`statuspage.go`, `config.go`) together with theorems about it.

Conventions of the embedding:

* A `time.Time` is an integer (`Int`): the count of nanoseconds on the local
  clock of the single location the program works in (`Asia/Tokyo`, a fixed
  offset from UTC), counted from local midnight of 1970-01-01.  The methods of
  `time.Time` are the functions of the namespace `Time`; `Before`, `After`,
  `Equal` and `Add` are comparisons and addition of instants.
* A `time.Duration` is an integer (`Int`): a count of nanoseconds.
* `log.Fatalf`, `panic` and run-time panics become the `error` branch of
  `Except Failure`.
* `fmt.Printf` output becomes a list of `LogLine` values.
-/

namespace Maintenance

/-! ## Instants and durations -/

/-- Model of `t.Before(u)`. -/
def Time.Before (t u : Int) : Bool := decide (t < u)

/-- Model of `t.After(u)`. -/
def Time.After (t u : Int) : Bool := decide (u < t)

/-- Model of `t.Equal(u)`. -/
def Time.Equal (t u : Int) : Bool := decide (t = u)

/-- Model of `t.Add(d)`. -/
def Time.Add (t : Int) (d : Int) : Int := t + d

/-! ## Calendar (model of the parts of Go package `time` the program calls) -/

def nsPerSecond : Int := 1000000000

def nsPerMinute : Int := 60000000000

def nsPerHour : Int := 3600000000000

def nsPerDay : Int := 86400000000000

/-- Model of `isLeap`. -/
def isLeap (year : Int) : Bool :=
  decide (year % 4 = 0) && (decide (year % 100 ≠ 0) || decide (year % 400 = 0))

/-- The table `daysBefore`: days of a non-leap year before month `m + 1`. -/
def daysBefore (m : Int) : Int :=
  if m ≤ 0 then 0
  else if m = 1 then 31
  else if m = 2 then 59
  else if m = 3 then 90
  else if m = 4 then 120
  else if m = 5 then 151
  else if m = 6 then 181
  else if m = 7 then 212
  else if m = 8 then 243
  else if m = 9 then 273
  else if m = 10 then 304
  else if m = 11 then 334
  else 365

/-- Model of `daysSinceEpoch`, counted from 1970-01-01: the day number of
January 1 of `year`. -/
def daysSinceEpoch (year : Int) : Int :=
  365 * (year - 1) + (year - 1) / 4 - (year - 1) / 100 + (year - 1) / 400 - 719162

/-- The year and the zero-based day of the year of day number `n`, by cycles of
400, 100, 4 and 1 years as in `absDate`. -/
def yearAndYday (n : Int) : Int × Int :=
  let d := n + 719162
  let n400 := d / 146097
  let d := d - 146097 * n400
  let n100 := d / 36524
  let n100 := n100 - n100 / 4
  let d := d - 36524 * n100
  let n4 := d / 1461
  let d := d - 1461 * n4
  let n1 := d / 365
  let n1 := n1 - n1 / 4
  let d := d - 365 * n1
  (400 * n400 + 100 * n100 + 4 * n4 + n1 + 1, d)

/-- The month (1..12) and day of the month of the zero-based day `yday` of a
year, as computed at the end of `absDate`. -/
def monthAndDay (leap : Bool) (yday : Int) : Int × Int :=
  if leap && decide (yday = 31 + 29 - 1) then (2, 29)
  else
    let day := if leap && decide (yday > 31 + 29 - 1) then yday - 1 else yday
    let month := day / 31
    let finish := daysBefore (month + 1)
    if day ≥ finish then (month + 2, day - finish + 1)
    else (month + 1, day - daysBefore month + 1)

/-- The day number of an instant: whole days since 1970-01-01. -/
def Time.dayNumber (t : Int) : Int := t / nsPerDay

/-- Model of `t.Year()`. -/
def Time.Year (t : Int) : Int := (yearAndYday (Time.dayNumber t)).1

/-- Model of `t.Month()`, January being 1. -/
def Time.Month (t : Int) : Int :=
  (monthAndDay (isLeap (Time.Year t)) (yearAndYday (Time.dayNumber t)).2).1

/-- Model of `t.Day()`. -/
def Time.Day (t : Int) : Int :=
  (monthAndDay (isLeap (Time.Year t)) (yearAndYday (Time.dayNumber t)).2).2

/-- Model of `t.Hour()`. -/
def Time.Hour (t : Int) : Int := t % nsPerDay / nsPerHour

/-- Model of `t.Minute()`. -/
def Time.Minute (t : Int) : Int := t % nsPerHour / nsPerMinute

/-- Model of `t.Second()`. -/
def Time.Second (t : Int) : Int := t % nsPerMinute / nsPerSecond

/-- Model of `t.Nanosecond()`. -/
def Time.Nanosecond (t : Int) : Int := t % nsPerSecond

/-- Model of `t.Weekday()`, Sunday being 0; 1970-01-01 was a Thursday. -/
def Time.Weekday (t : Int) : Int := (Time.dayNumber t + 4) % 7

/-- Model of `Weekday.String()`. -/
def weekdayString (w : Int) : String :=
  if w = 0 then "Sunday"
  else if w = 1 then "Monday"
  else if w = 2 then "Tuesday"
  else if w = 3 then "Wednesday"
  else if w = 4 then "Thursday"
  else if w = 5 then "Friday"
  else "Saturday"

/-- Model of `time.Date(year, month, day, hour, min, sec, nsec, loc)`: the month
overflows into the year, the day and the clock fields are added linearly. -/
def Date (year month day hour min sec nsec : Int) : Int :=
  let m := month - 1
  let year := year + m / 12
  let m := m % 12
  let month := m + 1
  let d := daysSinceEpoch year + daysBefore (month - 1) +
    (if isLeap year && decide (month ≥ 3) then 1 else 0) + (day - 1)
  d * nsPerDay + hour * nsPerHour + min * nsPerMinute + sec * nsPerSecond + nsec

/-- Model of `t.AddDate(years, months, days)`. -/
def Time.AddDate (t : Int) (years months days : Int) : Int :=
  Date (Time.Year t + years) (Time.Month t + months) (Time.Day t + days)
    (Time.Hour t) (Time.Minute t) (Time.Second t) (Time.Nanosecond t)

/-- Model of `strings.ToLower` on the letters A to Z. -/
def toLower (s : String) : String := String.mk (s.toList.map Char.toLower)

/-! ## Durations written as text (model of `time.ParseDuration`) -/

def isDigit (c : Char) : Bool := decide ('0' ≤ c) && decide (c ≤ '9')

def digitValue (c : Char) : Nat := c.toNat - 48

/-- Model of `leadingInt`: the leading digits as a number and the rest of the
text, `none` on overflow. -/
def leadingInt : List Char → Nat → Option (Nat × List Char)
  | [], x => some (x, [])
  | c :: rest, x =>
    if isDigit c then
      if x > 2 ^ 63 / 10 then none
      else
        let x := x * 10 + digitValue c
        if x > 2 ^ 63 then none else leadingInt rest x
    else some (x, c :: rest)

/-- A value of Go type `float64` that is not negative: the fraction
`num / den`, or `+Inf`. -/
inductive Float64 where
  | finite (num den : Nat)
  | inf
  deriving DecidableEq, Repr

/-- Doubles or halves `num / den` until it lies from `2 ^ 52` up to `2 ^ 53`,
counting the exponent, which does not go below `-1074` (the exponent of the
subnormal values of `float64`). -/
def float64Scale : Nat → Nat → Nat → Int → Nat × Nat × Int
  | 0, num, den, e => (num, den, e)
  | fuel + 1, num, den, e =>
    if num ≥ 2 ^ 53 * den then float64Scale fuel num (2 * den) (e + 1)
    else if num < 2 ^ 52 * den ∧ e > -1074 then float64Scale fuel (2 * num) den (e - 1)
    else (num, den, e)

/-- The integer nearest to `num / den`, the even one of two that are equally near. -/
def roundHalfEven (num den : Nat) : Nat :=
  let q := num / den
  let r := num % den
  if 2 * r < den then q
  else if 2 * r > den then q + 1
  else if q % 2 = 0 then q
  else q + 1

/-- The `float64` nearest to `num / den` (IEEE 754 binary64, round to nearest,
ties to even): a significand `m` of 53 bits at most with an exponent `e`,
subnormal values below `2 ^ (-1022)`, and `+Inf` when `m * 2 ^ e` exceeds the
largest value `(2 ^ 53 - 1) * 2 ^ 971`.  The exponent of a value below
`2 ^ 1030` is found in fewer than 2200 rounds. -/
def float64Round (num den : Nat) : Float64 :=
  if num = 0 then Float64.finite 0 1
  else
    let r := float64Scale 2200 num den 0
    let m := roundHalfEven r.1 r.2.1
    if r.2.2 ≥ 0 then
      if r.2.2 > 971 ∨ (r.2.2 = 971 ∧ m ≥ 2 ^ 53) then Float64.inf
      else Float64.finite (m * 2 ^ r.2.2.toNat) 1
    else Float64.finite m (2 ^ (-r.2.2).toNat)

/-- Model of `x * y` on `float64`, for `y` an integer that `float64` holds exactly. -/
def Float64.mulNat : Float64 → Nat → Float64
  | Float64.finite num den, y => float64Round (num * y) den
  | Float64.inf, _ => Float64.inf

/-- Model of `float64(unit) / scale` for `unit` below `2 ^ 53` and `scale` at least 1. -/
def Float64.divInto (unit : Nat) : Float64 → Float64
  | Float64.finite num den => float64Round (unit * den) num
  | Float64.inf => Float64.finite 0 1

/-- Model of `float64(f) * q` for a `uint64` value `f`. -/
def Float64.mulUint64 (f : Nat) (q : Float64) : Float64 :=
  match float64Round f 1, q with
  | Float64.finite a b, Float64.finite num den => float64Round (a * num) (b * den)
  | _, _ => Float64.inf

/-- Model of the conversion `uint64(x)`: the integer part.  The value `+Inf` does
not occur where the program converts, the fraction of a unit being below the
unit. -/
def Float64.toUint64 : Float64 → Nat
  | Float64.finite num den => num / den
  | Float64.inf => 2 ^ 63

/-- Model of `leadingFraction`: the digits after the point as a number, the
scale (the `float64` that starts at 1 and is multiplied by 10 at every digit
taken) and the rest; digits beyond the capacity are skipped. -/
def leadingFraction : List Char → Nat → Float64 → Bool → Nat × Float64 × List Char
  | [], x, scale, _ => (x, scale, [])
  | c :: rest, x, scale, overflow =>
    if isDigit c then
      if overflow then leadingFraction rest x scale true
      else if x > (2 ^ 63 - 1) / 10 then leadingFraction rest x scale true
      else
        let y := x * 10 + digitValue c
        if y > 2 ^ 63 then leadingFraction rest x scale true
        else leadingFraction rest y (scale.mulNat 10) false
    else (x, scale, c :: rest)

/-- The table `unitMap`. -/
def unitMap (u : List Char) : Option Nat :=
  if u = ['n', 's'] then some 1
  else if u = ['u', 's'] then some 1000
  else if u = ['µ', 's'] then some 1000
  else if u = ['μ', 's'] then some 1000
  else if u = ['m', 's'] then some 1000000
  else if u = ['s'] then some 1000000000
  else if u = ['m'] then some 60000000000
  else if u = ['h'] then some 3600000000000
  else none

def isUnitChar (c : Char) : Bool := !(decide (c = '.') || isDigit c)

/-- The loop of `time.ParseDuration` over the groups `[0-9]*(\.[0-9]*)?[a-z]+`,
with the sum `d` so far; `none` is the error return.  Every round consumes at
least one character, so the bound `fuel` (the length of the text) is never
reached.  The fraction of a unit is `uint64(float64(f) * (float64(unit) / scale))`,
computed in `float64` as Go does. -/
def parseDurationLoop : Nat → List Char → Nat → Option Nat
  | _, [], d => some d
  | 0, _ :: _, _ => none
  | fuel + 1, c :: cs, d =>
    if isUnitChar c then none
    else
      match leadingInt (c :: cs) 0 with
      | none => none
      | some (v, s1) =>
        let pre := decide (s1.length ≠ (c :: cs).length)
        let frac : Nat × Float64 × List Char × Bool :=
          match s1 with
          | '.' :: s2 =>
            let r := leadingFraction s2 0 (Float64.finite 1 1) false
            (r.1, r.2.1, r.2.2, decide (r.2.2.length ≠ s2.length))
          | _ => (0, Float64.finite 1 1, s1, false)
        let f := frac.1
        let scale := frac.2.1
        let s3 := frac.2.2.1
        let post := frac.2.2.2
        if !pre && !post then none
        else
          let u := s3.takeWhile isUnitChar
          let s4 := s3.dropWhile isUnitChar
          if u = [] then none
          else
            match unitMap u with
            | none => none
            | some unit =>
              if v > 2 ^ 63 / unit then none
              else
                let v := v * unit
                let v :=
                  if f > 0 then v + (Float64.mulUint64 f (Float64.divInto unit scale)).toUint64
                  else v
                if f > 0 ∧ v > 2 ^ 63 then none
                else
                  let d := (d + v) % 2 ^ 64
                  if d > 2 ^ 63 then none else parseDurationLoop fuel s4 d

/-- Model of `time.ParseDuration`: `none` is the error return. -/
def ParseDuration (s : String) : Option Int :=
  let cs := s.toList
  let neg := decide (cs.head? = some '-')
  let cs := if cs.head? = some '-' ∨ cs.head? = some '+' then cs.tail else cs
  if cs = ['0'] then some 0
  else if cs = [] then none
  else
    match parseDurationLoop cs.length cs 0 with
    | none => none
    | some d =>
      if neg then some (-(d : Int))
      else if d > 2 ^ 63 - 1 then none
      else some (d : Int)

/-! ## Failures and output -/

/-- The ways in which the program stops abnormally. -/
inductive Failure where
  /-- The call `log.Fatalf("unkown service is found: %s", service)`. -/
  | unknownService (service : String)
  /-- The run-time failure of `result[0]` in `weekday` when the pattern does not match. -/
  | indexOutOfRange (day : String)
  /-- The call `panic(err)` in `IsMaintenanceDay` on `invalid weekday`. -/
  | invalidWeekday (day : String)
  /-- The call `log.Fatalf("Fail ordinalOfWeekday: %v", t)`. -/
  | failOrdinalOfWeekday (t : Int)
  /-- The call `log.Fatalf` after a failed `FindAllScheduledIncidents`. -/
  | findAllFailed (err : String)
  /-- The call `log.Fatalf("too many incidents are registered")`. -/
  | tooManyIncidents (n : Nat)
  /-- The call `log.Fatalf("failed to deleteIncidents: %v", err)`. -/
  | deleteFailed (err : String)
  /-- The call `log.Fatalf` after a failed `repository.Add`. -/
  | addFailed (err : String)
  /-- Not a behaviour of the program: the step bound of the modelled date loop of
  `CreateTerms` was reached.  `createTermsLoop_eq` shows that it never is. -/
  | loopBound
  deriving DecidableEq, Repr

deriving instance DecidableEq for Except

/-- One line written by `fmt.Printf`, with the values the format string refers to. -/
inductive LogLine where
  /-- The line `skip: [service] maintenance(start - end) is converted by existsing maintenance(for - until)`. -/
  | skipCovered (service : String) (start finish scheduledFor scheduledUntil : Int)
  /-- The line `alert: name(.../pages/pageId/incidents/id) should be modified to contain start .. end`. -/
  | alert (name pageId id : String) (start finish : Int)
  /-- The line `skip: [service] start - end` of `registerIncidents`. -/
  | skipRegister (service : String) (start finish : Int)
  deriving DecidableEq, Repr

/-! ## Data model (`statuspage.go`, `config.go`, `command_recurring.go`) -/

def key_toolNamespace : String := "statuspage_register_tool"

def key_scheduleType : String := "scheduleType"

def key_scheduleKey : String := "scheduleKey"

def ScheduleType_Recurring : String := "recurring"

/-- A value of Go type `interface{}` as found in incident metadata. -/
inductive MetaValue where
  | str (s : String)
  | num (n : Int)
  | bool (b : Bool)
  | time (t : Int)
  | null
  deriving DecidableEq, Repr

/-- Model of `StatuspageComponnet` (the fields the package reads or that identify it). -/
structure StatuspageComponnet where
  Id : String
  PageId : String := ""
  Name : String := ""
  deriving DecidableEq, Repr

/-- Model of `StatuspageIncident`.  `Metadata` is the two-level Go map, kept as
association lists; a key is looked up with `List.lookup`. -/
structure StatuspageIncident where
  Id : String := ""
  Components : List StatuspageComponnet := []
  Metadata : List (String × List (String × MetaValue)) := []
  Name : String := ""
  PageId : String := ""
  ScheduledFor : Int := 0
  ScheduledUntil : Int := 0
  Status : String := ""
  deriving DecidableEq, Repr

/-- Model of `StatuspageIncidentRequest` (the fields that vary between calls). -/
structure StatuspageIncidentRequest where
  Name : String
  Status : String
  ImpactOverride : String
  ScheduledFor : Int
  ScheduledUntil : Int
  Metadata : List (String × List (String × MetaValue))
  Body : String
  ComponentIds : List String
  deriving DecidableEq, Repr

/-- Model of `StatuspageCreateIncidentRequest`. -/
structure StatuspageCreateIncidentRequest where
  Incident : StatuspageIncidentRequest
  deriving DecidableEq, Repr

/-- Model of `StatuspageService`. -/
structure StatuspageService where
  Service : String
  ComponentIds : List String
  deriving DecidableEq, Repr

/-- Model of `StatuspageConfig`. -/
structure StatuspageConfig where
  StatuspagePageId : String := ""
  StatuspageServices : List StatuspageService := []
  deriving DecidableEq, Repr

/-- Model of `RecurringSchedules`. -/
structure RecurringSchedules where
  Day : String
  Start : String
  Time : String
  deriving DecidableEq, Repr

/-- Model of `RecurringMaintenance`. -/
structure RecurringMaintenance where
  Service : String := ""
  Title : String := ""
  Body : String := ""
  RecurringSchedules : List RecurringSchedules := []
  deriving DecidableEq, Repr

/-- Model of `Term`. -/
structure Term where
  Start : Int
  End : Int
  deriving DecidableEq, Repr

/-- Model of `ScheduledTerm`. -/
structure ScheduledTerm where
  Service : String := ""
  Title : String := ""
  Body : String := ""
  Start : Int
  End : Int
  deriving DecidableEq, Repr

/-- Model of `RecurringCommand`. -/
structure RecurringCommand where
  ScheduleFilename : String := ""
  FromDate : Int
  ToDate : Int
  isDryRun : Bool := false
  StatuspageFilename : String := ""
  AccessToken : String := ""
  deriving DecidableEq, Repr

def everyOrdinal : Int := -1

/-! ## `statuspage.go` and `config.go` -/

/-- Model of `isRecurringSchedule`: the namespace must be present; the schedule
type must be absent or equal to `recurring`. -/
def StatuspageIncident.isRecurringSchedule (incident : StatuspageIncident) : Bool :=
  match incident.Metadata.lookup key_toolNamespace with
  | none => false
  | some data =>
    match data.lookup key_scheduleType with
    | none => true
    | some t => decide (t = MetaValue.str ScheduleType_Recurring)

/-- Model of `isSameComponentIds`. -/
def StatuspageIncident.isSameComponentIds (incident : StatuspageIncident)
    (ids : List String) : Bool :=
  if ids.length ≠ incident.Components.length then false
  else incident.Components.all (fun c => ids.any (fun id => decide (c.Id = id)))

/-- Model of `isSameTerm`. -/
def StatuspageIncident.isSameTerm (incident : StatuspageIncident) (start finish : Int) : Bool :=
  Time.Equal start incident.ScheduledFor && Time.Equal finish incident.ScheduledUntil

/-- Model of `findComponentByServiceName`: the first entry with that service name. -/
def StatuspageConfig.findComponentByServiceName (config : StatuspageConfig)
    (service : String) : Option StatuspageService :=
  config.StatuspageServices.find? (fun c => decide (c.Service = service))

/-! ## Adjusting the schedule (`adjustIncients`) -/

/-- Model of `hasSameComponent`. -/
def ScheduledTerm.hasSameComponent (s : ScheduledTerm) (incident : StatuspageIncident)
    (config : StatuspageConfig) : Except Failure Bool :=
  match config.findComponentByServiceName s.Service with
  | none => .error (Failure.unknownService s.Service)
  | some component => .ok (incident.isSameComponentIds component.ComponentIds)

/-- Model of `isOverlapped`. -/
def ScheduledTerm.isOverlapped (s : ScheduledTerm) (i : StatuspageIncident) : Bool :=
  (Time.Equal i.ScheduledFor s.End || Time.Before i.ScheduledFor s.End) &&
    (Time.Equal i.ScheduledUntil s.Start || Time.After i.ScheduledUntil s.Start)

/-- Model of `isCovered`. -/
def ScheduledTerm.isCovered (s : ScheduledTerm) (i : StatuspageIncident) : Bool :=
  (Time.Equal i.ScheduledFor s.Start || Time.Before i.ScheduledFor s.Start) &&
    (Time.Equal i.ScheduledUntil s.End || Time.After i.ScheduledUntil s.End)

/-- The line printed by `adjustIncients` for term `s` at the incident `i` it overlaps. -/
def adjustLine (s : ScheduledTerm) (i : StatuspageIncident) : LogLine :=
  if s.isCovered i then
    LogLine.skipCovered s.Service s.Start s.End i.ScheduledFor i.ScheduledUntil
  else
    LogLine.alert i.Name i.PageId i.Id s.Start s.End

/-- The inner loop of `adjustIncients` for one term: `some line` when the loop
set `overlaped` and left through `break` after printing `line`. -/
def adjustInner (s : ScheduledTerm) (config : StatuspageConfig) :
    List StatuspageIncident → Except Failure (Option LogLine)
  | [] => .ok none
  | i :: rest =>
    if i.isRecurringSchedule then adjustInner s config rest
    else
      match s.hasSameComponent i config with
      | .error e => .error e
      | .ok false => adjustInner s config rest
      | .ok true =>
        if s.isOverlapped i then .ok (some (adjustLine s i))
        else adjustInner s config rest

/-- The outer loop of `adjustIncients`, with `newSchedules` and the output so far. -/
def adjustLoop (incidents : List StatuspageIncident) (config : StatuspageConfig) :
    List ScheduledTerm → List ScheduledTerm → List LogLine →
      Except Failure (List ScheduledTerm × List LogLine)
  | [], newSchedules, out => .ok (newSchedules, out)
  | s :: rest, newSchedules, out =>
    match adjustInner s config incidents with
    | .error e => .error e
    | .ok (some line) => adjustLoop incidents config rest newSchedules (out ++ [line])
    | .ok none => adjustLoop incidents config rest (newSchedules ++ [s]) out

/-- Model of `adjustIncients`: the surviving terms and the lines printed. -/
def RecurringCommand.adjustIncients (_c : RecurringCommand)
    (incidents : List StatuspageIncident) (schedules : List ScheduledTerm)
    (config : StatuspageConfig) : Except Failure (List ScheduledTerm × List LogLine) :=
  adjustLoop incidents config schedules [] []

/-! ## Creating the schedule (`CreateSchedule`, `margeTerms`, `CreateTerms`) -/

/-- Model of `isEveryDay`. -/
def RecurringSchedules.isEveryDay (s : RecurringSchedules) : Bool :=
  decide (toLower s.Day = "everyday")

/-- The class `\s` of Go regular expressions. -/
def isSpace (c : Char) : Bool :=
  decide (c = '\t') || decide (c = '\n') || decide (c = '\x0c') || decide (c = '\r') ||
    decide (c = ' ')

/-- Removes the literal `lit` from the front of `s`, `none` when `s` does not start with it. -/
def dropLiteral : List Char → List Char → Option (List Char)
  | [], s => some s
  | _ :: _, [] => none
  | a :: lit, b :: s => if a = b then dropLiteral lit s else none

/-- The first group `(1st|2nd|3rd|[4,5]+th|every)` at the front of `s`: the text
it captures and the rest. -/
def matchOrdinal (s : List Char) : Option (List Char × List Char) :=
  match dropLiteral "1st".toList s with
  | some r => some ("1st".toList, r)
  | none =>
  match dropLiteral "2nd".toList s with
  | some r => some ("2nd".toList, r)
  | none =>
  match dropLiteral "3rd".toList s with
  | some r => some ("3rd".toList, r)
  | none =>
  let isClass : Char → Bool := fun c => decide (c = '4') || decide (c = ',') || decide (c = '5')
  let run := s.takeWhile isClass
  match (if run = [] then none else dropLiteral "th".toList (s.dropWhile isClass)) with
  | some r => some (run ++ "th".toList, r)
  | none =>
  match dropLiteral "every".toList s with
  | some r => some ("every".toList, r)
  | none => none

/-- The second group `(sunday|monday|tuesday|wednesday|thursday|friday|saturday)`
at the front of `s`: the name it captures and the rest. -/
def matchWeekdayName (s : List Char) : Option (List Char × List Char) :=
  (["sunday", "monday", "tuesday", "wednesday", "thursday", "friday", "saturday"].filterMap
    (fun name => (dropLiteral name.toList s).map (fun r => (name.toList, r)))).head?

/-- The two groups of the only match of
`^\s*(1st|2nd|3rd|[4,5]+th|every)\s+(sunday|...|saturday)\s*$` in `s`, `none`
when the text does not match (`FindAllStringSubmatch` then returns no match). -/
def matchDayPattern (s : List Char) : Option (List Char × List Char) :=
  match matchOrdinal (s.dropWhile isSpace) with
  | none => none
  | some (o, r) =>
    if (r.head?.map isSpace) = some true then
      match matchWeekdayName (r.dropWhile isSpace) with
      | none => none
      | some (w, r2) => if r2.all isSpace then some (o, w) else none
    else none

/-- Model of `weekday`: the three results `(ordinal, weekday, err)`; the
`error` branch is the run-time failure of `result[0]` on a text without match. -/
def RecurringSchedules.weekday (s : RecurringSchedules) :
    Except Failure (Int × String × Option String) :=
  match matchDayPattern s.Day.toList with
  | none => .error (Failure.indexOutOfRange s.Day)
  | some (o, w) =>
    if toLower (String.mk o) = "every" then .ok (everyOrdinal, String.mk w, none)
    else if toLower (String.mk o) = "1st" then .ok (1, String.mk w, none)
    else if toLower (String.mk o) = "2nd" then .ok (2, String.mk w, none)
    else if toLower (String.mk o) = "3rd" then .ok (3, String.mk w, none)
    else if toLower (String.mk o) = "4th" then .ok (4, String.mk w, none)
    else if toLower (String.mk o) = "5th" then .ok (5, String.mk w, none)
    else .ok (-1, "", some ("invalid weekday: " ++ s.Day))

/-- The loop of `ordinalOfWeekday` from day `d` on with `n` rounds left; `none`
when the loop ends without reaching `target`. -/
def ordinalLoop (y m : Int) (target : Int) : Nat → Int → Int → Option Int
  | 0, _, _ => none
  | n + 1, d, ordinal =>
    let date := Date y m d 0 0 0 0
    let ordinal := if Time.Weekday date = Time.Weekday target then ordinal + 1 else ordinal
    if date = target then some ordinal else ordinalLoop y m target n (d + 1) ordinal

/-- Model of `ordinalOfWeekday`. -/
def RecurringSchedules.ordinalOfWeekday (_s : RecurringSchedules) (t : Int) :
    Except Failure Int :=
  let y := Time.Year t
  let m := Time.Month t
  let target := Date y m (Time.Day t) 0 0 0 0
  let first := Date y m 1 0 0 0 0
  let last := Time.AddDate first 0 1 (-1)
  let lastDayOfMonth := Time.Day last
  match ordinalLoop y m target lastDayOfMonth.toNat 1 0 with
  | some ordinal => .ok ordinal
  | none => .error (Failure.failOrdinalOfWeekday t)

/-- Model of `IsMaintenanceDay`. -/
def RecurringSchedules.IsMaintenanceDay (s : RecurringSchedules) (base : Int) :
    Except Failure Bool :=
  if s.isEveryDay then .ok true
  else
    match s.weekday with
    | .error e => .error e
    | .ok (_, _, some _) => .error (Failure.invalidWeekday s.Day)
    | .ok (ordinal, weekday, none) =>
      if ordinal = everyOrdinal then
        .ok (decide (weekday = toLower (weekdayString (Time.Weekday base))))
      else
        match s.ordinalOfWeekday base with
        | .error e => .error e
        | .ok n =>
          .ok (decide (ordinal = n) && decide (weekday = toLower (weekdayString (Time.Weekday base))))

/-- The term appended by `CreateTerms` for a maintenance day; a text that
`time.ParseDuration` rejects counts as the zero duration, the error being dropped. -/
def RecurringSchedules.termAt (s : RecurringSchedules) (date : Int) : Term :=
  let start : Int := (ParseDuration s.Start).getD 0
  let t : Int := (ParseDuration s.Time).getD 0
  { Start := Time.Add date start, End := Time.Add (Time.Add date start) t }

/-- The loop of `CreateTerms` from `date` on, with at most `fuel` rounds. -/
def createTermsLoop (s : RecurringSchedules) (limit : Int) :
    Nat → Int → List Term → Except Failure (List Term)
  | 0, date, terms => if Time.Before date limit then .error Failure.loopBound else .ok terms
  | fuel + 1, date, terms =>
    if Time.Before date limit then
      match s.IsMaintenanceDay date with
      | .error e => .error e
      | .ok true => createTermsLoop s limit fuel (Time.AddDate date 0 0 1) (terms ++ [s.termAt date])
      | .ok false => createTermsLoop s limit fuel (Time.AddDate date 0 0 1) terms
    else .ok terms

/-- Model of `CreateTerms`.  The loop runs once per day from `firstDate` while
the date is before `lastDate` plus one day; the bound given to the loop is that
number of days. -/
def RecurringSchedules.CreateTerms (s : RecurringSchedules)
    (firstDate lastDate : Int) :
    Except Failure (List Term) :=
  let limit := Time.AddDate lastDate 0 0 1
  createTermsLoop s limit ((limit - firstDate + nsPerDay - 1) / nsPerDay).toNat firstDate []

/-- The inner loop of `margeTerms` for the incoming term `m1`: `some` list with
the first overlapping entry widened, `none` when no entry overlaps (`merged` stays false). -/
def margeInto (m1 : Term) : List Term → Option (List Term)
  | [] => none
  | m2 :: rest =>
    if Time.Before m1.Start m2.End && Time.After m1.End m2.Start then
      let m2 : Term := if Time.Before m1.Start m2.Start then { m2 with Start := m1.Start } else m2
      let m2 : Term := if Time.Before m2.End m1.End then { m2 with End := m1.End } else m2
      some (m2 :: rest)
    else (margeInto m1 rest).map (fun l => m2 :: l)

/-- Model of `margeTerms`. -/
def RecurringCommand.margeTerms (c : RecurringCommand) : List Term → List Term → List Term
  | terms1, [] => terms1
  | terms1, m1 :: rest =>
    match margeInto m1 terms1 with
    | some merged => c.margeTerms merged rest
    | none => c.margeTerms (terms1 ++ [m1]) rest

/-- The loop of `CreateSchedule` over the rules of one maintenance. -/
def createScheduleRules (c : RecurringCommand) :
    List RecurringSchedules → List Term → Except Failure (List Term)
  | [], terms => .ok terms
  | s :: rest, terms =>
    match s.CreateTerms c.FromDate c.ToDate with
    | .error e => .error e
    | .ok created => createScheduleRules c rest (c.margeTerms terms created)

/-- The scheduled terms of one maintenance for its merged terms. -/
def scheduledTermsOf (ps : RecurringMaintenance) (terms : List Term) : List ScheduledTerm :=
  terms.map (fun t =>
    { Service := ps.Service, Start := t.Start, End := t.End, Title := ps.Title, Body := ps.Body })

/-- The loop of `CreateSchedule` over the maintenances. -/
def createScheduleLoop (c : RecurringCommand) :
    List RecurringMaintenance → List ScheduledTerm → Except Failure (List ScheduledTerm)
  | [], scheduledTerms => .ok scheduledTerms
  | ps :: rest, scheduledTerms =>
    match createScheduleRules c ps.RecurringSchedules [] with
    | .error e => .error e
    | .ok terms => createScheduleLoop c rest (scheduledTerms ++ scheduledTermsOf ps terms)

/-- Model of `CreateSchedule`. -/
def RecurringCommand.CreateSchedule (c : RecurringCommand)
    (maintenances : List RecurringMaintenance) : Except Failure (List ScheduledTerm) :=
  createScheduleLoop c maintenances []

/-! ## Registering and deleting incidents (`deleteIncidents`, `registerIncidents`) -/

/-- Model of `CreateMaintenanceStatuspageData`; `now` is the reading of
`time.Now()` stored under `createdAt`. -/
def CreateMaintenanceStatuspageData (title body : String) (componentIds : List String)
    (start finish : Int) (scheduleType scheduleKey : String) (now : Int) :
    StatuspageCreateIncidentRequest :=
  { Incident :=
    { Name := title
      Status := "scheduled"
      ImpactOverride := "maintenance"
      ScheduledFor := start
      ScheduledUntil := finish
      Metadata :=
        [(key_toolNamespace,
          [("createdAt", MetaValue.time now),
           (key_scheduleType, MetaValue.str scheduleType),
           (key_scheduleKey, MetaValue.str scheduleKey)])]
      Body := body
      ComponentIds := componentIds } }

/-- A write call issued to the repository. -/
inductive Call where
  | Delete (incident : StatuspageIncident)
  | Add (data : StatuspageCreateIncidentRequest)
  deriving DecidableEq, Repr

/-- Model of the interface `StatuspageRepository`: an implementation with state
`σ`; every call returns the next state and its result, `some err` being a
non-nil `error`. -/
structure StatuspageRepository (σ : Type) where
  Add : σ → StatuspageCreateIncidentRequest → σ × Option String
  FindAllScheduledIncidents : σ → Int → Int → σ × Except String (List StatuspageIncident)
  Delete : σ → StatuspageIncident → σ × Option String

/-- The state of a run: the state of the repository, the write calls issued so
far in order, and the lines printed so far. -/
structure RunState (σ : Type) where
  repo : σ
  calls : List Call := []
  out : List LogLine := []

/-- Model of `existsSameIncident`. -/
def RecurringCommand.existsSameIncident (_c : RecurringCommand)
    (incidents : List StatuspageIncident) (config : StatuspageConfig)
    (schedule : ScheduledTerm) : Except Failure Bool :=
  match config.findComponentByServiceName schedule.Service with
  | none => .error (Failure.unknownService schedule.Service)
  | some component =>
    .ok (incidents.any (fun incident =>
      incident.isSameComponentIds component.ComponentIds &&
        incident.isSameTerm schedule.Start schedule.End))

/-- The inner loop of `deleteIncidents` for one incident: the value of `exsists`. -/
def deleteExists (c : RecurringCommand) (i : StatuspageIncident) (config : StatuspageConfig) :
    List ScheduledTerm → Except Failure Bool
  | [] => .ok false
  | s :: rest =>
    match c.existsSameIncident [i] config s with
    | .error e => .error e
    | .ok true => .ok true
    | .ok false => deleteExists c i config rest

/-- The first loop of `deleteIncidents`, with `toBeDeleted` so far. -/
def toBeDeletedLoop (c : RecurringCommand) (config : StatuspageConfig)
    (schedules : List ScheduledTerm) :
    List StatuspageIncident → List StatuspageIncident → Except Failure (List StatuspageIncident)
  | [], toBeDeleted => .ok toBeDeleted
  | i :: rest, toBeDeleted =>
    match deleteExists c i config schedules with
    | .error e => .error e
    | .ok exsists =>
      if !exsists && i.isRecurringSchedule && Time.After i.ScheduledFor c.FromDate &&
          Time.Before i.ScheduledFor c.ToDate then
        toBeDeletedLoop c config schedules rest (toBeDeleted ++ [i])
      else toBeDeletedLoop c config schedules rest toBeDeleted

/-- The list `toBeDeleted` that `deleteIncidents` computes. -/
def RecurringCommand.toBeDeleted (c : RecurringCommand) (incidents : List StatuspageIncident)
    (config : StatuspageConfig) (schedules : List ScheduledTerm) :
    Except Failure (List StatuspageIncident) :=
  toBeDeletedLoop c config schedules incidents []

/-- The second loop of `deleteIncidents`: one `Delete` per incident, stopping at
the first call that returns an error. -/
def deleteCalls {σ : Type} (repository : StatuspageRepository σ) :
    List StatuspageIncident → RunState σ → RunState σ × Option Failure
  | [], st => (st, none)
  | i :: rest, st =>
    let r := repository.Delete st.repo i
    let st : RunState σ := { st with repo := r.1, calls := st.calls ++ [Call.Delete i] }
    match r.2 with
    | some err => (st, some (Failure.deleteFailed err))
    | none => deleteCalls repository rest st

/-- Model of `deleteIncidents`. -/
def RecurringCommand.deleteIncidents {σ : Type} (c : RecurringCommand)
    (repository : StatuspageRepository σ) (incidents : List StatuspageIncident)
    (config : StatuspageConfig) (schedules : List ScheduledTerm) (st : RunState σ) :
    RunState σ × Option Failure :=
  match c.toBeDeleted incidents config schedules with
  | .error e => (st, some e)
  | .ok toBeDeleted => deleteCalls repository toBeDeleted st

/-- The first loop of `registerIncidents`, with `toBeRegistered` and the output
so far; `now` is the reading of `time.Now()`. -/
def toBeRegisteredLoop (c : RecurringCommand) (incidents : List StatuspageIncident)
    (config : StatuspageConfig) (now : Int) :
    List ScheduledTerm → List ScheduledTerm → List LogLine →
      Except Failure (List ScheduledTerm × List LogLine)
  | [], toBeRegistered, out => .ok (toBeRegistered, out)
  | s :: rest, toBeRegistered, out =>
    match c.existsSameIncident incidents config s with
    | .error e => .error e
    | .ok found =>
      if !found && Time.After s.Start c.FromDate &&
          Time.Before s.Start (Time.AddDate c.ToDate 0 0 1) && Time.After s.Start now then
        toBeRegisteredLoop c incidents config now rest (toBeRegistered ++ [s]) out
      else
        toBeRegisteredLoop c incidents config now rest toBeRegistered
          (out ++ [LogLine.skipRegister s.Service s.Start s.End])

/-- The list `toBeRegistered` that `registerIncidents` computes, and the lines printed. -/
def RecurringCommand.toBeRegistered (c : RecurringCommand) (incidents : List StatuspageIncident)
    (config : StatuspageConfig) (schedules : List ScheduledTerm) (now : Int) :
    Except Failure (List ScheduledTerm × List LogLine) :=
  toBeRegisteredLoop c incidents config now schedules [] []

/-- The second loop of `registerIncidents`: one `Add` per term, stopping at the
first call that returns an error. -/
def registerCalls {σ : Type} (repository : StatuspageRepository σ) (config : StatuspageConfig)
    (now : Int) : List ScheduledTerm → RunState σ → RunState σ × Option Failure
  | [], st => (st, none)
  | s :: rest, st =>
    match config.findComponentByServiceName s.Service with
    | none => (st, some (Failure.unknownService s.Service))
    | some component =>
      let data := CreateMaintenanceStatuspageData s.Title s.Body component.ComponentIds
        s.Start s.End ScheduleType_Recurring "" now
      let r := repository.Add st.repo data
      let st : RunState σ := { st with repo := r.1, calls := st.calls ++ [Call.Add data] }
      match r.2 with
      | some err => (st, some (Failure.addFailed err))
      | none => registerCalls repository config now rest st

/-- Model of `registerIncidents`. -/
def RecurringCommand.registerIncidents {σ : Type} (c : RecurringCommand)
    (repository : StatuspageRepository σ) (incidents : List StatuspageIncident)
    (config : StatuspageConfig) (schedules : List ScheduledTerm) (now : Int)
    (st : RunState σ) : RunState σ × Option Failure :=
  match c.toBeRegistered incidents config schedules now with
  | .error e => (st, some e)
  | .ok (toBeRegistered, out) =>
    registerCalls repository config now toBeRegistered { st with out := st.out ++ out }

/-- Model of `Run`.  The two documents read by `loadFromFile` and the repository
chosen by `getStatuspageRepository` are arguments, and `now` is the reading of
`time.Now()`. -/
def RecurringCommand.Run {σ : Type} (c : RecurringCommand)
    (maintenances : List RecurringMaintenance) (statuspageConfig : StatuspageConfig)
    (repository : StatuspageRepository σ) (now : Int) (st : RunState σ) :
    RunState σ × Option Failure :=
  match c.CreateSchedule maintenances with
  | .error e => (st, some e)
  | .ok scheduledTerms =>
    let r := repository.FindAllScheduledIncidents st.repo 1 200
    let st : RunState σ := { st with repo := r.1 }
    match r.2 with
    | .error err => (st, some (Failure.findAllFailed err))
    | .ok incidents =>
      if incidents.length ≥ 200 then (st, some (Failure.tooManyIncidents incidents.length))
      else
        match c.adjustIncients incidents scheduledTerms statuspageConfig with
        | .error e => (st, some e)
        | .ok (adjusted, out) =>
          let st : RunState σ := { st with out := st.out ++ out }
          match c.deleteIncidents repository incidents statuspageConfig adjusted st with
          | (st, some e) => (st, some e)
          | (st, none) =>
            c.registerIncidents repository incidents statuspageConfig adjusted now st

/-! ## Notions used to state the properties -/

/-- The component ids the mapping gives for a service, none when the service is absent. -/
def StatuspageConfig.componentIdsOf (config : StatuspageConfig) (service : String) :
    List String :=
  match config.findComponentByServiceName service with
  | some component => component.ComponentIds
  | none => []

/-- The incidents that make `adjustIncients` drop the term `s`: not a recurring
schedule of the tool, the component ids of the service of `s`, and a window that
meets the closed window of `s`. -/
def ScheduledTerm.blockedBy (s : ScheduledTerm) (config : StatuspageConfig)
    (i : StatuspageIncident) : Bool :=
  !i.isRecurringSchedule && i.isSameComponentIds (config.componentIdsOf s.Service) &&
    (decide (i.ScheduledFor ≤ s.End) && decide (i.ScheduledUntil ≥ s.Start))

/-- Whether a printed line is an `alert:` line. -/
def LogLine.isAlert : LogLine → Bool
  | LogLine.alert _ _ _ _ _ => true
  | _ => false

/-- Model of the test helper `timeOf` (and of `dateOf` with hour and minute zero). -/
def timeOf (year month day hour min : Int) : Int := Date year month day hour min 0 0

/-! ## Sample data (from `command_recurring_test.go`) -/

/-- The configuration of `TestAdjustIncients`. -/
def testConfig : StatuspageConfig :=
  { StatuspagePageId := "testPageId"
    StatuspageServices :=
      [{ Service := "testService", ComponentIds := ["testComponentId"] },
       { Service := "testService2", ComponentIds := ["testComponentId1", "testComponentId2"] }] }

/-- The command of `TestAdjustIncients`. -/
def testCommand : RecurringCommand :=
  { FromDate := timeOf 2020 1 1 0 0, ToDate := timeOf 2020 1 5 0 0 }

/-- The incidents of the case `many copmonents` of `TestAdjustIncients`. -/
def testIncidents : List StatuspageIncident :=
  [{ Id := "1", PageId := "page1", Components := [{ Id := "testComponentId" }]
     ScheduledFor := timeOf 2020 1 1 1 0, ScheduledUntil := timeOf 2020 1 1 1 10 },
   { Id := "2", Components := [{ Id := "testComponentId1" }, { Id := "testComponentId2" }]
     ScheduledFor := timeOf 2020 1 1 1 0, ScheduledUntil := timeOf 2020 1 1 1 10 }]

/-- The terms of the case `many copmonents` of `TestAdjustIncients`. -/
def testTerms : List ScheduledTerm :=
  [{ Service := "testService", Start := timeOf 2020 1 1 1 0, End := timeOf 2020 1 1 1 10 },
   { Service := "testService2", Start := timeOf 2020 1 1 1 0, End := timeOf 2020 1 1 1 10 },
   { Service := "testService", Start := timeOf 2020 1 1 2 0, End := timeOf 2020 1 1 2 10 }]

/-- An incident that meets the window 01:05 to 01:15 without covering it,
followed by one that covers it. -/
def alertIncidents : List StatuspageIncident :=
  [{ Id := "1", PageId := "page1", Name := "first", Components := [{ Id := "testComponentId" }]
     ScheduledFor := timeOf 2020 1 1 1 0, ScheduledUntil := timeOf 2020 1 1 1 10 },
   { Id := "2", PageId := "page1", Name := "second", Components := [{ Id := "testComponentId" }]
     ScheduledFor := timeOf 2020 1 1 1 0, ScheduledUntil := timeOf 2020 1 1 1 30 }]

/-- The term 01:05 to 01:15 of the case `overlapped && !covered` of `TestAdjustIncients`. -/
def alertTerms : List ScheduledTerm :=
  [{ Service := "testService", Start := timeOf 2020 1 1 1 5, End := timeOf 2020 1 1 1 15 }]

/-- The number of days of month `m` (1..12) of a year. -/
def daysIn (leap : Bool) (m : Int) : Int :=
  daysBefore m - daysBefore (m - 1) + (if leap && decide (m = 2) then 1 else 0)

/-- Whether the incident has the component ids mapped to the service of the term
and exactly the start and end of the term. -/
def StatuspageIncident.sameAs (i : StatuspageIncident) (config : StatuspageConfig)
    (s : ScheduledTerm) : Bool :=
  i.isSameComponentIds (config.componentIdsOf s.Service) &&
    (decide (s.Start = i.ScheduledFor) && decide (s.End = i.ScheduledUntil))

/-- The four conditions under which `registerIncidents` adds the term `s`. -/
def RecurringCommand.addable (c : RecurringCommand) (incidents : List StatuspageIncident)
    (config : StatuspageConfig) (now : Int) (s : ScheduledTerm) : Bool :=
  !incidents.any (fun i => i.sameAs config s) && decide (c.FromDate < s.Start) &&
    decide (s.Start < c.ToDate + nsPerDay) && decide (now < s.Start)

/-- The three conditions under which `deleteIncidents` deletes the incident `i`. -/
def RecurringCommand.deletable (c : RecurringCommand) (config : StatuspageConfig)
    (schedules : List ScheduledTerm) (i : StatuspageIncident) : Bool :=
  i.isRecurringSchedule &&
    (decide (c.FromDate < i.ScheduledFor) && decide (i.ScheduledFor < c.ToDate)) &&
    !schedules.any (fun s => i.sameAs config s)

/-- The request that `registerIncidents` passes to `Add` for the term `s`. -/
def addRequest (config : StatuspageConfig) (now : Int) (s : ScheduledTerm) :
    StatuspageCreateIncidentRequest :=
  CreateMaintenanceStatuspageData s.Title s.Body (config.componentIdsOf s.Service)
    s.Start s.End ScheduleType_Recurring "" now

/-- The metadata of an incident registered by the tool as a recurring schedule. -/
def recurringMetadata : List (String × List (String × MetaValue)) :=
  [(key_toolNamespace, [(key_scheduleType, MetaValue.str ScheduleType_Recurring)])]

/-- Remote incidents for the examples of `registerIncidents` and `deleteIncidents`:
a recurring schedule of the tool on January 2 that matches a term, one on January 3
that matches none, one on January 7 outside the dates of the run, and an incident
on January 3 without metadata of the tool. -/
def diffIncidents : List StatuspageIncident :=
  [{ Id := "a", Components := [{ Id := "testComponentId" }], Metadata := recurringMetadata
     ScheduledFor := timeOf 2020 1 2 1 0, ScheduledUntil := timeOf 2020 1 2 1 10 },
   { Id := "b", Components := [{ Id := "testComponentId" }], Metadata := recurringMetadata
     ScheduledFor := timeOf 2020 1 3 1 0, ScheduledUntil := timeOf 2020 1 3 1 10 },
   { Id := "c", Components := [{ Id := "testComponentId" }], Metadata := recurringMetadata
     ScheduledFor := timeOf 2020 1 7 1 0, ScheduledUntil := timeOf 2020 1 7 1 10 },
   { Id := "d", Components := [{ Id := "testComponentId1" }, { Id := "testComponentId2" }]
     ScheduledFor := timeOf 2020 1 3 5 0, ScheduledUntil := timeOf 2020 1 3 5 10 }]

/-- Desired terms for the examples of `registerIncidents` and `deleteIncidents`:
one that starts at the first date of the run, one that is registered already,
one in the past of the moment January 2 12:00, one that can be added, and one
that starts after the last date plus one day. -/
def diffTerms : List ScheduledTerm :=
  [{ Service := "testService", Start := timeOf 2020 1 1 0 0, End := timeOf 2020 1 1 0 10 },
   { Service := "testService", Start := timeOf 2020 1 2 1 0, End := timeOf 2020 1 2 1 10 },
   { Service := "testService", Start := timeOf 2020 1 2 2 0, End := timeOf 2020 1 2 2 10 },
   { Service := "testService", Start := timeOf 2020 1 4 1 0, End := timeOf 2020 1 4 1 10 },
   { Service := "testService", Start := timeOf 2020 1 6 1 0, End := timeOf 2020 1 6 1 10 }]

/-- The remote incident that a request accepted by the store becomes: its
components are the component ids of the request, its window and metadata are
those of the request. -/
def StatuspageCreateIncidentRequest.toIncident (data : StatuspageCreateIncidentRequest)
    (id : String) : StatuspageIncident :=
  { Id := id
    Components := data.Incident.ComponentIds.map (fun cid => { Id := cid })
    Metadata := data.Incident.Metadata
    Name := data.Incident.Name
    ScheduledFor := data.Incident.ScheduledFor
    ScheduledUntil := data.Incident.ScheduledUntil
    Status := data.Incident.Status }

/-- A repository that keeps the incidents in a list: `FindAllScheduledIncidents`
returns the list, `Delete` removes the incident, `Add` appends the incident the
request becomes.  No call fails. -/
def memoryRepository : StatuspageRepository (List StatuspageIncident) where
  Add := fun store data => (store ++ [data.toIncident ""], none)
  FindAllScheduledIncidents := fun store _ _ => (store, .ok store)
  Delete := fun store i => (store.filter (fun j => decide (j ≠ i)), none)

/-- A maintenance of `testService` every day at 02:00 for ten minutes. -/
def dailyMaintenance : List RecurringMaintenance :=
  [{ Service := "testService", Title := "daily", Body := "daily maintenance"
     RecurringSchedules := [{ Day := "everyday", Start := "2h", Time := "10m" }] }]

/-- The remote incidents after a run: the incidents read before the run without
the deleted ones, followed by the incidents that the added requests became. -/
def remoteAfter (incidents deleted : List StatuspageIncident)
    (added : List StatuspageIncident) : List StatuspageIncident :=
  incidents.filter (fun i => decide (i ∉ deleted)) ++ added

/-- The remote incident that the term `s` becomes when `registerIncidents` adds
it at the moment `now` and the store gives it the id `id`. -/
def registeredIncident (config : StatuspageConfig) (now : Int) (id : String)
    (s : ScheduledTerm) : StatuspageIncident :=
  (addRequest config now s).toIncident id

/-- The schedule of `dailyMaintenance` from 2020-01-01 to 2020-01-05. -/
def dailyTerms : List ScheduledTerm :=
  [1, 2, 3, 4, 5].map (fun d =>
    { Service := "testService", Title := "daily", Body := "daily maintenance"
      Start := timeOf 2020 1 d 2 0, End := timeOf 2020 1 d 2 10 })

/-- A maintenance with three rules for every day: 10:00 for one hour, 12:00 for
one hour, and 10:30 for two hours. -/
def chainMaintenance : List RecurringMaintenance :=
  [{ Service := "test"
     RecurringSchedules :=
       [{ Day := "everyday", Start := "10h", Time := "1h" },
        { Day := "everyday", Start := "12h", Time := "1h" },
        { Day := "everyday", Start := "10h30m", Time := "2h" }] }]

/-- The command for the single day 2020-01-01. -/
def oneDayCommand : RecurringCommand :=
  { FromDate := timeOf 2020 1 1 0 0, ToDate := timeOf 2020 1 1 0 0 }

/-- The number of days `d` from 1 to the day of `t` in the month of `t` whose
weekday is the weekday of `t`: `t` is the n-th occurrence of its weekday within
its calendar month when this number is n. -/
def occurrenceInMonth (t : Int) : Int :=
  ((List.range (Time.Day t).toNat).filter (fun (k : Nat) =>
    decide (Time.Weekday (Date (Time.Year t) (Time.Month t) ((k : Int) + 1) 0 0 0 0) =
      Time.Weekday t))).length

/-- The ordinal of a rule as written in a day specification. -/
def ordinalName (n : Int) : String :=
  if n = 1 then "1st"
  else if n = 2 then "2nd"
  else if n = 3 then "3rd"
  else if n = 4 then "4th"
  else "5th"

/-- The weekday `w` (Sunday being 0) as written in a day specification. -/
def weekdayName (w : Int) : String := toLower (weekdayString w)

/-- A rule with the day specification `day` that starts at 23:50 and lasts twenty minutes. -/
def ruleOf (day : String) : RecurringSchedules := { Day := day, Start := "23h50m", Time := "20m" }

/-- Whether the day specification of the rule is valid: it is `everyday`, or
`weekday` returns an ordinal and a weekday without error. -/
def RecurringSchedules.validDay (s : RecurringSchedules) : Bool :=
  s.isEveryDay ||
    (match s.weekday with
     | .ok (_, _, none) => true
     | _ => false)

/-- The calendar dates from `first` to `last`, both at midnight, in increasing order. -/
def datesOfRange (first last : Int) : List Int :=
  (List.range ((last - first) / nsPerDay + 1).toNat).map (fun (k : Nat) => first + k * nsPerDay)

/-- The terms that `adjustIncients` keeps: those that no incident blocks. -/
def adjustedTerms (config : StatuspageConfig) (incidents : List StatuspageIncident)
    (schedules : List ScheduledTerm) : List ScheduledTerm :=
  schedules.filter (fun s => !incidents.any (s.blockedBy config))

/-- The component ids of an incident, in the order of its components. -/
def StatuspageIncident.componentIds (incident : StatuspageIncident) : List String :=
  incident.Components.map (fun c => c.Id)

/-- The schedule type recorded under the namespace of the tool, if any. -/
def StatuspageIncident.scheduleType (incident : StatuspageIncident) : Option MetaValue :=
  (incident.Metadata.lookup key_toolNamespace).bind (fun data => data.lookup key_scheduleType)

/-- An incident with the components `a` and `b`. -/
def abIncident : StatuspageIncident := { Id := "1", Components := [{ Id := "a" }, { Id := "b" }] }

/-- An incident with the components `b` and `a`. -/
def baIncident : StatuspageIncident := { Id := "1", Components := [{ Id := "b" }, { Id := "a" }] }

/-- An incident that lists the component `a` twice. -/
def aaIncident : StatuspageIncident := { Id := "1", Components := [{ Id := "a" }, { Id := "a" }] }

/-- An incident with the namespace of the tool in its metadata and no schedule type under it. -/
def untypedIncident : StatuspageIncident :=
  { Id := "1", Metadata := [(key_toolNamespace, [("createdAt", MetaValue.time 0)])] }

/-- An incident whose metadata records a schedule type other than `recurring`
under the namespace of the tool. -/
def onceIncident : StatuspageIncident :=
  { Id := "1", Metadata := [(key_toolNamespace, [(key_scheduleType, MetaValue.str "once")])] }

/-- The terms that `CreateTerms` returns for the rule over the dates of the
command, none when it fails. -/
def createdTerms (c : RecurringCommand) (s : RecurringSchedules) : List Term :=
  match s.CreateTerms c.FromDate c.ToDate with
  | .ok terms => terms
  | .error _ => []

/-- The merged term list of one maintenance definition: the terms of its rules
merged rule by rule, in merge order. -/
def mergedTerms (c : RecurringCommand) (ps : RecurringMaintenance) : List Term :=
  ps.RecurringSchedules.foldl (fun terms s => c.margeTerms terms (createdTerms c s)) []

/-- The definitions `test1` and `test2` of the case `2 Services` of `TestCreateSchedule`. -/
def twoServices : List RecurringMaintenance :=
  [{ Service := "test1", Title := "first", Body := "body of first"
     RecurringSchedules := [{ Day := "everyday", Start := "23h50m", Time := "20m" }] },
   { Service := "test2", Title := "second", Body := "body of second"
     RecurringSchedules := [{ Day := "1st wednesday", Start := "10h00m", Time := "20m" }] }]

/-- The command of the case `2 Services` of `TestCreateSchedule`. -/
def twoDayCommand : RecurringCommand :=
  { FromDate := timeOf 2020 1 1 0 0, ToDate := timeOf 2020 1 2 0 0 }

/-- A rule for every day at 01:00 whose duration is zero. -/
def zeroRule : RecurringSchedules := { Day := "everyday", Start := "1h", Time := "0s" }

/-- A rule for every day at 01:00 whose duration is negative. -/
def negativeRule : RecurringSchedules := { Day := "everyday", Start := "1h", Time := "-30m" }

/-- A rule for every day whose start offset is not a duration. -/
def malformedRule : RecurringSchedules := { Day := "everyday", Start := "abc", Time := "20m" }

/-- The schedule of `twoServices` over 2020-01-01 and 2020-01-02. -/
def twoServicesSchedule : List ScheduledTerm :=
  [{ Service := "test1", Title := "first", Body := "body of first",
     Start := timeOf 2020 1 1 23 50, End := timeOf 2020 1 2 0 10 },
   { Service := "test1", Title := "first", Body := "body of first",
     Start := timeOf 2020 1 2 23 50, End := timeOf 2020 1 3 0 10 },
   { Service := "test2", Title := "second", Body := "body of second",
     Start := timeOf 2020 1 1 10 0, End := timeOf 2020 1 1 10 20 }]

/-- A rule for every day at 01:00 whose duration is not a duration. -/
def malformedTimeRule : RecurringSchedules := { Day := "everyday", Start := "1h", Time := "1x" }

/-- A maintenance of `testService` with the rule `malformedRule`. -/
def malformedMaintenance : List RecurringMaintenance :=
  [{ Service := "testService", Title := "t", Body := "b", RecurringSchedules := [malformedRule] }]

/-- Whether a failure is the failure `unkown service is found` for a service
that the mapping of `config` does not hold. -/
def Failure.isUnknownService (config : StatuspageConfig) : Failure → Bool
  | Failure.unknownService service => (config.findComponentByServiceName service).isNone
  | _ => false

/-- Two maintenances for every day: one of `testService` at 02:00 and one of a
service that `testConfig` does not map, at 03:00. -/
def unmappedMaintenance : List RecurringMaintenance :=
  [{ Service := "testService", Title := "daily", Body := "daily maintenance"
     RecurringSchedules := [{ Day := "everyday", Start := "2h", Time := "10m" }] },
   { Service := "otherService", Title := "other", Body := "other maintenance"
     RecurringSchedules := [{ Day := "everyday", Start := "3h", Time := "10m" }] }]
end Maintenance
namespace Maintenance
/-- The schedule of `unmappedMaintenance` on 2020-01-01. -/
def unmappedSchedule : List ScheduledTerm :=
  [{ Service := "testService", Title := "daily", Body := "daily maintenance",
     Start := timeOf 2020 1 1 2 0, End := timeOf 2020 1 1 2 10 },
   { Service := "otherService", Title := "other", Body := "other maintenance",
     Start := timeOf 2020 1 1 3 0, End := timeOf 2020 1 1 3 10 }]

/-- The schedule of `dailyMaintenance` on 2020-01-01. -/
def oneDaySchedule : List ScheduledTerm :=
  [{ Service := "testService", Title := "daily", Body := "daily maintenance",
     Start := timeOf 2020 1 1 2 0, End := timeOf 2020 1 1 2 10 }]

/-- A store of 200 incidents. -/
def fullStore : List StatuspageIncident := List.replicate 200 abIncident

/-- The failure with which the run ends when the call returns the error `err`. -/
def Call.failure : Call → String → Failure
  | Call.Delete _, err => Failure.deleteFailed err
  | Call.Add _, err => Failure.addFailed err

/-- The call applied to the repository in the state `repo`: the next state and
the error of the call. -/
def Call.applyTo {σ : Type} (repository : StatuspageRepository σ) (repo : σ) :
    Call → σ × Option String
  | Call.Delete i => repository.Delete repo i
  | Call.Add data => repository.Add repo data

/-- The planned calls issued one after the other, each on the state the call
before it left, up to and including the first call that returns an error:
the state reached, the calls issued, and the failure of the last of them. -/
def issueCalls {σ : Type} (repository : StatuspageRepository σ) :
    List Call → σ → σ × List Call × Option Failure
  | [], repo => (repo, [], none)
  | call :: rest, repo =>
    match (call.applyTo repository repo).2 with
    | some err => ((call.applyTo repository repo).1, [call], some (call.failure err))
    | none =>
      let q := issueCalls repository rest (call.applyTo repository repo).1
      (q.1, call :: q.2.1, q.2.2)

/-- A repository in memory whose `Delete` fails for the incident with the id
`b` and whose `Add` fails when it holds two incidents or more; a failed call
leaves the incidents as they are. -/
def failingRepository : StatuspageRepository (List StatuspageIncident) where
  Add := fun store data =>
    if store.length ≥ 2 then (store, some "add refused")
    else (store ++ [data.toIncident ""], none)
  FindAllScheduledIncidents := fun store _ _ => (store, .ok store)
  Delete := fun store i =>
    if i.Id = "b" then (store, some "delete refused")
    else (store.filter (fun j => decide (j ≠ i)), none)
end Maintenance
namespace Maintenance
/-- The first incident of `diffIncidents`. -/
def incidentA : StatuspageIncident :=
  { Id := "a", Components := [{ Id := "testComponentId" }], Metadata := recurringMetadata
    ScheduledFor := timeOf 2020 1 2 1 0, ScheduledUntil := timeOf 2020 1 2 1 10 }

/-- The second incident of `diffIncidents`. -/
def incidentB : StatuspageIncident :=
  { Id := "b", Components := [{ Id := "testComponentId" }], Metadata := recurringMetadata
    ScheduledFor := timeOf 2020 1 3 1 0, ScheduledUntil := timeOf 2020 1 3 1 10 }

/-- The third term of `dailyTerms`. -/
def thirdDailyTerm : ScheduledTerm :=
  { Service := "testService", Title := "daily", Body := "daily maintenance"
    Start := timeOf 2020 1 3 2 0, End := timeOf 2020 1 3 2 10 }

/-- The incident 01:00 to 01:10 of the second case `overlapped && !covered` of
`TestAdjustIncients`. -/
def touchingIncident : StatuspageIncident :=
  { Id := "1", PageId := "page1", Components := [{ Id := "testComponentId" }]
    ScheduledFor := timeOf 2020 1 1 1 0, ScheduledUntil := timeOf 2020 1 1 1 10 }

/-- The term 01:10 to 01:15 of that case, which starts when the incident ends. -/
def touchingTerm : ScheduledTerm :=
  { Service := "testService", Start := timeOf 2020 1 1 1 10, End := timeOf 2020 1 1 1 15 }

/-- A maintenance of `testService` every day from 22:00 for 25 hours. -/
def longMaintenance : List RecurringMaintenance :=
  [{ Service := "testService", Title := "long", Body := "long maintenance"
     RecurringSchedules := [{ Day := "everyday", Start := "22h", Time := "25h" }] }]

/-- A maintenance of `testService` every day from 22:00 for 24 hours. -/
def fullDayMaintenance : List RecurringMaintenance :=
  [{ Service := "testService", Title := "full", Body := "full day maintenance"
     RecurringSchedules := [{ Day := "everyday", Start := "22h", Time := "24h" }] }]

/-- A recurring schedule of the tool on January 3 from 02:00 to 02:10, the
window of the term of `dailyMaintenance` on that day. -/
def staleIncident : StatuspageIncident :=
  { Id := "r", Components := [{ Id := "testComponentId" }], Metadata := recurringMetadata
    ScheduledFor := timeOf 2020 1 3 2 0, ScheduledUntil := timeOf 2020 1 3 2 10 }

/-- An incident registered by other means on January 3 from 02:05 to 02:30. -/
def foreignIncident : StatuspageIncident :=
  { Id := "f", PageId := "page1", Name := "other", Components := [{ Id := "testComponentId" }]
    ScheduledFor := timeOf 2020 1 3 2 5, ScheduledUntil := timeOf 2020 1 3 2 30 }

/-! # Theorems -/

/-! ## Comparisons of instants -/

theorem equal_or_before (a b : Int) : (Time.Equal a b || Time.Before a b) = decide (a ≤ b) := by
  simp only [Time.Equal, Time.Before, ← Bool.decide_or]
  rw [decide_eq_decide]
  constructor <;> intro h <;> omega

theorem equal_or_after (a b : Int) : (Time.Equal a b || Time.After a b) = decide (a ≥ b) := by
  simp only [Time.Equal, Time.After, ← Bool.decide_or]
  rw [decide_eq_decide]
  constructor <;> intro h <;> omega

theorem isOverlapped_eq (s : ScheduledTerm) (i : StatuspageIncident) :
    s.isOverlapped i = (decide (i.ScheduledFor ≤ s.End) && decide (i.ScheduledUntil ≥ s.Start)) := by
  simp only [ScheduledTerm.isOverlapped, equal_or_before, equal_or_after]

theorem isCovered_eq (s : ScheduledTerm) (i : StatuspageIncident) :
    s.isCovered i = (decide (i.ScheduledFor ≤ s.Start) && decide (i.ScheduledUntil ≥ s.End)) := by
  simp only [ScheduledTerm.isCovered, equal_or_before, equal_or_after]

/-! ## `adjustIncients` -/

theorem adjustInner_eq (s : ScheduledTerm) (config : StatuspageConfig)
    (hs : (config.findComponentByServiceName s.Service).isSome)
    (incidents : List StatuspageIncident) :
    adjustInner s config incidents =
      .ok ((incidents.find? (s.blockedBy config)).map (adjustLine s)) := by
  obtain ⟨comp, hcomp⟩ := Option.isSome_iff_exists.mp hs
  induction incidents with
  | nil => rfl
  | cons i rest ih =>
    simp only [adjustInner, ScheduledTerm.hasSameComponent, hcomp, List.find?_cons,
      ScheduledTerm.blockedBy, StatuspageConfig.componentIdsOf, isOverlapped_eq]
    cases h1 : i.isRecurringSchedule
    · cases h2 : i.isSameComponentIds comp.ComponentIds
      · simpa [ScheduledTerm.blockedBy, StatuspageConfig.componentIdsOf, hcomp] using ih
      · cases h3 : (decide (i.ScheduledFor ≤ s.End) && decide (i.ScheduledUntil ≥ s.Start))
        · simpa [ScheduledTerm.blockedBy, StatuspageConfig.componentIdsOf, hcomp, h3] using ih
        · simp [h3]
    · simpa [ScheduledTerm.blockedBy, StatuspageConfig.componentIdsOf, hcomp] using ih

theorem adjustLoop_eq (incidents : List StatuspageIncident) (config : StatuspageConfig)
    (schedules : List ScheduledTerm)
    (hs : ∀ s ∈ schedules, (config.findComponentByServiceName s.Service).isSome)
    (acc : List ScheduledTerm) (out : List LogLine) :
    adjustLoop incidents config schedules acc out =
      .ok (acc ++ schedules.filter (fun s => !incidents.any (s.blockedBy config)),
        out ++ schedules.filterMap (fun s =>
          (incidents.find? (s.blockedBy config)).map (adjustLine s))) := by
  induction schedules generalizing acc out with
  | nil => simp [adjustLoop]
  | cons s rest ih =>
    have hs1 := hs s (List.mem_cons_self _ _)
    have hrest : ∀ t ∈ rest, (config.findComponentByServiceName t.Service).isSome :=
      fun t ht => hs t (List.mem_cons_of_mem _ ht)
    rw [adjustLoop, adjustInner_eq s config hs1]
    cases hfind : incidents.find? (s.blockedBy config) with
    | none =>
      have hany : incidents.any (s.blockedBy config) = false := by
        rw [List.any_eq_false]
        intro i hi
        have := List.find?_eq_none.mp hfind i hi
        simpa using this
      simp [ih hrest, hany, hfind, List.filterMap_cons]
    | some i =>
      have hany : incidents.any (s.blockedBy config) = true := by
        rw [List.any_eq_true]
        exact ⟨i, List.mem_of_find?_eq_some hfind, List.find?_some hfind⟩
      simp [ih hrest, hany, hfind, List.filterMap_cons]

theorem length_filterMap_add_filter {α β : Type} (f : α → Option β) (l : List α) :
    (l.filterMap f).length + (l.filter (fun a => (f a).isNone)).length = l.length := by
  induction l with
  | nil => rfl
  | cons a l ih =>
    cases h : f a <;> simp [List.filterMap_cons, List.filter_cons, h] <;> omega

/-- C1: when the mapping has the service of every desired term, `adjustIncients`
returns exactly the input terms, unchanged and in input order, for which no
remote incident is at once not a recurring schedule of the tool, of the
component ids mapped to the service of the term, and scheduled with
`ScheduledFor <= End` and `ScheduledUntil >= Start`. -/
theorem adjustIncients_keeps_unblocked (c : RecurringCommand)
    (incidents : List StatuspageIncident) (schedules : List ScheduledTerm)
    (config : StatuspageConfig)
    (hmap : ∀ s ∈ schedules, (config.findComponentByServiceName s.Service).isSome) :
    ∃ out, c.adjustIncients incidents schedules config =
      .ok (schedules.filter (fun s => !incidents.any (fun i =>
        !i.isRecurringSchedule && i.isSameComponentIds (config.componentIdsOf s.Service) &&
          (decide (i.ScheduledFor ≤ s.End) && decide (i.ScheduledUntil ≥ s.Start)))), out) := by
  rw [RecurringCommand.adjustIncients, adjustLoop_eq incidents config schedules hmap]
  exact ⟨_, rfl⟩

/-- The theorem `adjustIncients_keeps_unblocked` at the case `many copmonents` of
`TestAdjustIncients`: only the third term, 02:00 to 02:10, is returned. -/
theorem adjustIncients_keeps_unblocked_witness :
    (∀ s ∈ testTerms, (testConfig.findComponentByServiceName s.Service).isSome) ∧
    (∃ out, testCommand.adjustIncients testIncidents testTerms testConfig =
      .ok (testTerms.filter (fun s => !testIncidents.any (fun i =>
        !i.isRecurringSchedule && i.isSameComponentIds (testConfig.componentIdsOf s.Service) &&
          (decide (i.ScheduledFor ≤ s.End) && decide (i.ScheduledUntil ≥ s.Start)))), out)) ∧
    testTerms.filter (fun s => !testIncidents.any (fun i =>
        !i.isRecurringSchedule && i.isSameComponentIds (testConfig.componentIdsOf s.Service) &&
          (decide (i.ScheduledFor ≤ s.End) && decide (i.ScheduledUntil ≥ s.Start)))) =
      [{ Service := "testService", Start := timeOf 2020 1 1 2 0, End := timeOf 2020 1 1 2 10 }] :=
  ⟨by decide,
    adjustIncients_keeps_unblocked testCommand testIncidents testTerms testConfig (by decide),
    by decide⟩

theorem not_any_eq_find_isNone {α β : Type} (p : α → Bool) (g : α → β) (l : List α) :
    (!l.any p) = ((l.find? p).map g).isNone := by
  induction l with
  | nil => rfl
  | cons a l ih =>
    cases h : p a <;> simp [List.find?_cons, h] 
    simpa using ih

/-- C10: when the mapping has the service of every desired term, the lines
printed by `adjustIncients` are, in the order of the dropped terms, one line per
dropped term and none for a surviving term; the line of a dropped term is
decided by the first incident in input order that is not a recurring schedule of
the tool, has the component ids of the term and meets its closed window: a skip
notice when that incident covers the term (`ScheduledFor <= Start` and
`ScheduledUntil >= End`), otherwise an alert naming that incident and the start
and end of the term.  Hence the alerts are at most as many as the dropped terms. -/
theorem adjustIncients_lines (c : RecurringCommand)
    (incidents : List StatuspageIncident) (schedules : List ScheduledTerm)
    (config : StatuspageConfig)
    (hmap : ∀ s ∈ schedules, (config.findComponentByServiceName s.Service).isSome) :
    ∃ kept out, c.adjustIncients incidents schedules config = .ok (kept, out) ∧
      out = schedules.filterMap (fun s =>
        (incidents.find? (fun i =>
          !i.isRecurringSchedule && i.isSameComponentIds (config.componentIdsOf s.Service) &&
            (decide (i.ScheduledFor ≤ s.End) && decide (i.ScheduledUntil ≥ s.Start)))).map
          (fun i =>
            if i.ScheduledFor ≤ s.Start ∧ i.ScheduledUntil ≥ s.End then
              LogLine.skipCovered s.Service s.Start s.End i.ScheduledFor i.ScheduledUntil
            else LogLine.alert i.Name i.PageId i.Id s.Start s.End)) ∧
      out.length + kept.length = schedules.length ∧
      (out.filter LogLine.isAlert).length + kept.length ≤ schedules.length := by
  rw [RecurringCommand.adjustIncients, adjustLoop_eq incidents config schedules hmap]
  refine ⟨_, _, rfl, ?_, ?_, ?_⟩
  · simp only [List.nil_append]
    congr 1
    funext s
    congr 1
    funext i
    simp only [adjustLine, isCovered_eq, Bool.and_eq_true, decide_eq_true_eq]
  · have h := length_filterMap_add_filter
      (fun s => (incidents.find? (s.blockedBy config)).map (adjustLine s)) schedules
    simp only [List.nil_append]
    simp only [← not_any_eq_find_isNone] at h
    exact h
  · have h := length_filterMap_add_filter
      (fun s => (incidents.find? (s.blockedBy config)).map (adjustLine s)) schedules
    simp only [List.nil_append]
    simp only [← not_any_eq_find_isNone] at h
    have h2 := List.length_filter_le LogLine.isAlert
      (schedules.filterMap (fun s => (incidents.find? (s.blockedBy config)).map (adjustLine s)))
    omega

/-- The theorem `adjustIncients_lines` at a term 01:05 to 01:15 met by a first
incident 01:00 to 01:10 that does not cover it and a second incident 01:00 to
01:30 that does: the term is dropped with one alert, which names the first. -/
theorem adjustIncients_lines_witness :
    (∀ s ∈ alertTerms, (testConfig.findComponentByServiceName s.Service).isSome) ∧
    (∃ kept out, testCommand.adjustIncients alertIncidents alertTerms testConfig =
        .ok (kept, out) ∧
      out = alertTerms.filterMap (fun s =>
        (alertIncidents.find? (fun i =>
          !i.isRecurringSchedule &&
            i.isSameComponentIds (testConfig.componentIdsOf s.Service) &&
            (decide (i.ScheduledFor ≤ s.End) && decide (i.ScheduledUntil ≥ s.Start)))).map
          (fun i =>
            if i.ScheduledFor ≤ s.Start ∧ i.ScheduledUntil ≥ s.End then
              LogLine.skipCovered s.Service s.Start s.End i.ScheduledFor i.ScheduledUntil
            else LogLine.alert i.Name i.PageId i.Id s.Start s.End)) ∧
      out.length + kept.length = alertTerms.length ∧
      (out.filter LogLine.isAlert).length + kept.length ≤ alertTerms.length) ∧
    testCommand.adjustIncients alertIncidents alertTerms testConfig =
      .ok ([], [LogLine.alert "first" "page1" "1" (timeOf 2020 1 1 1 5) (timeOf 2020 1 1 1 15)]) :=
  ⟨by decide,
    adjustIncients_lines testCommand alertIncidents alertTerms testConfig (by decide),
    by decide⟩

/-! ## The calendar -/

theorem isLeap_iff (y : Int) : isLeap y = true ↔ (y % 4 = 0 ∧ (y % 100 ≠ 0 ∨ y % 400 = 0)) := by
  simp [isLeap]

/-- The day number of January 1 of a year written by its place in the cycles of 400, 100, 4 and 1 years. -/
theorem daysSinceEpoch_cycle (a b c e : Int) (hb : 0 ≤ b ∧ b ≤ 3) (hc : 0 ≤ c ∧ c ≤ 24)
    (he : 0 ≤ e ∧ e ≤ 3) :
    daysSinceEpoch (400 * a + 100 * b + 4 * c + e + 1) =
      146097 * a + 36524 * b + 1461 * c + 365 * e - 719162 := by
  simp only [daysSinceEpoch]
  omega

theorem isLeap_cycle (a b c e : Int) (hb : 0 ≤ b ∧ b ≤ 3) (hc : 0 ≤ c ∧ c ≤ 24)
    (he : 0 ≤ e ∧ e ≤ 3) :
    isLeap (400 * a + 100 * b + 4 * c + e + 1) = true ↔ (e = 3 ∧ (c = 24 → b = 3)) := by
  rw [isLeap_iff]
  omega

/-- The place of a day number in the cycles, as `yearAndYday` computes it. -/
theorem yearAndYday_cycle (n : Int) :
    ∃ a b c e yd : Int, yearAndYday n = (400 * a + 100 * b + 4 * c + e + 1, yd) ∧
      (0 ≤ b ∧ b ≤ 3) ∧ (0 ≤ c ∧ c ≤ 24) ∧ (0 ≤ e ∧ e ≤ 3) ∧ 0 ≤ yd ∧ yd ≤ 365 ∧
      (yd = 365 → e = 3 ∧ (c = 24 → b = 3)) ∧
      n + 719162 = 146097 * a + 36524 * b + 1461 * c + 365 * e + yd := by
  refine ⟨(n + 719162) / 146097, _, _, _, _, rfl, ?_⟩
  generalize hr : n + 719162 - 146097 * ((n + 719162) / 146097) = r
  have hr0 : 0 ≤ r ∧ r < 146097 := by omega
  generalize hb0 : r / 36524 = b0
  have hb0r : 0 ≤ b0 ∧ b0 ≤ 4 ∧ 36524 * b0 ≤ r ∧ r < 36524 * b0 + 36524 := by omega
  generalize hb : b0 - b0 / 4 = b
  have hbr : 0 ≤ b ∧ b ≤ 3 ∧ (b0 = 4 → b = 3) ∧ (b0 < 4 → b = b0) := by omega
  generalize hr2 : r - 36524 * b = r2
  have hr2r : 0 ≤ r2 ∧ r2 ≤ 36524 ∧ (r2 = 36524 → b = 3) := by omega
  generalize hc : r2 / 1461 = c
  have hcr : 0 ≤ c ∧ c ≤ 24 ∧ 1461 * c ≤ r2 ∧ r2 < 1461 * c + 1461 := by omega
  generalize hr3 : r2 - 1461 * c = r3
  have hr3r : 0 ≤ r3 ∧ r3 ≤ 1460 ∧ (c = 24 → r3 = 1460 → b = 3) := by omega
  generalize he0 : r3 / 365 = e0
  have he0r : 0 ≤ e0 ∧ e0 ≤ 4 ∧ 365 * e0 ≤ r3 ∧ r3 < 365 * e0 + 365 := by omega
  generalize he : e0 - e0 / 4 = e
  have her : 0 ≤ e ∧ e ≤ 3 ∧ (e0 = 4 → e = 3) ∧ (e0 < 4 → e = e0) := by omega
  refine ⟨by omega, by omega, by omega, by omega, by omega, ?_, by omega⟩
  intro h
  omega

theorem yearAndYday_spec (n : Int) :
    daysSinceEpoch (yearAndYday n).1 + (yearAndYday n).2 = n ∧ 0 ≤ (yearAndYday n).2 ∧
      (yearAndYday n).2 < 365 + (if isLeap (yearAndYday n).1 then 1 else 0) := by
  obtain ⟨a, b, c, e, yd, h, hb, hc, he, hyd0, hyd1, hyd, hn⟩ := yearAndYday_cycle n
  rw [h]
  simp only
  rw [daysSinceEpoch_cycle a b c e hb hc he]
  have hl := isLeap_cycle a b c e hb hc he
  refine ⟨by omega, hyd0, ?_⟩
  split
  · omega
  · rename_i hnl
    rw [hl] at hnl
    omega

theorem daysBefore_table :
    daysBefore 0 = 0 ∧ daysBefore 1 = 31 ∧ daysBefore 2 = 59 ∧ daysBefore 3 = 90 ∧
    daysBefore 4 = 120 ∧ daysBefore 5 = 151 ∧ daysBefore 6 = 181 ∧ daysBefore 7 = 212 ∧
    daysBefore 8 = 243 ∧ daysBefore 9 = 273 ∧ daysBefore 10 = 304 ∧ daysBefore 11 = 334 ∧
    daysBefore 12 = 365 := by decide

theorem monthAndDay_plain (day : Int) (h0 : 0 ≤ day) (h1 : day < 365) :
    let month := day / 31
    let finish := daysBefore (month + 1)
    let p : Int × Int := if day ≥ finish then (month + 2, day - finish + 1)
      else (month + 1, day - daysBefore month + 1)
    1 ≤ p.1 ∧ p.1 ≤ 12 ∧ 1 ≤ p.2 ∧ p.2 ≤ daysBefore p.1 - daysBefore (p.1 - 1) ∧
      daysBefore (p.1 - 1) + (p.2 - 1) = day := by
  intro month finish p
  have hm : 0 ≤ month ∧ month ≤ 11 ∧ 31 * month ≤ day ∧ day < 31 * month + 31 := by
    simp only [month]; omega
  simp only [p, finish]
  generalize month = q at hm ⊢
  obtain ⟨hq0, hq1, hq2, hq3⟩ := hm
  obtain ⟨t0, t1, t2, t3, t4, t5, t6, t7, t8, t9, t10, t11, t12⟩ := daysBefore_table
  interval_cases q
  all_goals
    simp only [Int.reduceAdd, t0, t1, t2, t3, t4, t5, t6, t7, t8, t9, t10, t11, t12]
    split
    all_goals
      simp only [Int.reduceAdd, Int.reduceSub, t0, t1, t2, t3, t4, t5, t6, t7, t8, t9, t10,
        t11, t12]
      omega

theorem monthAndDay_spec (leap : Bool) (yd : Int) (h0 : 0 ≤ yd)
    (h1 : yd < 365 + (if leap then 1 else 0)) :
    1 ≤ (monthAndDay leap yd).1 ∧ (monthAndDay leap yd).1 ≤ 12 ∧
      1 ≤ (monthAndDay leap yd).2 ∧
      (monthAndDay leap yd).2 ≤ daysIn leap (monthAndDay leap yd).1 ∧
      daysBefore ((monthAndDay leap yd).1 - 1) +
        (if leap && decide ((monthAndDay leap yd).1 ≥ 3) then 1 else 0) +
        ((monthAndDay leap yd).2 - 1) = yd := by
  obtain ⟨t0, t1, t2, t3, t4, t5, t6, t7, t8, t9, t10, t11, t12⟩ := daysBefore_table
  cases leap
  · have h := monthAndDay_plain yd h0 (by simpa using h1)
    simp only [monthAndDay, daysIn, Bool.false_and, Bool.false_eq_true, if_false, add_zero]
    exact h
  · by_cases h59 : yd = 59
    · subst h59
      decide
    · by_cases hgt : yd > 59
      · have h := monthAndDay_plain (yd - 1) (by omega) (by simp at h1; omega)
        have heq : monthAndDay true yd =
            (if yd - 1 ≥ daysBefore ((yd - 1) / 31 + 1) then
              ((yd - 1) / 31 + 2, yd - 1 - daysBefore ((yd - 1) / 31 + 1) + 1)
            else ((yd - 1) / 31 + 1, yd - 1 - daysBefore ((yd - 1) / 31) + 1)) := by
          simp [monthAndDay, h59, hgt]
        rw [heq]
        simp only at h
        generalize (if yd - 1 ≥ daysBefore ((yd - 1) / 31 + 1) then
              ((yd - 1) / 31 + 2, yd - 1 - daysBefore ((yd - 1) / 31 + 1) + 1)
            else ((yd - 1) / 31 + 1, yd - 1 - daysBefore ((yd - 1) / 31) + 1)) = p at h ⊢
        obtain ⟨m, d⟩ := p
        simp only at h ⊢
        obtain ⟨hm1, hm2, hd1, hd2, hd3⟩ := h
        simp only [daysIn]
        interval_cases m <;>
          simp only [Int.reduceSub, t0, t1, t2, t3, t4, t5, t6, t7, t8, t9, t10, t11, t12]
            at hd2 hd3 ⊢ <;>
          simp <;> omega
      · have h := monthAndDay_plain yd (by omega) (by omega)
        have heq : monthAndDay true yd =
            (if yd ≥ daysBefore (yd / 31 + 1) then
              (yd / 31 + 2, yd - daysBefore (yd / 31 + 1) + 1)
            else (yd / 31 + 1, yd - daysBefore (yd / 31) + 1)) := by
          simp [monthAndDay, h59, hgt]
        rw [heq]
        simp only at h
        generalize (if yd ≥ daysBefore (yd / 31 + 1) then
              (yd / 31 + 2, yd - daysBefore (yd / 31 + 1) + 1)
            else (yd / 31 + 1, yd - daysBefore (yd / 31) + 1)) = p at h ⊢
        obtain ⟨m, d⟩ := p
        simp only at h ⊢
        obtain ⟨hm1, hm2, hd1, hd2, hd3⟩ := h
        simp only [daysIn]
        interval_cases m <;>
          simp only [Int.reduceSub, t0, t1, t2, t3, t4, t5, t6, t7, t8, t9, t10, t11, t12]
            at hd2 hd3 ⊢ <;>
          simp <;> omega

theorem year_as_cycle (y : Int) :
    ∃ a b c e : Int, y = 400 * a + 100 * b + 4 * c + e + 1 ∧ (0 ≤ b ∧ b ≤ 3) ∧
      (0 ≤ c ∧ c ≤ 24) ∧ (0 ≤ e ∧ e ≤ 3) :=
  ⟨(y - 1) / 400, (y - 1) % 400 / 100, (y - 1) % 100 / 4, (y - 1) % 4,
    by omega, by omega, by omega, by omega⟩

theorem yearAndYday_unique (y yd : Int) (h0 : 0 ≤ yd)
    (h1 : yd < 365 + (if isLeap y then 1 else 0)) :
    yearAndYday (daysSinceEpoch y + yd) = (y, yd) := by
  obtain ⟨a, b, c, e, hy, hb, hc, he⟩ := year_as_cycle y
  subst hy
  have hl := isLeap_cycle a b c e hb hc he
  have hyd : yd ≤ 365 ∧ (yd = 365 → e = 3 ∧ (c = 24 → b = 3)) := by
    split at h1
    · rename_i h
      rw [hl] at h
      omega
    · omega
  rw [daysSinceEpoch_cycle a b c e hb hc he]
  simp only [yearAndYday]
  have e1 : 146097 * a + 36524 * b + 1461 * c + 365 * e - 719162 + yd + 719162 =
      146097 * a + (36524 * b + 1461 * c + 365 * e + yd) := by ring
  rw [e1]
  generalize hr : 36524 * b + 1461 * c + 365 * e + yd = r
  have hr0 : 0 ≤ r ∧ r < 146097 := by omega
  have ha : (146097 * a + r) / 146097 = a := by omega
  rw [ha]
  have e2 : 146097 * a + r - 146097 * a = r := by ring
  rw [e2]
  have hs : 0 ≤ 1461 * c + 365 * e + yd ∧ 1461 * c + 365 * e + yd ≤ 36524 ∧
      (1461 * c + 365 * e + yd = 36524 → b = 3) := by omega
  have hbq : r / 36524 - r / 36524 / 4 = b := by
    obtain ⟨hb0, hb1⟩ := hb
    interval_cases b <;> omega
  rw [hbq]
  generalize hr2 : r - 36524 * b = r2
  have hr2v : r2 = 1461 * c + 365 * e + yd := by omega
  have hcq : r2 / 1461 = c := by omega
  rw [hcq]
  generalize hr3 : r2 - 1461 * c = r3
  have hr3v : r3 = 365 * e + yd := by omega
  have heq : r3 / 365 - r3 / 365 / 4 = e := by
    obtain ⟨he0, he1⟩ := he
    interval_cases e <;> omega
  rw [heq]
  have : r3 - 365 * e = yd := by omega
  rw [this]

set_option maxRecDepth 100000 in
theorem monthAndDay_unique_table : ∀ leap : Bool, ∀ m ∈ List.range 13, ∀ d ∈ List.range 32,
    (1 ≤ (m : Int) ∧ 1 ≤ (d : Int) ∧ (d : Int) ≤ daysIn leap m) →
    monthAndDay leap
      (daysBefore ((m : Int) - 1) + (if leap && decide ((m : Int) ≥ 3) then 1 else 0) +
        ((d : Int) - 1)) = ((m : Int), (d : Int)) := by
  decide

theorem daysIn_le (leap : Bool) (m : Int) (h0 : 1 ≤ m) (h1 : m ≤ 12) :
    28 ≤ daysIn leap m ∧ daysIn leap m ≤ 31 := by
  cases leap <;> interval_cases m <;> decide

theorem monthAndDay_unique (leap : Bool) (m d : Int) (hm0 : 1 ≤ m) (hm1 : m ≤ 12)
    (hd0 : 1 ≤ d) (hd1 : d ≤ daysIn leap m) :
    monthAndDay leap
      (daysBefore (m - 1) + (if leap && decide (m ≥ 3) then 1 else 0) + (d - 1)) = (m, d) := by
  have hd2 := (daysIn_le leap m hm0 hm1).2
  have h := monthAndDay_unique_table leap m.toNat (List.mem_range.mpr (by omega)) d.toNat
    (List.mem_range.mpr (by omega))
  have em : ((m.toNat : Nat) : Int) = m := Int.toNat_of_nonneg (by omega)
  have ed : ((d.toNat : Nat) : Int) = d := Int.toNat_of_nonneg (by omega)
  rw [em, ed] at h
  exact h ⟨hm0, hd0, hd1⟩

theorem clock_sum (t : Int) :
    Time.Hour t * nsPerHour + Time.Minute t * nsPerMinute + Time.Second t * nsPerSecond +
      Time.Nanosecond t = t % nsPerDay := by
  simp only [Time.Hour, Time.Minute, Time.Second, Time.Nanosecond, nsPerHour, nsPerMinute,
    nsPerSecond, nsPerDay]
  omega

theorem dayNumber_add_clock (t : Int) : Time.dayNumber t * nsPerDay + t % nsPerDay = t := by
  simp only [Time.dayNumber, nsPerDay]
  omega

/-- The month and day of an instant are a date of its year, and the fields of
an instant give back its day number. -/
theorem fields_spec (t : Int) :
    1 ≤ Time.Month t ∧ Time.Month t ≤ 12 ∧ 1 ≤ Time.Day t ∧
      Time.Day t ≤ daysIn (isLeap (Time.Year t)) (Time.Month t) ∧
      daysSinceEpoch (Time.Year t) + daysBefore (Time.Month t - 1) +
        (if isLeap (Time.Year t) && decide (Time.Month t ≥ 3) then 1 else 0) +
        (Time.Day t - 1) = Time.dayNumber t := by
  obtain ⟨h1, h2, h3⟩ := yearAndYday_spec (Time.dayNumber t)
  obtain ⟨m1, m2, m3, m4, m5⟩ :=
    monthAndDay_spec (isLeap (Time.Year t)) (yearAndYday (Time.dayNumber t)).2 h2 h3
  refine ⟨m1, m2, m3, m4, ?_⟩
  simp only [Time.Month, Time.Day]
  simp only [Time.Year] at m5 h1 ⊢
  omega

/-- The value of `Date` for a month from 1 to 12. -/
theorem date_eq (y m d h mi s ns : Int) (hm0 : 1 ≤ m) (hm1 : m ≤ 12) :
    Date y m d h mi s ns =
      (daysSinceEpoch y + daysBefore (m - 1) +
        (if isLeap y && decide (m ≥ 3) then 1 else 0) + (d - 1)) * nsPerDay +
        h * nsPerHour + mi * nsPerMinute + s * nsPerSecond + ns := by
  have e1 : (m - 1) / 12 = 0 := by omega
  have e2 : (m - 1) % 12 + 1 = m := by omega
  simp only [Date, e1, e2, add_zero]

/-- The value of `Date` at the fields of an instant with the day moved by `k`. -/
theorem date_fields (t k h mi s ns : Int) :
    Date (Time.Year t) (Time.Month t) (Time.Day t + k) h mi s ns =
      (Time.dayNumber t + k) * nsPerDay + h * nsPerHour + mi * nsPerMinute +
        s * nsPerSecond + ns := by
  obtain ⟨m1, m2, _, _, m5⟩ := fields_spec t
  rw [date_eq _ _ _ _ _ _ _ m1 m2, ← m5]
  ring

/-- Adding days with `AddDate` adds that many times 24 hours. -/
theorem addDate_days (t k : Int) : Time.AddDate t 0 0 k = t + k * nsPerDay := by
  have h := date_fields t k (Time.Hour t) (Time.Minute t) (Time.Second t) (Time.Nanosecond t)
  have hc := clock_sum t
  have hd := dayNumber_add_clock t
  simp only [Time.AddDate, add_zero]
  rw [h]
  linarith

/-- The fields of the instant that `Date` gives for a date of the calendar. -/
theorem fields_of_date (y m d c : Int) (hm0 : 1 ≤ m) (hm1 : m ≤ 12) (hd0 : 1 ≤ d)
    (hd1 : d ≤ daysIn (isLeap y) m) (hc0 : 0 ≤ c) (hc1 : c < nsPerDay) :
    Time.Year (Date y m d 0 0 0 0 + c) = y ∧ Time.Month (Date y m d 0 0 0 0 + c) = m ∧
      Time.Day (Date y m d 0 0 0 0 + c) = d := by
  obtain ⟨t0, t1, t2, t3, t4, t5, t6, t7, t8, t9, t10, t11, t12⟩ := daysBefore_table
  generalize hyd : daysBefore (m - 1) + (if isLeap y && decide (m ≥ 3) then 1 else 0) +
    (d - 1) = yd
  have hb : 0 ≤ yd ∧ yd < 365 + (if isLeap y then 1 else 0) := by
    subst hyd
    simp only [daysIn] at hd1
    cases isLeap y <;> interval_cases m <;>
      simp only [Int.reduceSub, t0, t1, t2, t3, t4, t5, t6, t7, t8, t9, t10, t11, t12]
        at hd1 ⊢ <;>
      simp at hd1 ⊢ <;> omega
  have hn : Time.dayNumber (Date y m d 0 0 0 0 + c) = daysSinceEpoch y + yd := by
    rw [date_eq _ _ _ _ _ _ _ hm0 hm1]
    simp only [Time.dayNumber, nsPerDay] at hc1 ⊢
    omega
  have hy := yearAndYday_unique y yd hb.1 hb.2
  have hmd := monthAndDay_unique (isLeap y) m d hm0 hm1 hd0 hd1
  rw [hyd] at hmd
  simp only [Time.Year, Time.Month, Time.Day, hn, hy, hmd, and_self]

/-! ## `registerIncidents` and `deleteIncidents` -/

theorem existsSameIncident_eq (c : RecurringCommand) (incidents : List StatuspageIncident)
    (config : StatuspageConfig) (s : ScheduledTerm)
    (hs : (config.findComponentByServiceName s.Service).isSome) :
    c.existsSameIncident incidents config s = .ok (incidents.any (fun i => i.sameAs config s)) := by
  obtain ⟨comp, hcomp⟩ := Option.isSome_iff_exists.mp hs
  simp only [RecurringCommand.existsSameIncident, hcomp, StatuspageIncident.sameAs,
    StatuspageConfig.componentIdsOf, StatuspageIncident.isSameTerm, Time.Equal]

theorem toBeRegisteredLoop_eq (c : RecurringCommand) (incidents : List StatuspageIncident)
    (config : StatuspageConfig) (now : Int) (schedules : List ScheduledTerm)
    (hs : ∀ s ∈ schedules, (config.findComponentByServiceName s.Service).isSome)
    (acc : List ScheduledTerm) (out : List LogLine) :
    toBeRegisteredLoop c incidents config now schedules acc out =
      .ok (acc ++ schedules.filter (c.addable incidents config now),
        out ++ (schedules.filter (fun s => !c.addable incidents config now s)).map
          (fun s => LogLine.skipRegister s.Service s.Start s.End)) := by
  induction schedules generalizing acc out with
  | nil => simp [toBeRegisteredLoop]
  | cons s rest ih =>
    have hs1 := hs s (List.mem_cons_self _ _)
    have hrest : ∀ t ∈ rest, (config.findComponentByServiceName t.Service).isSome :=
      fun t ht => hs t (List.mem_cons_of_mem _ ht)
    have hadd : (!incidents.any (fun i => i.sameAs config s) && Time.After s.Start c.FromDate &&
        Time.Before s.Start (Time.AddDate c.ToDate 0 0 1) && Time.After s.Start now) =
        c.addable incidents config now s := by
      simp only [RecurringCommand.addable, Time.After, Time.Before, addDate_days, one_mul]
    rw [toBeRegisteredLoop, existsSameIncident_eq c incidents config s hs1]
    simp only [hadd]
    cases h : c.addable incidents config now s
    · simp [ih hrest, h]
    · simp [ih hrest, h]

theorem deleteExists_eq (c : RecurringCommand) (i : StatuspageIncident)
    (config : StatuspageConfig) (schedules : List ScheduledTerm)
    (hs : ∀ s ∈ schedules, (config.findComponentByServiceName s.Service).isSome) :
    deleteExists c i config schedules = .ok (schedules.any (fun s => i.sameAs config s)) := by
  induction schedules with
  | nil => rfl
  | cons s rest ih =>
    have hs1 := hs s (List.mem_cons_self _ _)
    have hrest : ∀ t ∈ rest, (config.findComponentByServiceName t.Service).isSome :=
      fun t ht => hs t (List.mem_cons_of_mem _ ht)
    rw [deleteExists, existsSameIncident_eq c [i] config s hs1]
    cases h : i.sameAs config s
    · simp [h, ih hrest]
    · simp [h]

theorem toBeDeletedLoop_eq (c : RecurringCommand) (config : StatuspageConfig)
    (schedules : List ScheduledTerm)
    (hs : ∀ s ∈ schedules, (config.findComponentByServiceName s.Service).isSome)
    (incidents acc : List StatuspageIncident) :
    toBeDeletedLoop c config schedules incidents acc =
      .ok (acc ++ incidents.filter (c.deletable config schedules)) := by
  induction incidents generalizing acc with
  | nil => simp [toBeDeletedLoop]
  | cons i rest ih =>
    have hdel : (!schedules.any (fun s => i.sameAs config s) && i.isRecurringSchedule &&
        Time.After i.ScheduledFor c.FromDate && Time.Before i.ScheduledFor c.ToDate) =
        c.deletable config schedules i := by
      simp only [RecurringCommand.deletable, Time.After, Time.Before]
      cases schedules.any (fun s => i.sameAs config s) <;> cases i.isRecurringSchedule <;> simp
    rw [toBeDeletedLoop, deleteExists_eq c i config schedules hs]
    simp only [hdel]
    cases h : c.deletable config schedules i
    · simp [ih, h]
    · simp [ih, h]

theorem deleteCalls_spec {σ : Type} (repository : StatuspageRepository σ)
    (l : List StatuspageIncident) (st : RunState σ) :
    ∃ k, k ≤ l.length ∧
      (deleteCalls repository l st).1.calls = st.calls ++ (l.take k).map Call.Delete ∧
      (deleteCalls repository l st).1.out = st.out ∧
      ((deleteCalls repository l st).2 = none → k = l.length) := by
  induction l generalizing st with
  | nil => exact ⟨0, by simp [deleteCalls]⟩
  | cons i rest ih =>
    rw [deleteCalls]
    cases h : (repository.Delete st.repo i).2 with
    | some err => exact ⟨1, by simp [h]⟩
    | none =>
      obtain ⟨k, hk, hc, ho, hn⟩ := ih
        { st with repo := (repository.Delete st.repo i).1, calls := st.calls ++ [Call.Delete i] }
      refine ⟨k + 1, by simpa using hk, ?_, ?_, ?_⟩
      · simp only [h, hc, List.take_succ_cons, List.map_cons, List.append_assoc,
          List.singleton_append]
      · simp only [h, ho]
      · intro hnone
        simp only [h] at hnone
        simp [hn hnone]

theorem registerCalls_spec {σ : Type} (repository : StatuspageRepository σ)
    (config : StatuspageConfig) (now : Int) (l : List ScheduledTerm) (st : RunState σ) :
    ∃ k, k ≤ l.length ∧
      (registerCalls repository config now l st).1.calls =
        st.calls ++ (l.take k).map (fun s => Call.Add (addRequest config now s)) ∧
      ((∀ s ∈ l, (config.findComponentByServiceName s.Service).isSome) →
        (registerCalls repository config now l st).2 = none → k = l.length) := by
  induction l generalizing st with
  | nil => exact ⟨0, by simp [registerCalls]⟩
  | cons s rest ih =>
    rw [registerCalls]
    cases hf : config.findComponentByServiceName s.Service with
    | none => exact ⟨0, by simp [hf]⟩
    | some comp =>
      have hreq : CreateMaintenanceStatuspageData s.Title s.Body comp.ComponentIds s.Start s.End
          ScheduleType_Recurring "" now = addRequest config now s := by
        simp only [addRequest, StatuspageConfig.componentIdsOf, hf]
      simp only [hreq]
      cases h : (repository.Add st.repo (addRequest config now s)).2 with
      | some err => exact ⟨1, by simp⟩
      | none =>
        obtain ⟨k, hk, hc, hn⟩ := ih
          { st with repo := (repository.Add st.repo (addRequest config now s)).1,
                    calls := st.calls ++ [Call.Add (addRequest config now s)] }
        refine ⟨k + 1, by simpa using hk, ?_, ?_⟩
        · simp only [hc, List.take_succ_cons, List.map_cons, List.append_assoc,
            List.singleton_append]
        · intro hall hnone
          have := hn (fun t ht => hall t (List.mem_cons_of_mem _ ht)) hnone
          simp [this]

/-- C2: when the mapping has the service of every term, `registerIncidents`
selects for `Add` exactly the terms, in input order, for which (1) no remote
incident has the component ids of the term and exactly its start and end,
(2) the start is after `FromDate`, (3) the start is before `ToDate` plus one
day, and (4) the start is after the current moment.  The calls issued are `Add`
calls for an initial part of that selection, in order, and for all of it when no
call fails. -/
theorem registerIncidents_adds (c : RecurringCommand) (incidents : List StatuspageIncident)
    (config : StatuspageConfig) (schedules : List ScheduledTerm) (now : Int)
    (hmap : ∀ s ∈ schedules, (config.findComponentByServiceName s.Service).isSome) :
    (∃ out, c.toBeRegistered incidents config schedules now =
      .ok (schedules.filter (c.addable incidents config now), out)) ∧
    (∀ s, c.addable incidents config now s = true ↔
      ((¬ ∃ i ∈ incidents, i.isSameComponentIds (config.componentIdsOf s.Service) = true ∧
          s.Start = i.ScheduledFor ∧ s.End = i.ScheduledUntil) ∧
        c.FromDate < s.Start ∧ s.Start < c.ToDate + nsPerDay ∧ now < s.Start)) ∧
    (∀ (σ : Type) (repository : StatuspageRepository σ) (st : RunState σ),
      ∃ k, k ≤ (schedules.filter (c.addable incidents config now)).length ∧
        (c.registerIncidents repository incidents config schedules now st).1.calls =
          st.calls ++ ((schedules.filter (c.addable incidents config now)).take k).map
            (fun s => Call.Add (addRequest config now s)) ∧
        ((c.registerIncidents repository incidents config schedules now st).2 = none →
          k = (schedules.filter (c.addable incidents config now)).length)) := by
  have hsel := toBeRegisteredLoop_eq c incidents config now schedules hmap [] []
  simp only [List.nil_append] at hsel
  refine ⟨⟨_, hsel⟩, ?_, ?_⟩
  · intro s
    simp only [RecurringCommand.addable, StatuspageIncident.sameAs, Bool.and_eq_true,
      Bool.not_eq_true', List.any_eq_false, decide_eq_true_eq, not_exists, not_and]
    tauto
  · intro σ repository st
    simp only [RecurringCommand.registerIncidents, RecurringCommand.toBeRegistered, hsel]
    obtain ⟨k, hk, hc, hn⟩ := registerCalls_spec repository config now
      (schedules.filter (c.addable incidents config now))
      (RunState.mk st.repo st.calls (st.out ++ List.map
        (fun s => LogLine.skipRegister s.Service s.Start s.End)
        (List.filter (fun s => !c.addable incidents config now s) schedules)))
    exact ⟨k, hk, hc, hn (fun s hs => hmap s (List.mem_of_mem_filter hs))⟩

/-- The theorem `registerIncidents_adds` at the run from 2020-01-01 to 2020-01-05
at the moment January 2 12:00: of five terms only the one of January 4 is
selected; the others start at `FromDate`, are registered already, lie in the
past, or start after `ToDate` plus one day. -/
theorem registerIncidents_adds_witness :
    (∀ s ∈ diffTerms, (testConfig.findComponentByServiceName s.Service).isSome) ∧
    (∃ out, testCommand.toBeRegistered diffIncidents testConfig diffTerms
        (timeOf 2020 1 2 12 0) =
      .ok (diffTerms.filter
        (testCommand.addable diffIncidents testConfig (timeOf 2020 1 2 12 0)), out)) ∧
    diffTerms.filter (testCommand.addable diffIncidents testConfig (timeOf 2020 1 2 12 0)) =
      [{ Service := "testService", Start := timeOf 2020 1 4 1 0, End := timeOf 2020 1 4 1 10 }] :=
  ⟨by decide,
    (registerIncidents_adds testCommand diffIncidents testConfig diffTerms
      (timeOf 2020 1 2 12 0) (by decide)).1,
    by decide⟩

/-- C3: when the mapping has the service of every term, `deleteIncidents`
selects for `Delete` exactly the remote incidents, in input order, for which
(1) `isRecurringSchedule` holds, (2) `ScheduledFor` is strictly between
`FromDate` and `ToDate`, and (3) no term has the component ids of the incident
and exactly its start and end.  The calls issued are `Delete` calls for an
initial part of that selection, in order, and for all of it when no call fails. -/
theorem deleteIncidents_deletes (c : RecurringCommand) (incidents : List StatuspageIncident)
    (config : StatuspageConfig) (schedules : List ScheduledTerm)
    (hmap : ∀ s ∈ schedules, (config.findComponentByServiceName s.Service).isSome) :
    c.toBeDeleted incidents config schedules =
      .ok (incidents.filter (c.deletable config schedules)) ∧
    (∀ i, c.deletable config schedules i = true ↔
      (i.isRecurringSchedule = true ∧ (c.FromDate < i.ScheduledFor ∧ i.ScheduledFor < c.ToDate) ∧
        ¬ ∃ s ∈ schedules, i.isSameComponentIds (config.componentIdsOf s.Service) = true ∧
          s.Start = i.ScheduledFor ∧ s.End = i.ScheduledUntil)) ∧
    (∀ (σ : Type) (repository : StatuspageRepository σ) (st : RunState σ),
      ∃ k, k ≤ (incidents.filter (c.deletable config schedules)).length ∧
        (c.deleteIncidents repository incidents config schedules st).1.calls =
          st.calls ++ ((incidents.filter (c.deletable config schedules)).take k).map
            Call.Delete ∧
        ((c.deleteIncidents repository incidents config schedules st).2 = none →
          k = (incidents.filter (c.deletable config schedules)).length)) := by
  have hsel := toBeDeletedLoop_eq c config schedules hmap incidents []
  simp only [List.nil_append] at hsel
  refine ⟨hsel, ?_, ?_⟩
  · intro i
    simp only [RecurringCommand.deletable, StatuspageIncident.sameAs, Bool.and_eq_true,
      Bool.not_eq_true', List.any_eq_false, decide_eq_true_eq, not_exists, not_and]
    tauto
  · intro σ repository st
    simp only [RecurringCommand.deleteIncidents, RecurringCommand.toBeDeleted, hsel]
    obtain ⟨k, hk, hc, _, hn⟩ := deleteCalls_spec repository
      (incidents.filter (c.deletable config schedules)) st
    exact ⟨k, hk, hc, hn⟩

/-- The theorem `deleteIncidents_deletes` at the run from 2020-01-01 to 2020-01-05:
of four incidents only the recurring schedule of January 3 that matches no term
is selected; the one of January 2 matches a term, the one of January 7 lies
outside the dates of the run, and the fourth is not of the tool. -/
theorem deleteIncidents_deletes_witness :
    (∀ s ∈ diffTerms, (testConfig.findComponentByServiceName s.Service).isSome) ∧
    testCommand.toBeDeleted diffIncidents testConfig diffTerms =
      .ok (diffIncidents.filter (testCommand.deletable testConfig diffTerms)) ∧
    diffIncidents.filter (testCommand.deletable testConfig diffTerms) =
      [{ Id := "b", Components := [{ Id := "testComponentId" }], Metadata := recurringMetadata
         ScheduledFor := timeOf 2020 1 3 1 0, ScheduledUntil := timeOf 2020 1 3 1 10 }] :=
  ⟨by decide,
    (deleteIncidents_deletes testCommand diffIncidents testConfig diffTerms (by decide)).1,
    by decide⟩

/-! ## `Run` -/

theorem isRecurringSchedule_namespace (i : StatuspageIncident)
    (h : i.isRecurringSchedule = true) : (i.Metadata.lookup key_toolNamespace).isSome := by
  simp only [StatuspageIncident.isRecurringSchedule] at h
  cases hl : i.Metadata.lookup key_toolNamespace with
  | none => simp [hl] at h
  | some data => rfl

theorem toBeDeletedLoop_mem (c : RecurringCommand) (config : StatuspageConfig)
    (schedules : List ScheduledTerm) (incidents acc l : List StatuspageIncident)
    (h : toBeDeletedLoop c config schedules incidents acc = .ok l) :
    ∀ i ∈ l, i ∈ acc ∨ (i ∈ incidents ∧ i.isRecurringSchedule = true) := by
  induction incidents generalizing acc with
  | nil =>
    simp only [toBeDeletedLoop, Except.ok.injEq] at h
    subst h
    exact fun i hi => Or.inl hi
  | cons j rest ih =>
    rw [toBeDeletedLoop] at h
    cases he : deleteExists c j config schedules with
    | error e => simp [he] at h
    | ok found =>
      simp only [he] at h
      intro i hi
      split at h
      · rename_i hcond
        rcases ih _ h i hi with h1 | ⟨h1, h2⟩
        · rcases List.mem_append.mp h1 with h3 | h3
          · exact Or.inl h3
          · have hij : i = j := by simpa using h3
            subst hij
            simp only [Bool.and_eq_true] at hcond
            exact Or.inr ⟨List.mem_cons_self _ _, hcond.1.1.2⟩
        · exact Or.inr ⟨List.mem_cons_of_mem _ h1, h2⟩
      · rcases ih _ h i hi with h1 | ⟨h1, h2⟩
        · exact Or.inl h1
        · exact Or.inr ⟨List.mem_cons_of_mem _ h1, h2⟩

theorem deleteIncidents_calls {σ : Type} (c : RecurringCommand)
    (repository : StatuspageRepository σ) (incidents : List StatuspageIncident)
    (config : StatuspageConfig) (schedules : List ScheduledTerm) (st : RunState σ) :
    ∀ call ∈ (c.deleteIncidents repository incidents config schedules st).1.calls,
      call ∈ st.calls ∨
        ∃ i, call = Call.Delete i ∧ i ∈ incidents ∧ i.isRecurringSchedule = true := by
  intro call hcall
  simp only [RecurringCommand.deleteIncidents, RecurringCommand.toBeDeleted] at hcall
  cases hsel : toBeDeletedLoop c config schedules incidents [] with
  | error e =>
    simp only [hsel] at hcall
    exact Or.inl hcall
  | ok l =>
    simp only [hsel] at hcall
    obtain ⟨k, _, hc, _, _⟩ := deleteCalls_spec repository l st
    rw [hc] at hcall
    rcases List.mem_append.mp hcall with h1 | h1
    · exact Or.inl h1
    · obtain ⟨i, hi, rfl⟩ := List.mem_map.mp h1
      rcases toBeDeletedLoop_mem c config schedules incidents [] l hsel i
        (List.mem_of_mem_take hi) with h2 | h2
      · simp at h2
      · exact Or.inr ⟨i, rfl, h2⟩

theorem registerIncidents_calls {σ : Type} (c : RecurringCommand)
    (repository : StatuspageRepository σ) (incidents : List StatuspageIncident)
    (config : StatuspageConfig) (schedules : List ScheduledTerm) (now : Int)
    (st : RunState σ) :
    ∀ call ∈ (c.registerIncidents repository incidents config schedules now st).1.calls,
      call ∈ st.calls ∨ ∃ data, call = Call.Add data := by
  intro call hcall
  simp only [RecurringCommand.registerIncidents] at hcall
  cases hsel : c.toBeRegistered incidents config schedules now with
  | error e =>
    simp only [hsel] at hcall
    exact Or.inl hcall
  | ok p =>
    obtain ⟨l, out⟩ := p
    simp only [hsel] at hcall
    obtain ⟨k, _, hc, _⟩ := registerCalls_spec repository config now l
      (RunState.mk st.repo st.calls (st.out ++ out))
    rw [hc] at hcall
    rcases List.mem_append.mp hcall with h1 | h1
    · exact Or.inl h1
    · obtain ⟨s, _, rfl⟩ := List.mem_map.mp h1
      exact Or.inr ⟨_, rfl⟩

/-- C4: whatever the rules, the mapping, the repository and the moment, every
incident that `Run` passes to `Delete` is one of the incidents read from the
repository, is a recurring schedule of the tool and carries the metadata
namespace `statuspage_register_tool`; every other write call of the run is an
`Add`.  An incident without the namespace is never passed to `Delete`. -/
theorem run_deletes_only_tool_incidents {σ : Type} (c : RecurringCommand)
    (maintenances : List RecurringMaintenance) (statuspageConfig : StatuspageConfig)
    (repository : StatuspageRepository σ) (now : Int) (st : RunState σ) :
    ∀ call ∈ (c.Run maintenances statuspageConfig repository now st).1.calls,
      call ∈ st.calls ∨ (∃ data, call = Call.Add data) ∨
        ∃ i incidents, call = Call.Delete i ∧
          (repository.FindAllScheduledIncidents st.repo 1 200).2 = .ok incidents ∧
          i ∈ incidents ∧ i.isRecurringSchedule = true ∧
          (i.Metadata.lookup key_toolNamespace).isSome := by
  intro call hcall
  simp only [RecurringCommand.Run] at hcall
  cases hS : c.CreateSchedule maintenances with
  | error e =>
    simp only [hS] at hcall
    exact Or.inl hcall
  | ok S =>
    simp only [hS] at hcall
    generalize (repository.FindAllScheduledIncidents st.repo 1 200).2 = found at hcall ⊢
    cases found with
    | error err =>
      simp only at hcall
      exact Or.inl hcall
    | ok incidents =>
      simp only at hcall
      split at hcall
      · exact Or.inl hcall
      · cases hA : c.adjustIncients incidents S statuspageConfig with
        | error e =>
          simp only [hA] at hcall
          exact Or.inl hcall
        | ok p =>
          obtain ⟨adjusted, out⟩ := p
          simp only [hA] at hcall
          have hdel := deleteIncidents_calls c repository incidents statuspageConfig adjusted
            (RunState.mk (repository.FindAllScheduledIncidents st.repo 1 200).1 st.calls
              (st.out ++ out))
          have key : ∀ call ∈ (c.deleteIncidents repository incidents statuspageConfig adjusted
              (RunState.mk (repository.FindAllScheduledIncidents st.repo 1 200).1 st.calls
                (st.out ++ out))).1.calls,
              call ∈ st.calls ∨ (∃ data, call = Call.Add data) ∨
                ∃ i incidents1, call = Call.Delete i ∧
                  (Except.ok incidents : Except String (List StatuspageIncident)) =
                    .ok incidents1 ∧
                  i ∈ incidents1 ∧ i.isRecurringSchedule = true ∧
                  (i.Metadata.lookup key_toolNamespace).isSome := by
            intro call hc
            rcases hdel call hc with h1 | ⟨i, rfl, hi, hr⟩
            · exact Or.inl h1
            · exact Or.inr (Or.inr ⟨i, incidents, rfl, rfl, hi, hr,
                isRecurringSchedule_namespace i hr⟩)
          generalize c.deleteIncidents repository incidents statuspageConfig adjusted
            (RunState.mk (repository.FindAllScheduledIncidents st.repo 1 200).1 st.calls
              (st.out ++ out)) = r at hcall key
          obtain ⟨st2, f⟩ := r
          cases f with
          | some e =>
            simp only at hcall
            exact key call hcall
          | none =>
            simp only at hcall
            rcases registerIncidents_calls c repository incidents statuspageConfig adjusted now
              st2 call hcall with h1 | h1
            · exact key call h1
            · exact Or.inr (Or.inl h1)

/-- The theorem `run_deletes_only_tool_incidents` at a run over four incidents in
memory: the run passes to `Delete` the recurring schedules `a` and `b` of the
tool and no other incident; the incident `d` without metadata of the tool stays. -/
theorem run_deletes_only_tool_incidents_witness :
    (∀ call ∈ (testCommand.Run dailyMaintenance testConfig memoryRepository
        (timeOf 2020 1 2 12 0) { repo := diffIncidents }).1.calls,
      call ∈ ([] : List Call) ∨ (∃ data, call = Call.Add data) ∨
        ∃ i incidents, call = Call.Delete i ∧
          (memoryRepository.FindAllScheduledIncidents diffIncidents 1 200).2 = .ok incidents ∧
          i ∈ incidents ∧ i.isRecurringSchedule = true ∧
          (i.Metadata.lookup key_toolNamespace).isSome) ∧
    (testCommand.Run dailyMaintenance testConfig memoryRepository
        (timeOf 2020 1 2 12 0) { repo := diffIncidents }).1.calls.filterMap
      (fun call => match call with
        | Call.Delete i => some i.Id
        | Call.Add _ => none) = ["a", "b"] :=
  ⟨run_deletes_only_tool_incidents testCommand dailyMaintenance testConfig memoryRepository
      (timeOf 2020 1 2 12 0) { repo := diffIncidents },
    by decide⟩

/-! ## Idempotence of the reconciliation -/

theorem isSameComponentIds_of_map (i : StatuspageIncident) (ids : List String)
    (h : i.Components = ids.map (fun cid => { Id := cid })) :
    i.isSameComponentIds ids = true := by
  simp only [StatuspageIncident.isSameComponentIds, h, List.length_map, ne_eq,
    not_true_eq_false, if_false, List.all_eq_true, List.mem_map, List.any_eq_true,
    decide_eq_true_eq]
  rintro x ⟨cid, hcid, rfl⟩
  exact ⟨cid, hcid, rfl⟩

theorem registeredIncident_recurring (config : StatuspageConfig) (now : Int) (id : String)
    (s : ScheduledTerm) : (registeredIncident config now id s).isRecurringSchedule = true := by
  rfl

theorem registeredIncident_sameAs (config : StatuspageConfig) (now : Int) (id : String)
    (s : ScheduledTerm) : (registeredIncident config now id s).sameAs config s = true := by
  have h := isSameComponentIds_of_map (registeredIncident config now id s)
    (config.componentIdsOf s.Service) rfl
  simp only [StatuspageIncident.sameAs, h, Bool.true_and, Bool.and_eq_true, decide_eq_true_eq]
  exact ⟨rfl, rfl⟩

theorem blockedBy_not_recurring (s : ScheduledTerm) (config : StatuspageConfig)
    (i : StatuspageIncident) (h : s.blockedBy config i = true) :
    i.isRecurringSchedule = false := by
  simp only [ScheduledTerm.blockedBy, Bool.and_eq_true, Bool.not_eq_true'] at h
  exact h.1.1

theorem deletable_recurring (c : RecurringCommand) (config : StatuspageConfig)
    (schedules : List ScheduledTerm) (i : StatuspageIncident)
    (h : c.deletable config schedules i = true) : i.isRecurringSchedule = true := by
  simp only [RecurringCommand.deletable, Bool.and_eq_true] at h
  exact h.1.1

theorem any_blockedBy_remoteAfter (c : RecurringCommand) (config : StatuspageConfig)
    (incidents : List StatuspageIncident) (A R : List ScheduledTerm) (now : Int)
    (newId : ScheduledTerm → String) (s : ScheduledTerm) :
    (remoteAfter incidents (incidents.filter (c.deletable config A))
      (R.map (fun t => registeredIncident config now (newId t) t))).any (s.blockedBy config) =
      incidents.any (s.blockedBy config) := by
  rw [Bool.eq_iff_iff]
  simp only [remoteAfter, List.any_eq_true, List.mem_append, List.mem_filter, List.mem_map,
    decide_eq_true_eq, not_and]
  constructor
  · rintro ⟨i, (⟨hi, _⟩ | ⟨t, _, rfl⟩), hb⟩
    · exact ⟨i, hi, hb⟩
    · have := blockedBy_not_recurring s config _ hb
      rw [registeredIncident_recurring] at this
      exact absurd this (by decide)
  · rintro ⟨i, hi, hb⟩
    refine ⟨i, Or.inl ⟨hi, fun _ hd => ?_⟩, hb⟩
    have h1 := deletable_recurring c config A i hd
    rw [blockedBy_not_recurring s config i hb] at h1
    exact absurd h1 (by decide)

/-! ## `margeTerms` -/

/-- C6: for terms `a` and `b` with start before end, `margeTerms [a] [b]` is the
single term from the earlier start to the later end when `b.Start < a.End` and
`b.End > a.Start`, and the list `[a, b]` with both terms unchanged otherwise,
also when the two terms only touch at an end. -/
theorem margeTerms_pair (c : RecurringCommand) (a b : Term) (ha : a.Start < a.End)
    (hb : b.Start < b.End) :
    c.margeTerms [a] [b] =
      if b.Start < a.End ∧ b.End > a.Start then
        [{ Start := min a.Start b.Start, End := max a.End b.End }]
      else [a, b] := by
  obtain ⟨as, ae⟩ := a
  obtain ⟨bs, be⟩ := b
  simp only at ha hb
  simp only [RecurringCommand.margeTerms, margeInto, Time.Before, Time.After,
    Bool.and_eq_true, decide_eq_true_eq, gt_iff_lt]
  by_cases h : bs < ae ∧ as < be
  · simp only [h, and_self, if_true]
    by_cases h1 : bs < as <;> by_cases h2 : ae < be <;>
      simp [h1, h2, min_def, max_def] <;> omega
  · simp [h]

/-- The theorem `margeTerms_pair` at 10:00 to 11:00 with 10:30 to 11:30, which
give the single term 10:00 to 11:30, and at 10:00 to 11:00 with 12:00 to 13:00,
which stay two terms; terms that touch at 11:00 stay two terms as well. -/
theorem margeTerms_pair_witness :
    (timeOf 2020 1 1 10 0 < timeOf 2020 1 1 11 0 ∧
      timeOf 2020 1 1 10 30 < timeOf 2020 1 1 11 30) ∧
    testCommand.margeTerms [⟨timeOf 2020 1 1 10 0, timeOf 2020 1 1 11 0⟩]
        [⟨timeOf 2020 1 1 10 30, timeOf 2020 1 1 11 30⟩] =
      (if timeOf 2020 1 1 10 30 < timeOf 2020 1 1 11 0 ∧
          timeOf 2020 1 1 11 30 > timeOf 2020 1 1 10 0 then
        [{ Start := min (timeOf 2020 1 1 10 0) (timeOf 2020 1 1 10 30),
           End := max (timeOf 2020 1 1 11 0) (timeOf 2020 1 1 11 30) }]
      else [⟨timeOf 2020 1 1 10 0, timeOf 2020 1 1 11 0⟩,
        ⟨timeOf 2020 1 1 10 30, timeOf 2020 1 1 11 30⟩]) ∧
    testCommand.margeTerms [⟨timeOf 2020 1 1 10 0, timeOf 2020 1 1 11 0⟩]
        [⟨timeOf 2020 1 1 10 30, timeOf 2020 1 1 11 30⟩] =
      [⟨timeOf 2020 1 1 10 0, timeOf 2020 1 1 11 30⟩] ∧
    testCommand.margeTerms [⟨timeOf 2020 1 1 10 0, timeOf 2020 1 1 11 0⟩]
        [⟨timeOf 2020 1 1 12 0, timeOf 2020 1 1 13 0⟩] =
      [⟨timeOf 2020 1 1 10 0, timeOf 2020 1 1 11 0⟩,
        ⟨timeOf 2020 1 1 12 0, timeOf 2020 1 1 13 0⟩] ∧
    testCommand.margeTerms [⟨timeOf 2020 1 1 10 0, timeOf 2020 1 1 11 0⟩]
        [⟨timeOf 2020 1 1 11 0, timeOf 2020 1 1 12 0⟩] =
      [⟨timeOf 2020 1 1 10 0, timeOf 2020 1 1 11 0⟩,
        ⟨timeOf 2020 1 1 11 0, timeOf 2020 1 1 12 0⟩] :=
  ⟨⟨by decide, by decide⟩,
    margeTerms_pair testCommand ⟨timeOf 2020 1 1 10 0, timeOf 2020 1 1 11 0⟩
      ⟨timeOf 2020 1 1 10 30, timeOf 2020 1 1 11 30⟩ (by decide) (by decide),
    by decide, by decide, by decide⟩

/-- C7 at a failing input: for one maintenance with the rules 10:00 for one hour,
12:00 for one hour and 10:30 for two hours, `CreateSchedule` over the single day
2020-01-01 returns the two terms 10:00 to 12:30 and 12:00 to 13:00, which
overlap: the third rule widens the first term, and the widened term is not
compared with the second. -/
theorem createSchedule_overlapping_terms :
    oneDayCommand.CreateSchedule chainMaintenance =
      .ok [{ Service := "test", Start := timeOf 2020 1 1 10 0, End := timeOf 2020 1 1 12 30 },
           { Service := "test", Start := timeOf 2020 1 1 12 0, End := timeOf 2020 1 1 13 0 }] ∧
    timeOf 2020 1 1 10 0 < timeOf 2020 1 1 13 0 ∧
    timeOf 2020 1 1 12 30 > timeOf 2020 1 1 12 0 := by
  decide

/-! ## `ordinalOfWeekday` -/

theorem daysSinceEpoch_succ (y : Int) :
    daysSinceEpoch (y + 1) = daysSinceEpoch y + 365 + (if isLeap y then 1 else 0) := by
  have hl := isLeap_iff y
  simp only [daysSinceEpoch]
  split
  · rename_i h
    rw [hl] at h
    omega
  · rename_i h
    rw [hl] at h
    omega

/-- Day 0 of the next month is the last day of the month. -/
theorem date_month_end (y m : Int) (hm0 : 1 ≤ m) (hm1 : m ≤ 12) :
    Date y (m + 1) 0 0 0 0 0 = Date y m (daysIn (isLeap y) m) 0 0 0 0 := by
  obtain ⟨t0, t1, t2, t3, t4, t5, t6, t7, t8, t9, t10, t11, t12⟩ := daysBefore_table
  rw [date_eq y m _ 0 0 0 0 hm0 hm1]
  by_cases h12 : m = 12
  · subst h12
    have hs := daysSinceEpoch_succ y
    have e : (isLeap (y + 1) && decide ((1 : Int) ≥ 3)) = false := by simp
    simp only [Date, daysIn, Int.reduceAdd, Int.reduceSub, Int.reduceDiv, Int.reduceMod, t0,
      t11, t12, e, hs, nsPerDay]
    cases isLeap y <;> simp <;> omega
  · rw [date_eq y (m + 1) _ 0 0 0 0 (by omega) (by omega)]
    simp only [daysIn]
    have hm2 : m ≤ 11 := by omega
    cases isLeap y <;> interval_cases m <;>
      simp only [Int.reduceAdd, Int.reduceSub, t0, t1, t2, t3, t4, t5, t6, t7, t8, t9, t10,
        t11, t12, nsPerDay] <;>
      simp <;> omega

theorem clock_of_midnight (n : Int) :
    Time.Hour (n * nsPerDay) = 0 ∧ Time.Minute (n * nsPerDay) = 0 ∧
      Time.Second (n * nsPerDay) = 0 ∧ Time.Nanosecond (n * nsPerDay) = 0 := by
  simp only [Time.Hour, Time.Minute, Time.Second, Time.Nanosecond, nsPerHour, nsPerMinute,
    nsPerSecond, nsPerDay]
  omega

/-- The value of `Date` at midnight of a day of the month of `t`. -/
theorem date_in_month (t d : Int) :
    Date (Time.Year t) (Time.Month t) d 0 0 0 0 =
      (Time.dayNumber t + (d - Time.Day t)) * nsPerDay := by
  have h := date_fields t (d - Time.Day t) 0 0 0 0
  have e : Time.Day t + (d - Time.Day t) = d := by ring
  rw [e] at h
  rw [h]
  ring

theorem dayNumber_of_midnight (n : Int) : Time.dayNumber (n * nsPerDay) = n := by
  simp only [Time.dayNumber, nsPerDay]
  omega

/-- The last day of the month as `ordinalOfWeekday` computes it. -/
theorem lastDayOfMonth_eq (t : Int) :
    Time.Day (Time.AddDate (Date (Time.Year t) (Time.Month t) 1 0 0 0 0) 0 1 (-1)) =
      daysIn (isLeap (Time.Year t)) (Time.Month t) := by
  obtain ⟨m1, m2, _, _, _⟩ := fields_spec t
  have hd := daysIn_le (isLeap (Time.Year t)) (Time.Month t) m1 m2
  have hf := fields_of_date (Time.Year t) (Time.Month t) 1 0 m1 m2 (by omega) (by omega)
    (by omega) (by decide)
  simp only [add_zero] at hf
  obtain ⟨f1, f2, f3⟩ := hf
  have hc := clock_of_midnight (Time.dayNumber t + (1 - Time.Day t))
  rw [← date_in_month t 1] at hc
  obtain ⟨c1, c2, c3, c4⟩ := hc
  simp only [Time.AddDate, f1, f2, f3, c1, c2, c3, c4, add_zero]
  have e : (1 : Int) + -1 = 0 := by norm_num
  rw [e, date_month_end _ _ m1 m2]
  have hl := fields_of_date (Time.Year t) (Time.Month t)
    (daysIn (isLeap (Time.Year t)) (Time.Month t)) 0 m1 m2 (by omega) (le_refl _)
    (by omega) (by decide)
  simp only [add_zero] at hl
  exact hl.2.2

theorem weekday_of_date_day (t : Int) :
    Time.Weekday (Date (Time.Year t) (Time.Month t) (Time.Day t) 0 0 0 0) = Time.Weekday t := by
  rw [date_in_month, Time.Weekday, dayNumber_of_midnight, Time.Weekday]
  simp

theorem date_in_month_inj (t d : Int) :
    Date (Time.Year t) (Time.Month t) d 0 0 0 0 =
      Date (Time.Year t) (Time.Month t) (Time.Day t) 0 0 0 0 ↔ d = Time.Day t := by
  rw [date_in_month, date_in_month]
  simp only [nsPerDay]
  constructor
  · intro h
    omega
  · intro h
    rw [h]

theorem ordinalLoop_eq (t : Int) (j : Nat) : ∀ (n : Nat) (d ord : Int),
    d + j = Time.Day t → j < n →
    ordinalLoop (Time.Year t) (Time.Month t)
        (Date (Time.Year t) (Time.Month t) (Time.Day t) 0 0 0 0) n d ord =
      some (ord + ((List.range (j + 1)).filter (fun (k : Nat) =>
        decide (Time.Weekday (Date (Time.Year t) (Time.Month t) (d + (k : Int)) 0 0 0 0) =
          Time.Weekday t))).length) := by
  induction j with
  | zero =>
    intro n d ord hd hn
    obtain ⟨n, rfl⟩ : ∃ n', n = n' + 1 := ⟨n - 1, by omega⟩
    have hd2 : d = Time.Day t := by simpa using hd
    subst hd2
    have hr : List.range 1 = [0] := rfl
    simp [ordinalLoop, weekday_of_date_day, hr]
  | succ j ih =>
    intro n d ord hd hn
    obtain ⟨n, rfl⟩ : ∃ n', n = n' + 1 := ⟨n - 1, by omega⟩
    have hne : ¬ (Date (Time.Year t) (Time.Month t) d 0 0 0 0 =
        Date (Time.Year t) (Time.Month t) (Time.Day t) 0 0 0 0) := by
      rw [date_in_month_inj]
      push_cast at hd
      omega
    rw [ordinalLoop]
    simp only [hne, if_false, weekday_of_date_day]
    rw [ih n (d + 1) _ (by push_cast at hd ⊢; omega) (by omega)]
    rw [List.range_succ_eq_map (j + 1)]
    have hfun : ((fun k : Nat =>
        decide (Time.Weekday (Date (Time.Year t) (Time.Month t) (d + (k : Int)) 0 0 0 0) =
          Time.Weekday t)) ∘ Nat.succ) = (fun k : Nat =>
        decide (Time.Weekday (Date (Time.Year t) (Time.Month t) (d + 1 + (k : Int)) 0 0 0 0) =
          Time.Weekday t)) := by
      funext k
      simp only [Function.comp, Nat.succ_eq_add_one]
      push_cast
      rw [show d + ((k : Int) + 1) = d + 1 + (k : Int) by ring]
    by_cases hw : Time.Weekday (Date (Time.Year t) (Time.Month t) d 0 0 0 0) = Time.Weekday t
    · simp only [List.filter_cons, Nat.cast_zero, add_zero, hw, decide_True, if_true,
        List.filter_map, List.length_cons, List.length_map, hfun]
      push_cast
      congr 1
      ring
    · simp only [List.filter_cons, Nat.cast_zero, add_zero, hw, decide_False, if_false,
        List.filter_map, List.length_map, hfun]
      simp

/-- The ordinal that `ordinalOfWeekday` returns: the loop reaches the day of `t`,
and the count at that day is the occurrence of the weekday of `t` in its month. -/
theorem ordinalOfWeekday_eq (s : RecurringSchedules) (t : Int) :
    s.ordinalOfWeekday t = .ok (occurrenceInMonth t) := by
  obtain ⟨m1, m2, d1, d2, _⟩ := fields_spec t
  have hd := daysIn_le (isLeap (Time.Year t)) (Time.Month t) m1 m2
  have h1 : (1 : Int) + ((Time.Day t - 1).toNat : Int) = Time.Day t := by omega
  have h2 : (Time.Day t - 1).toNat < (daysIn (isLeap (Time.Year t)) (Time.Month t)).toNat := by
    omega
  have hloop := ordinalLoop_eq t (Time.Day t - 1).toNat
    (daysIn (isLeap (Time.Year t)) (Time.Month t)).toNat 1 0 h1 h2
  have e : (Time.Day t - 1).toNat + 1 = (Time.Day t).toNat := by omega
  have hfun : (fun k : Nat =>
      decide (Time.Weekday (Date (Time.Year t) (Time.Month t) (1 + (k : Int)) 0 0 0 0) =
        Time.Weekday t)) = (fun k : Nat =>
      decide (Time.Weekday (Date (Time.Year t) (Time.Month t) ((k : Int) + 1) 0 0 0 0) =
        Time.Weekday t)) := by
    funext k
    rw [add_comm]
  rw [e, hfun] at hloop
  rw [zero_add] at hloop
  unfold RecurringSchedules.ordinalOfWeekday
  simp only [lastDayOfMonth_eq]
  rw [hloop]
  rfl

/-! ## `IsMaintenanceDay` -/

theorem isMaintenanceDay_everyday (s : RecurringSchedules) (hE : s.isEveryDay = true) (D : Int) :
    s.IsMaintenanceDay D = .ok true := by
  simp only [RecurringSchedules.IsMaintenanceDay, hE, if_true]

theorem isMaintenanceDay_every (s : RecurringSchedules) (w : String)
    (hE : s.isEveryDay = false) (hW : s.weekday = .ok (everyOrdinal, w, none)) (D : Int) :
    s.IsMaintenanceDay D =
      .ok (decide (w = toLower (weekdayString (Time.Weekday D)))) := by
  simp only [RecurringSchedules.IsMaintenanceDay, hE, hW, if_true]
  simp

theorem isMaintenanceDay_ordinal (s : RecurringSchedules) (o : Int) (w : String)
    (hE : s.isEveryDay = false) (hW : s.weekday = .ok (o, w, none)) (ho : o ≠ everyOrdinal)
    (D : Int) :
    s.IsMaintenanceDay D =
      .ok (decide (o = occurrenceInMonth D) &&
        decide (w = toLower (weekdayString (Time.Weekday D)))) := by
  simp only [RecurringSchedules.IsMaintenanceDay, hE, hW, ho, if_false, ordinalOfWeekday_eq]
  simp

theorem every_table : ∀ w ∈ List.range 7,
    (ruleOf ("every " ++ weekdayName (w : Int))).isEveryDay = false ∧
      (ruleOf ("every " ++ weekdayName (w : Int))).weekday =
        .ok (everyOrdinal, weekdayName (w : Int), none) := by
  decide

theorem ordinal_table : ∀ n ∈ List.range 6, ∀ w ∈ List.range 7, 1 ≤ n →
    (ruleOf (ordinalName (n : Int) ++ " " ++ weekdayName (w : Int))).isEveryDay = false ∧
      (ruleOf (ordinalName (n : Int) ++ " " ++ weekdayName (w : Int))).weekday =
        .ok ((n : Int), weekdayName (w : Int), none) := by
  decide

theorem weekdayName_table : ∀ a ∈ List.range 7, ∀ b ∈ List.range 7,
    (weekdayName (a : Int) = weekdayName (b : Int)) ↔ a = b := by
  decide

theorem weekday_range (t : Int) : 0 ≤ Time.Weekday t ∧ Time.Weekday t ≤ 6 := by
  simp only [Time.Weekday]
  omega

theorem weekdayName_eq_iff (w : Int) (h0 : 0 ≤ w) (h1 : w ≤ 6) (t : Int) :
    weekdayName w = toLower (weekdayString (Time.Weekday t)) ↔ Time.Weekday t = w := by
  obtain ⟨r0, r1⟩ := weekday_range t
  have h := weekdayName_table w.toNat (List.mem_range.mpr (by omega)) (Time.Weekday t).toNat
    (List.mem_range.mpr (by omega))
  rw [Int.toNat_of_nonneg h0, Int.toNat_of_nonneg r0] at h
  rw [show toLower (weekdayString (Time.Weekday t)) = weekdayName (Time.Weekday t) from rfl, h]
  omega

/-- C9: for every date `D`, `IsMaintenanceDay` of a rule `everyday` is true; of a
rule `every <w>` it is true exactly when the weekday of `D` is `w`; of a rule
`<n-th> <w>` with `n` from 1 to 5 it is true exactly when the weekday of `D` is
`w` and `D` is the n-th occurrence of that weekday within its calendar month. -/
theorem isMaintenanceDay_rules (s : RecurringSchedules) (D : Int) :
    (s.Day = "everyday" → s.IsMaintenanceDay D = .ok true) ∧
    (∀ w : Int, 0 ≤ w → w ≤ 6 → s.Day = "every " ++ weekdayName w →
      s.IsMaintenanceDay D = .ok (decide (Time.Weekday D = w))) ∧
    (∀ n w : Int, 1 ≤ n → n ≤ 5 → 0 ≤ w → w ≤ 6 →
      s.Day = ordinalName n ++ " " ++ weekdayName w →
      s.IsMaintenanceDay D = .ok (decide (Time.Weekday D = w ∧ occurrenceInMonth D = n))) := by
  refine ⟨?_, ?_, ?_⟩
  · intro hday
    apply isMaintenanceDay_everyday
    simp only [RecurringSchedules.isEveryDay, hday]
    decide
  · intro w w0 w1 hday
    have ht := every_table w.toNat (List.mem_range.mpr (by omega))
    rw [Int.toNat_of_nonneg w0, ← hday] at ht
    rw [isMaintenanceDay_every s (weekdayName w) ht.1 ht.2 D]
    congr 1
    rw [decide_eq_decide]
    exact weekdayName_eq_iff w w0 w1 D
  · intro n w n0 n1 w0 w1 hday
    have ht := ordinal_table n.toNat (List.mem_range.mpr (by omega)) w.toNat
      (List.mem_range.mpr (by omega)) (by omega)
    rw [Int.toNat_of_nonneg w0, Int.toNat_of_nonneg (by omega : (0 : Int) ≤ n), ← hday] at ht
    rw [isMaintenanceDay_ordinal s n (weekdayName w) ht.1 ht.2
      (by simp only [everyOrdinal]; omega) D]
    congr 1
    rw [← Bool.decide_and, decide_eq_decide, weekdayName_eq_iff w w0 w1 D]
    constructor
    · rintro ⟨h1, h2⟩
      exact ⟨h2, h1.symm⟩
    · rintro ⟨h1, h2⟩
      exact ⟨h2.symm, h1⟩

/-- The theorem `isMaintenanceDay_rules` at the rule `1st sunday` and the date
2020-01-05, with the values of `TestIsMaintenanceDay`: `1st sunday` is true on
2020-01-05 and false on 2020-01-04 and 2020-01-06, and `5th thursday` is true
on 2020-12-31. -/
theorem isMaintenanceDay_rules_witness :
    ((1 : Int) ≤ 1 ∧ (1 : Int) ≤ 5 ∧ (0 : Int) ≤ 0 ∧ (0 : Int) ≤ 6 ∧
      (ruleOf "1st sunday").Day = ordinalName 1 ++ " " ++ weekdayName 0) ∧
    (ruleOf "1st sunday").IsMaintenanceDay (timeOf 2020 1 5 0 0) =
      .ok (decide (Time.Weekday (timeOf 2020 1 5 0 0) = 0 ∧
        occurrenceInMonth (timeOf 2020 1 5 0 0) = 1)) ∧
    (ruleOf "1st sunday").IsMaintenanceDay (timeOf 2020 1 5 0 0) = .ok true ∧
    (ruleOf "1st sunday").IsMaintenanceDay (timeOf 2020 1 4 0 0) = .ok false ∧
    (ruleOf "1st sunday").IsMaintenanceDay (timeOf 2020 1 6 0 0) = .ok false ∧
    (ruleOf "5th thursday").IsMaintenanceDay (timeOf 2020 12 31 0 0) = .ok true ∧
    (ruleOf "everyday").IsMaintenanceDay (timeOf 2020 1 1 0 0) = .ok true ∧
    (ruleOf "every sunday").IsMaintenanceDay (timeOf 2020 1 12 0 0) = .ok true :=
  ⟨by decide,
    (isMaintenanceDay_rules (ruleOf "1st sunday") (timeOf 2020 1 5 0 0)).2.2 1 0
      (by decide) (by decide) (by decide) (by decide) (by decide),
    by decide, by decide, by decide, by decide, by decide, by decide⟩

/-! ## `CreateTerms` -/

/-- A rule with a valid day specification has a maintenance-day answer on every date. -/
theorem isMaintenanceDay_total (s : RecurringSchedules) (hv : s.validDay = true) :
    ∃ isM : Int → Bool, ∀ D, s.IsMaintenanceDay D = .ok (isM D) := by
  simp only [RecurringSchedules.validDay, Bool.or_eq_true] at hv
  cases hE : s.isEveryDay with
  | true => exact ⟨fun _ => true, fun D => isMaintenanceDay_everyday s hE D⟩
  | false =>
    rw [hE] at hv
    cases hW : s.weekday with
    | error e => simp [hW] at hv
    | ok r =>
      obtain ⟨o, w, err⟩ := r
      cases err with
      | some e => simp [hW] at hv
      | none =>
        by_cases ho : o = everyOrdinal
        · subst ho
          exact ⟨_, fun D => isMaintenanceDay_every s w hE hW D⟩
        · exact ⟨_, fun D => isMaintenanceDay_ordinal s o w hE hW ho D⟩

/-- The loop of `CreateTerms` visits the dates `date`, `date` plus one day, and
so on while they are before `limit`, and never reaches its step bound. -/
theorem createTermsLoop_eq (s : RecurringSchedules) (limit : Int) (isM : Int → Bool)
    (hM : ∀ D, s.IsMaintenanceDay D = .ok (isM D)) (fuel : Nat) :
    ∀ (date : Int) (terms : List Term),
      ((limit - date + nsPerDay - 1) / nsPerDay).toNat ≤ fuel →
      createTermsLoop s limit fuel date terms =
        .ok (terms ++
          (((List.range ((limit - date + nsPerDay - 1) / nsPerDay).toNat).map
            (fun (k : Nat) => date + k * nsPerDay)).filter isM).map s.termAt) := by
  induction fuel with
  | zero =>
    intro date terms hn
    have h0 : ((limit - date + nsPerDay - 1) / nsPerDay).toNat = 0 := by omega
    have hlt : ¬ date < limit := by
      simp only [nsPerDay] at h0
      omega
    simp [createTermsLoop, Time.Before, hlt, h0]
  | succ fuel ih =>
    intro date terms hn
    rw [createTermsLoop]
    by_cases hlt : date < limit
    · have hstep : ((limit - date + nsPerDay - 1) / nsPerDay).toNat =
          ((limit - (date + nsPerDay) + nsPerDay - 1) / nsPerDay).toNat + 1 := by
        simp only [nsPerDay]
        omega
      have hfuel : ((limit - (date + nsPerDay) + nsPerDay - 1) / nsPerDay).toNat ≤ fuel := by
        omega
      have hfun : ((fun (k : Nat) => date + (k : Int) * nsPerDay) ∘ Nat.succ) =
          (fun (k : Nat) => date + nsPerDay + (k : Int) * nsPerDay) := by
        funext k
        simp only [Function.comp, Nat.succ_eq_add_one]
        push_cast
        ring
      simp only [Time.Before, hlt, decide_True, if_true, hM date, addDate_days, one_mul]
      rw [hstep, List.range_succ_eq_map, List.map_cons, List.map_map, hfun]
      cases hb : isM date
      · simp only [ih (date + nsPerDay) terms hfuel]
        simp [List.filter_cons, hb]
      · simp only [ih (date + nsPerDay) (terms ++ [s.termAt date]) hfuel]
        simp [List.filter_cons, hb]
    · have h0 : ((limit - date + nsPerDay - 1) / nsPerDay).toNat = 0 := by
        simp only [nsPerDay]
        omega
      simp [Time.Before, hlt, h0]

theorem datesOfRange_count (first last : Int) (hf : first % nsPerDay = 0)
    (hl : last % nsPerDay = 0) :
    ((last + nsPerDay - first + nsPerDay - 1) / nsPerDay).toNat =
      ((last - first) / nsPerDay + 1).toNat := by
  simp only [nsPerDay] at hf hl ⊢
  omega

theorem mem_datesOfRange (first last : Int) (hf : first % nsPerDay = 0)
    (hl : last % nsPerDay = 0) (D : Int) :
    D ∈ datesOfRange first last ↔ (D % nsPerDay = 0 ∧ first ≤ D ∧ D ≤ last) := by
  simp only [datesOfRange, List.mem_map, List.mem_range]
  constructor
  · rintro ⟨k, hk, rfl⟩
    simp only [nsPerDay] at hf hl hk ⊢
    omega
  · rintro ⟨h1, h2, h3⟩
    refine ⟨((D - first) / nsPerDay).toNat, ?_, ?_⟩
    · simp only [nsPerDay] at hf hl h1 ⊢
      omega
    · simp only [nsPerDay] at hf hl h1 ⊢
      omega

theorem datesOfRange_increasing (first last : Int) :
    (datesOfRange first last).Pairwise (fun a b => a < b) := by
  simp only [datesOfRange]
  rw [List.pairwise_map]
  refine List.Pairwise.imp ?_ (List.pairwise_lt_range _)
  intro a b hab
  simp only [nsPerDay]
  omega

/-- C8: for a rule with a valid day specification, start offset `o` and duration
`d` that `time.ParseDuration` accepts, and dates `first` and `last` (instants at
midnight), `CreateTerms` returns, in increasing date order, one term
`[D + o, D + o + d]` for every calendar date `D` with `first <= D <= last` on
which `IsMaintenanceDay` is true and nothing for the other dates; the result is
empty when no date matches and when `last` is before `first`. -/
theorem createTerms_eq (s : RecurringSchedules) (o d first last : Int)
    (hv : s.validDay = true) (ho : ParseDuration s.Start = some o)
    (hd : ParseDuration s.Time = some d) (hf : first % nsPerDay = 0)
    (hl : last % nsPerDay = 0) :
    s.CreateTerms first last =
      .ok (((datesOfRange first last).filter
        (fun D => decide (s.IsMaintenanceDay D = .ok true))).map
          (fun D => { Start := D + o, End := D + o + d })) ∧
    (∀ D, D ∈ datesOfRange first last ↔ (D % nsPerDay = 0 ∧ first ≤ D ∧ D ≤ last)) ∧
    (datesOfRange first last).Pairwise (fun a b => a < b) ∧
    (last < first → s.CreateTerms first last = .ok []) := by
  obtain ⟨isM, hM⟩ := isMaintenanceDay_total s hv
  have hterm : s.termAt = fun D => ({ Start := D + o, End := D + o + d } : Term) := by
    funext D
    simp only [RecurringSchedules.termAt, ho, hd, Option.getD_some, Time.Add]
  have hfilter : (fun D => decide (s.IsMaintenanceDay D = .ok true)) = isM := by
    funext D
    rw [hM D]
    cases isM D <;> simp
  have hmain : s.CreateTerms first last =
      .ok (((datesOfRange first last).filter
        (fun D => decide (s.IsMaintenanceDay D = .ok true))).map
          (fun D => { Start := D + o, End := D + o + d })) := by
    simp only [RecurringSchedules.CreateTerms, addDate_days, one_mul]
    rw [createTermsLoop_eq s (last + nsPerDay) isM hM _ first [] (le_refl _), hterm, hfilter,
      datesOfRange_count first last hf hl]
    simp only [List.nil_append, datesOfRange]
  refine ⟨hmain, mem_datesOfRange first last hf hl, datesOfRange_increasing first last, ?_⟩
  intro hlt
  have h0 : ((last - first) / nsPerDay + 1).toNat = 0 := by
    simp only [nsPerDay] at hf hl ⊢
    omega
  rw [hmain]
  simp [datesOfRange, h0]

/-- The theorem `createTerms_eq` at the rule `1st sunday` from 23:50 for twenty
minutes over 2020-01-01 to 2020-01-06, with the values of `TestIsCreateTerms`:
that range yields the one term that starts on January 5, `every sunday` over
2020-01-01 to 2020-02-29 yields eight terms, and `1st sunday` over the single
day 2020-01-01 yields none. -/
theorem createTerms_eq_witness :
    ((ruleOf "1st sunday").validDay = true ∧
      ParseDuration (ruleOf "1st sunday").Start = some 85800000000000 ∧
      ParseDuration (ruleOf "1st sunday").Time = some 1200000000000 ∧
      timeOf 2020 1 1 0 0 % nsPerDay = 0 ∧ timeOf 2020 1 6 0 0 % nsPerDay = 0) ∧
    (ruleOf "1st sunday").CreateTerms (timeOf 2020 1 1 0 0) (timeOf 2020 1 6 0 0) =
      .ok (((datesOfRange (timeOf 2020 1 1 0 0) (timeOf 2020 1 6 0 0)).filter
        (fun D => decide ((ruleOf "1st sunday").IsMaintenanceDay D = .ok true))).map
          (fun D => { Start := D + 85800000000000,
                      End := D + 85800000000000 + 1200000000000 })) ∧
    (ruleOf "1st sunday").CreateTerms (timeOf 2020 1 1 0 0) (timeOf 2020 1 6 0 0) =
      .ok [{ Start := timeOf 2020 1 5 23 50, End := timeOf 2020 1 6 0 10 }] ∧
    ((ruleOf "every sunday").CreateTerms (timeOf 2020 1 1 0 0) (timeOf 2020 2 29 0 0)).map
      List.length = .ok 8 ∧
    (ruleOf "1st sunday").CreateTerms (timeOf 2020 1 1 0 0) (timeOf 2020 1 1 0 0) = .ok [] :=
  ⟨by decide,
    (createTerms_eq (ruleOf "1st sunday") 85800000000000 1200000000000 (timeOf 2020 1 1 0 0)
      (timeOf 2020 1 6 0 0) (by decide) (by decide) (by decide) (by decide) (by decide)).1,
    by decide, by decide, by decide⟩

/-! ## Runs over the repository in memory -/

theorem memory_delete (store : List StatuspageIncident) (i : StatuspageIncident) :
    memoryRepository.Delete store i = (store.filter (fun j => decide (j ≠ i)), none) := rfl

theorem memory_add (store : List StatuspageIncident) (data : StatuspageCreateIncidentRequest) :
    memoryRepository.Add store data = (store ++ [data.toIncident ""], none) := rfl

theorem memory_find (store : List StatuspageIncident) (page perPage : Int) :
    memoryRepository.FindAllScheduledIncidents store page perPage = (store, .ok store) := rfl

theorem deleteCalls_memory (l : List StatuspageIncident)
    (st : RunState (List StatuspageIncident)) :
    (deleteCalls memoryRepository l st).1.repo = st.repo.filter (fun j => decide (j ∉ l)) ∧
      (deleteCalls memoryRepository l st).1.calls = st.calls ++ l.map Call.Delete ∧
      (deleteCalls memoryRepository l st).1.out = st.out ∧
      (deleteCalls memoryRepository l st).2 = none := by
  induction l generalizing st with
  | nil => simp [deleteCalls]
  | cons i rest ih =>
    rw [deleteCalls]
    simp only [memory_delete]
    obtain ⟨h1, h2, h3, h4⟩ := ih
      (RunState.mk (st.repo.filter (fun j => decide (j ≠ i))) (st.calls ++ [Call.Delete i])
        st.out)
    refine ⟨?_, ?_, h3, h4⟩
    · rw [h1, List.filter_filter]
      congr 1
      funext j
      simp only [List.mem_cons, not_or, decide_not, ne_eq, Bool.decide_and]
      exact Bool.and_comm _ _
    · rw [h2]
      simp

theorem registerCalls_memory (config : StatuspageConfig) (now : Int) (l : List ScheduledTerm)
    (hl : ∀ s ∈ l, (config.findComponentByServiceName s.Service).isSome)
    (st : RunState (List StatuspageIncident)) :
    (registerCalls memoryRepository config now l st).1.repo =
        st.repo ++ l.map (registeredIncident config now "") ∧
      (registerCalls memoryRepository config now l st).1.calls =
        st.calls ++ l.map (fun s => Call.Add (addRequest config now s)) ∧
      (registerCalls memoryRepository config now l st).2 = none := by
  induction l generalizing st with
  | nil => simp [registerCalls]
  | cons s rest ih =>
    obtain ⟨comp, hcomp⟩ := Option.isSome_iff_exists.mp (hl s (List.mem_cons_self _ _))
    have hreq : CreateMaintenanceStatuspageData s.Title s.Body comp.ComponentIds s.Start s.End
        ScheduleType_Recurring "" now = addRequest config now s := by
      simp only [addRequest, StatuspageConfig.componentIdsOf, hcomp]
    rw [registerCalls]
    simp only [hcomp, hreq, memory_add]
    obtain ⟨h1, h2, h3⟩ := ih (fun t ht => hl t (List.mem_cons_of_mem _ ht))
      (RunState.mk (st.repo ++ [(addRequest config now s).toIncident ""])
        (st.calls ++ [Call.Add (addRequest config now s)]) st.out)
    refine ⟨?_, ?_, h3⟩
    · rw [h1]
      simp [registeredIncident]
    · rw [h2]
      simp

/-- A run over the repository in memory, for fewer than 200 incidents and an
adjusted schedule whose services are all mapped: it ends without failure, issues
the selected deletions and then the selected additions, and leaves the incidents
that `remoteAfter` describes. -/
theorem run_memory (c : RecurringCommand) (maintenances : List RecurringMaintenance)
    (config : StatuspageConfig) (incidents : List StatuspageIncident) (now : Int)
    (S A R : List ScheduledTerm) (D : List StatuspageIncident) (out1 out2 : List LogLine)
    (hS : c.CreateSchedule maintenances = .ok S)
    (hlen : incidents.length < 200)
    (hA : c.adjustIncients incidents S config = .ok (A, out1))
    (hD : c.toBeDeleted incidents config A = .ok D)
    (hR : c.toBeRegistered incidents config A now = .ok (R, out2))
    (hRm : ∀ s ∈ R, (config.findComponentByServiceName s.Service).isSome) :
    (c.Run maintenances config memoryRepository now { repo := incidents }).2 = none ∧
      (c.Run maintenances config memoryRepository now { repo := incidents }).1.calls =
        D.map Call.Delete ++ R.map (fun s => Call.Add (addRequest config now s)) ∧
      (c.Run maintenances config memoryRepository now { repo := incidents }).1.repo =
        remoteAfter incidents D (R.map (registeredIncident config now "")) := by
  have hlen2 : ¬ incidents.length ≥ 200 := by omega
  simp only [RecurringCommand.Run, hS, memory_find, hlen2, if_false, hA,
    RecurringCommand.deleteIncidents, hD]
  obtain ⟨d1, d2, d3, d4⟩ := deleteCalls_memory D (RunState.mk incidents [] ([] ++ out1))
  generalize deleteCalls memoryRepository D (RunState.mk incidents [] ([] ++ out1)) = r
    at d1 d2 d3 d4
  obtain ⟨st2, f⟩ := r
  simp only at d1 d2 d3 d4
  subst d4
  simp only [RecurringCommand.registerIncidents, hR]
  obtain ⟨r1, r2, r3⟩ := registerCalls_memory config now R hRm
    (RunState.mk st2.repo st2.calls (st2.out ++ out2))
  refine ⟨r3, ?_, ?_⟩
  · rw [r2, d2]
    simp
  · rw [r1, d1]
    rfl

/-- The selections of two successive runs: the first run adjusts the schedule to
`adjustedTerms`, selects the deletable incidents and the addable terms; over the
remote list that results, a second run at a moment not earlier adjusts to the
same terms and selects nothing. -/
theorem reconcile_selections (c : RecurringCommand) (config : StatuspageConfig)
    (incidents : List StatuspageIncident) (now1 now2 : Int)
    (newId : ScheduledTerm → String) (S : List ScheduledTerm)
    (hmap : ∀ s ∈ S, (config.findComponentByServiceName s.Service).isSome)
    (hnow : now1 ≤ now2) :
    ∃ out1 out2 out3 out4,
      c.adjustIncients incidents S config = .ok (adjustedTerms config incidents S, out1) ∧
      c.toBeDeleted incidents config (adjustedTerms config incidents S) =
        .ok (incidents.filter (c.deletable config (adjustedTerms config incidents S))) ∧
      c.toBeRegistered incidents config (adjustedTerms config incidents S) now1 =
        .ok ((adjustedTerms config incidents S).filter (c.addable incidents config now1),
          out2) ∧
      c.adjustIncients (remoteAfter incidents
        (incidents.filter (c.deletable config (adjustedTerms config incidents S)))
        (((adjustedTerms config incidents S).filter (c.addable incidents config now1)).map
          (fun s => registeredIncident config now1 (newId s) s))) S config =
          .ok (adjustedTerms config incidents S, out3) ∧
      c.toBeDeleted (remoteAfter incidents
        (incidents.filter (c.deletable config (adjustedTerms config incidents S)))
        (((adjustedTerms config incidents S).filter (c.addable incidents config now1)).map
          (fun s => registeredIncident config now1 (newId s) s))) config
          (adjustedTerms config incidents S) = .ok [] ∧
      c.toBeRegistered (remoteAfter incidents
        (incidents.filter (c.deletable config (adjustedTerms config incidents S)))
        (((adjustedTerms config incidents S).filter (c.addable incidents config now1)).map
          (fun s => registeredIncident config now1 (newId s) s))) config
          (adjustedTerms config incidents S) now2 = .ok ([], out4) := by
  have hA := adjustLoop_eq incidents config S hmap [] []
  simp only [List.nil_append] at hA
  have hAdef : S.filter (fun s => !incidents.any (s.blockedBy config)) =
      adjustedTerms config incidents S := rfl
  rw [hAdef] at hA
  generalize adjustedTerms config incidents S = A at hA hAdef
  have hmapA : ∀ s ∈ A, (config.findComponentByServiceName s.Service).isSome := by
    intro s hs
    rw [← hAdef] at hs
    exact hmap s (List.mem_of_mem_filter hs)
  have hD := toBeDeletedLoop_eq c config A hmapA incidents []
  have hR := toBeRegisteredLoop_eq c incidents config now1 A hmapA [] []
  simp only [List.nil_append] at hD hR
  generalize hrem : remoteAfter incidents (incidents.filter (c.deletable config A))
    ((A.filter (c.addable incidents config now1)).map
      (fun s => registeredIncident config now1 (newId s) s)) = remote
  have hA2 := adjustLoop_eq remote config S hmap [] []
  have hD2 := toBeDeletedLoop_eq c config A hmapA remote []
  have hR2 := toBeRegisteredLoop_eq c remote config now2 A hmapA [] []
  simp only [List.nil_append] at hA2 hD2 hR2
  have hsame : S.filter (fun s => !remote.any (s.blockedBy config)) = A := by
    rw [← hAdef]
    congr 1
    funext s
    rw [← hrem, any_blockedBy_remoteAfter]
  have hmem : ∀ i, i ∈ remote ↔ (i ∈ incidents ∧ c.deletable config A i = false) ∨
      ∃ s ∈ A, c.addable incidents config now1 s = true ∧
        i = registeredIncident config now1 (newId s) s := by
    intro i
    rw [← hrem]
    simp only [remoteAfter, List.mem_append, List.mem_filter, List.mem_map, decide_eq_true_eq,
      not_and, Bool.not_eq_true]
    constructor
    · rintro (⟨hi, hd⟩ | ⟨s, ⟨hs, ha⟩, rfl⟩)
      · exact Or.inl ⟨hi, hd hi⟩
      · exact Or.inr ⟨s, hs, ha, rfl⟩
    · rintro (⟨hi, hd⟩ | ⟨s, hs, ha, rfl⟩)
      · exact Or.inl ⟨hi, fun _ => hd⟩
      · exact Or.inr ⟨s, ⟨hs, ha⟩, rfl⟩
  have hdel : remote.filter (c.deletable config A) = [] := by
    rw [List.filter_eq_nil_iff]
    intro i hi hd
    rcases (hmem i).mp hi with ⟨_, hnd⟩ | ⟨s, hs, _, rfl⟩
    · rw [hnd] at hd
      exact absurd hd (by decide)
    · simp only [RecurringCommand.deletable, Bool.and_eq_true, Bool.not_eq_true',
        List.any_eq_false] at hd
      exact hd.2 s hs (registeredIncident_sameAs config now1 (newId s) s)
  have hadd : A.filter (c.addable remote config now2) = [] := by
    rw [List.filter_eq_nil_iff]
    intro s hs ha
    simp only [RecurringCommand.addable, Bool.and_eq_true, Bool.not_eq_true',
      List.any_eq_false, decide_eq_true_eq] at ha
    obtain ⟨⟨⟨hnone, hfrom⟩, hto⟩, hnow2⟩ := ha
    by_cases ha1 : c.addable incidents config now1 s = true
    · exact hnone _ ((hmem _).mpr (Or.inr ⟨s, hs, ha1, rfl⟩))
        (registeredIncident_sameAs config now1 (newId s) s)
    · simp only [RecurringCommand.addable, Bool.and_eq_true, Bool.not_eq_true',
        List.any_eq_false, decide_eq_true_eq, not_and, not_lt] at ha1
      by_cases hex : ∃ i ∈ incidents, i.sameAs config s = true
      · obtain ⟨i, hi, hsame⟩ := hex
        have hnd : c.deletable config A i = false := by
          simp only [RecurringCommand.deletable, Bool.and_eq_false_imp, Bool.and_eq_true,
            Bool.not_eq_false', List.any_eq_true]
          exact fun _ => ⟨s, hs, hsame⟩
        exact hnone i ((hmem i).mpr (Or.inl ⟨hi, hnd⟩)) hsame
      · have h1 : ∀ x ∈ incidents, x.sameAs config s = false := by
          intro x hx
          cases hx2 : x.sameAs config s
          · rfl
          · exact absurd ⟨x, hx, hx2⟩ hex
        have := ha1 ⟨⟨fun x hx => by simp [h1 x hx], hfrom⟩, hto⟩
        omega
  rw [hsame] at hA2
  rw [hdel] at hD2
  rw [hadd] at hR2
  subst hrem
  exact ⟨_, _, _, _, hA, hD, hR, hA2, hD2, hR2⟩


/-- A run over the repository in memory whose selections are empty issues no call. -/
theorem run_memory_no_calls (c : RecurringCommand) (maintenances : List RecurringMaintenance)
    (config : StatuspageConfig) (remote : List StatuspageIncident) (now : Int)
    (S A : List ScheduledTerm) (out3 out4 : List LogLine)
    (hS : c.CreateSchedule maintenances = .ok S)
    (hA : c.adjustIncients remote S config = .ok (A, out3))
    (hD : c.toBeDeleted remote config A = .ok [])
    (hR : c.toBeRegistered remote config A now = .ok ([], out4)) :
    (c.Run maintenances config memoryRepository now { repo := remote }).1.calls = [] := by
  by_cases hlen : remote.length < 200
  · have h := (run_memory c maintenances config remote now S A [] [] out3 out4 hS hlen hA hD hR
      (by simp)).2.1
    rw [h]
    rfl
  · have hlen2 : remote.length ≥ 200 := by omega
    simp only [RecurringCommand.Run, hS, memory_find, hlen2, if_true]

/-- C5: let the first run compute the schedule `S` from the rules, adjust it to
`A`, select the deletions `D` and, at the moment `now1`, the additions `R`, and
let the remote list become the incidents read (fewer than 200) without `D`,
followed by one incident per term of `R` with the mapped component ids, the
start and end of the term and the metadata of a recurring schedule of the tool,
whatever id the store gives it.  A second run over that list with the same
rules, mapping and dates at a moment `now2` not earlier than `now1` adjusts `S`
to the same `A` and selects no deletion and no addition.  Over the repository in
memory the first `Run` ends without failure, issues `D` and then `R` and leaves
that list, and the second `Run` over it issues no call. -/
theorem reconcile_idempotent (c : RecurringCommand) (maintenances : List RecurringMaintenance)
    (config : StatuspageConfig) (incidents : List StatuspageIncident) (now1 now2 : Int)
    (newId : ScheduledTerm → String) (S : List ScheduledTerm)
    (hS : c.CreateSchedule maintenances = .ok S)
    (hmap : ∀ s ∈ S, (config.findComponentByServiceName s.Service).isSome)
    (hlen : incidents.length < 200) (hnow : now1 ≤ now2) :
    ∃ A D R out1 out2 out3 out4,
      c.CreateSchedule maintenances = .ok S ∧
      c.adjustIncients incidents S config = .ok (A, out1) ∧
      c.toBeDeleted incidents config A = .ok D ∧
      c.toBeRegistered incidents config A now1 = .ok (R, out2) ∧
      c.adjustIncients (remoteAfter incidents D
        (R.map (fun s => registeredIncident config now1 (newId s) s))) S config =
          .ok (A, out3) ∧
      c.toBeDeleted (remoteAfter incidents D
        (R.map (fun s => registeredIncident config now1 (newId s) s))) config A = .ok [] ∧
      c.toBeRegistered (remoteAfter incidents D
        (R.map (fun s => registeredIncident config now1 (newId s) s))) config A now2 =
          .ok ([], out4) ∧
      (c.Run maintenances config memoryRepository now1 { repo := incidents }).2 = none ∧
      (c.Run maintenances config memoryRepository now1 { repo := incidents }).1.calls =
        D.map Call.Delete ++ R.map (fun s => Call.Add (addRequest config now1 s)) ∧
      (c.Run maintenances config memoryRepository now1 { repo := incidents }).1.repo =
        remoteAfter incidents D (R.map (registeredIncident config now1 "")) ∧
      (c.Run maintenances config memoryRepository now2
        { repo := (c.Run maintenances config memoryRepository now1
            { repo := incidents }).1.repo }).1.calls = [] := by
  obtain ⟨out1, out2, out3, out4, hA, hD, hR, hA2, hD2, hR2⟩ :=
    reconcile_selections c config incidents now1 now2 newId S hmap hnow
  obtain ⟨_, _, o3, o4, _, _, _, hA3, hD3, hR3⟩ :=
    reconcile_selections c config incidents now1 now2 (fun _ => "") S hmap hnow
  have hRm : ∀ s ∈ (adjustedTerms config incidents S).filter (c.addable incidents config now1),
      (config.findComponentByServiceName s.Service).isSome :=
    fun s hs => hmap s (List.mem_of_mem_filter (List.mem_of_mem_filter hs))
  obtain ⟨m1, m2, m3⟩ := run_memory c maintenances config incidents now1 S _ _ _ out1 out2
    hS hlen hA hD hR hRm
  refine ⟨_, _, _, out1, out2, out3, out4, hS, hA, hD, hR, hA2, hD2, hR2, m1, m2, m3, ?_⟩
  rw [m3]
  exact run_memory_no_calls c maintenances config _ now2 S _ o3 o4 hS hA3 hD3 hR3

/-- The theorem `reconcile_idempotent` at the run from 2020-01-01 to 2020-01-05
of a daily maintenance over four remote incidents, first at January 2 12:00 and
then at 13:00: the first run issues five calls (the deletions of `a` and `b`,
then three additions) and the second run over its result issues none. -/
theorem reconcile_idempotent_witness :
    (testCommand.CreateSchedule dailyMaintenance = .ok dailyTerms ∧
      (∀ s ∈ dailyTerms, (testConfig.findComponentByServiceName s.Service).isSome) ∧
      diffIncidents.length < 200 ∧
      timeOf 2020 1 2 12 0 ≤ timeOf 2020 1 2 13 0) ∧
    (∃ A D R out1 out2 out3 out4,
      testCommand.CreateSchedule dailyMaintenance = .ok dailyTerms ∧
      testCommand.adjustIncients diffIncidents dailyTerms testConfig = .ok (A, out1) ∧
      testCommand.toBeDeleted diffIncidents testConfig A = .ok D ∧
      testCommand.toBeRegistered diffIncidents testConfig A (timeOf 2020 1 2 12 0) =
        .ok (R, out2) ∧
      testCommand.adjustIncients (remoteAfter diffIncidents D
        (R.map (fun s => registeredIncident testConfig (timeOf 2020 1 2 12 0) "" s)))
          dailyTerms testConfig = .ok (A, out3) ∧
      testCommand.toBeDeleted (remoteAfter diffIncidents D
        (R.map (fun s => registeredIncident testConfig (timeOf 2020 1 2 12 0) "" s)))
          testConfig A = .ok [] ∧
      testCommand.toBeRegistered (remoteAfter diffIncidents D
        (R.map (fun s => registeredIncident testConfig (timeOf 2020 1 2 12 0) "" s)))
          testConfig A (timeOf 2020 1 2 13 0) = .ok ([], out4) ∧
      (testCommand.Run dailyMaintenance testConfig memoryRepository (timeOf 2020 1 2 12 0)
        { repo := diffIncidents }).2 = none ∧
      (testCommand.Run dailyMaintenance testConfig memoryRepository (timeOf 2020 1 2 12 0)
        { repo := diffIncidents }).1.calls =
        D.map Call.Delete ++
          R.map (fun s => Call.Add (addRequest testConfig (timeOf 2020 1 2 12 0) s)) ∧
      (testCommand.Run dailyMaintenance testConfig memoryRepository (timeOf 2020 1 2 12 0)
        { repo := diffIncidents }).1.repo =
        remoteAfter diffIncidents D
          (R.map (registeredIncident testConfig (timeOf 2020 1 2 12 0) "")) ∧
      (testCommand.Run dailyMaintenance testConfig memoryRepository (timeOf 2020 1 2 13 0)
        { repo := (testCommand.Run dailyMaintenance testConfig memoryRepository
            (timeOf 2020 1 2 12 0) { repo := diffIncidents }).1.repo }).1.calls = []) ∧
    (testCommand.Run dailyMaintenance testConfig memoryRepository (timeOf 2020 1 2 12 0)
      { repo := diffIncidents }).1.calls.filterMap
        (fun call => match call with
          | Call.Delete i => some i.Id
          | Call.Add data => some data.Incident.Name) =
      ["a", "b", "daily", "daily", "daily"] :=
  ⟨⟨by decide, by decide, by decide, by decide⟩,
    reconcile_idempotent testCommand dailyMaintenance testConfig diffIncidents
      (timeOf 2020 1 2 12 0) (timeOf 2020 1 2 13 0) (fun _ => "") dailyTerms
      (by decide) (by decide) (by decide) (by decide),
    by decide⟩

/-! ## `isSameComponentIds` and `isRecurringSchedule` -/

theorem isSameComponentIds_iff (incident : StatuspageIncident) (ids : List String) :
    incident.isSameComponentIds ids = true ↔
      ids.length = incident.Components.length ∧ ∀ c ∈ incident.Components, c.Id ∈ ids := by
  simp only [StatuspageIncident.isSameComponentIds]
  by_cases h : ids.length = incident.Components.length
  · simp [h]
  · simp [h]

/-- C12: `isSameComponentIds` does not depend on order: id lists that are
permutations of each other give the same result, and so do incidents whose
component lists are permutations of each other. -/
theorem isSameComponentIds_perm (incident incident' : StatuspageIncident)
    (ids ids' : List String) :
    (ids.Perm ids' → incident.isSameComponentIds ids = incident.isSameComponentIds ids') ∧
    (incident.Components.Perm incident'.Components →
      incident.isSameComponentIds ids = incident'.isSameComponentIds ids) := by
  constructor
  · intro hp
    rw [Bool.eq_iff_iff, isSameComponentIds_iff, isSameComponentIds_iff, hp.length_eq]
    constructor
    · rintro ⟨h1, h2⟩
      exact ⟨h1, fun c hc => hp.mem_iff.mp (h2 c hc)⟩
    · rintro ⟨h1, h2⟩
      exact ⟨h1, fun c hc => hp.mem_iff.mpr (h2 c hc)⟩
  · intro hp
    rw [Bool.eq_iff_iff, isSameComponentIds_iff, isSameComponentIds_iff, hp.length_eq]
    constructor
    · rintro ⟨h1, h2⟩
      exact ⟨h1, fun c hc => h2 c (hp.mem_iff.mpr hc)⟩
    · rintro ⟨h1, h2⟩
      exact ⟨h1, fun c hc => h2 c (hp.mem_iff.mp hc)⟩

/-- The theorem `isSameComponentIds_perm` at the ids `a`, `b` and `b`, `a`: the
incident with the components `a` and `b` has both id lists, and the incident
with the components in the other order has them as well. -/
theorem isSameComponentIds_perm_witness :
    (["a", "b"].Perm ["b", "a"] ∧ abIncident.Components.Perm baIncident.Components) ∧
    abIncident.isSameComponentIds ["a", "b"] = abIncident.isSameComponentIds ["b", "a"] ∧
    abIncident.isSameComponentIds ["a", "b"] = baIncident.isSameComponentIds ["a", "b"] ∧
    abIncident.isSameComponentIds ["b", "a"] = true :=
  ⟨⟨List.Perm.swap _ _ _, List.Perm.swap _ _ _⟩,
    (isSameComponentIds_perm abIncident baIncident ["a", "b"] ["b", "a"]).1
      (List.Perm.swap _ _ _),
    (isSameComponentIds_perm abIncident baIncident ["a", "b"] ["b", "a"]).2
      (List.Perm.swap _ _ _),
    by decide⟩

/-- C13 at a failing input: for the incident that lists the component `a` twice
and the ids `a`, `b`, `isSameComponentIds` returns true although `b` is not one
of the component ids of the incident, so the two are not equal as sets.  The
function compares the lengths and then looks up every component of the incident
among the ids, but not every id among the components. -/
theorem isSameComponentIds_not_set_equality :
    aaIncident.isSameComponentIds ["a", "b"] = true ∧
    "b" ∉ aaIncident.componentIds ∧
    ¬ (aaIncident.isSameComponentIds ["a", "b"] = true ↔
      (["a", "b"].length = aaIncident.componentIds.length ∧
        (∀ id ∈ ["a", "b"], id ∈ aaIncident.componentIds) ∧
        (∀ id ∈ aaIncident.componentIds, id ∈ ["a", "b"]))) := by
  decide

/-- What `isSameComponentIds` computes: it is true exactly when `ids` and the
component ids of the incident have the same number of entries and every
component id of the incident occurs in `ids`; when the component ids of the
incident are pairwise distinct, that is exactly when the two have the same
number of entries and are equal as sets, so the function differs from the
comparison of sets only for an incident that lists a component more than once. -/
theorem isSameComponentIds_spec (incident : StatuspageIncident) (ids : List String) :
    (incident.isSameComponentIds ids = true ↔
      (ids.length = incident.componentIds.length ∧ ∀ id ∈ incident.componentIds, id ∈ ids)) ∧
    (incident.componentIds.Nodup →
      (incident.isSameComponentIds ids = true ↔
        (ids.length = incident.componentIds.length ∧ (∀ id ∈ ids, id ∈ incident.componentIds) ∧
          (∀ id ∈ incident.componentIds, id ∈ ids)))) := by
  have h1 : incident.isSameComponentIds ids = true ↔
      (ids.length = incident.componentIds.length ∧
        ∀ id ∈ incident.componentIds, id ∈ ids) := by
    rw [isSameComponentIds_iff]
    simp [StatuspageIncident.componentIds]
  refine ⟨h1, fun hnd => ?_⟩
  rw [h1]
  constructor
  · rintro ⟨hlen, hsub⟩
    have hp : incident.componentIds.Perm ids :=
      (List.subperm_of_subset hnd hsub).perm_of_length_le (le_of_eq hlen)
    exact ⟨hlen, fun id hid => hp.mem_iff.mpr hid, hsub⟩
  · rintro ⟨hlen, _, hsub⟩
    exact ⟨hlen, hsub⟩

/-- The theorem `isSameComponentIds_spec` at the incident with the distinct
components `a` and `b` and the ids `b`, `a`. -/
theorem isSameComponentIds_spec_witness :
    abIncident.componentIds.Nodup ∧
    (abIncident.isSameComponentIds ["b", "a"] = true ↔
      (["b", "a"].length = abIncident.componentIds.length ∧
        (∀ id ∈ ["b", "a"], id ∈ abIncident.componentIds) ∧
        (∀ id ∈ abIncident.componentIds, id ∈ ["b", "a"]))) ∧
    abIncident.isSameComponentIds ["b", "a"] = true :=
  ⟨by decide, (isSameComponentIds_spec abIncident ["b", "a"]).2 (by decide), by decide⟩

/-- C14 fails as stated: an incident whose metadata has the namespace of the
tool and no schedule type under it is a recurring schedule according to
`isRecurringSchedule`. -/
theorem isRecurringSchedule_without_type :
    ¬ (untypedIncident.isRecurringSchedule = true ↔
      ((untypedIncident.Metadata.lookup key_toolNamespace).isSome ∧
        untypedIncident.scheduleType = some (MetaValue.str ScheduleType_Recurring))) := by
  decide

/-- C14 as amended: `isRecurringSchedule` returns true exactly when the metadata
of the incident has the namespace of the tool and the schedule type under that
namespace is absent or is `recurring`; it returns false for an incident without
the namespace and for one whose schedule type is another value. -/
theorem isRecurringSchedule_spec (incident : StatuspageIncident) :
    (incident.isRecurringSchedule = true ↔
      ((incident.Metadata.lookup key_toolNamespace).isSome ∧
        (incident.scheduleType = none ∨
          incident.scheduleType = some (MetaValue.str ScheduleType_Recurring)))) ∧
    (incident.Metadata.lookup key_toolNamespace = none → incident.isRecurringSchedule = false) ∧
    (∀ t, incident.scheduleType = some t → t ≠ MetaValue.str ScheduleType_Recurring →
      incident.isRecurringSchedule = false) := by
  simp only [StatuspageIncident.isRecurringSchedule, StatuspageIncident.scheduleType]
  cases h1 : incident.Metadata.lookup key_toolNamespace with
  | none => simp
  | some data =>
    cases h2 : data.lookup key_scheduleType with
    | none => simp [h2]
    | some t => simp [h2]

/-- The theorem `isRecurringSchedule_spec` at an incident without metadata, which
is not a recurring schedule, and at an incident with the schedule type `once`,
which is not one either; the incident with the namespace and no schedule type is
one. -/
theorem isRecurringSchedule_spec_witness :
    (abIncident.Metadata.lookup key_toolNamespace = none ∧
      abIncident.isRecurringSchedule = false) ∧
    (onceIncident.scheduleType = some (MetaValue.str "once") ∧
      MetaValue.str "once" ≠ MetaValue.str ScheduleType_Recurring ∧
      onceIncident.isRecurringSchedule = false) ∧
    untypedIncident.isRecurringSchedule = true :=
  ⟨⟨by decide, (isRecurringSchedule_spec abIncident).2.1 (by decide)⟩,
    ⟨by decide, by decide,
      (isRecurringSchedule_spec onceIncident).2.2 (MetaValue.str "once") (by decide)
        (by decide)⟩,
    by decide⟩

/-! ## Day specifications that are not recognised -/

theorem isMaintenanceDay_nomatch (s : RecurringSchedules) (e : Failure)
    (hE : s.isEveryDay = false) (hW : s.weekday = .error e) (D : Int) :
    s.IsMaintenanceDay D = .error e := by
  simp only [RecurringSchedules.IsMaintenanceDay, hE, hW]
  simp

theorem isMaintenanceDay_weekday_err (s : RecurringSchedules) (o : Int) (w msg : String)
    (hE : s.isEveryDay = false) (hW : s.weekday = .ok (o, w, some msg)) (D : Int) :
    s.IsMaintenanceDay D = .error (Failure.invalidWeekday s.Day) := by
  simp only [RecurringSchedules.IsMaintenanceDay, hE, hW]
  simp

/-- A rule whose day specification is not valid gives no boolean on any date. -/
theorem isMaintenanceDay_invalid (s : RecurringSchedules) (hv : s.validDay = false) (D : Int) :
    ∃ e, s.IsMaintenanceDay D = .error e := by
  simp only [RecurringSchedules.validDay, Bool.or_eq_false_iff] at hv
  obtain ⟨hE, hW⟩ := hv
  cases hw : s.weekday with
  | error e => exact ⟨e, isMaintenanceDay_nomatch s e hE hw D⟩
  | ok r =>
    obtain ⟨o, w, err⟩ := r
    cases err with
    | none => simp [hw] at hW
    | some msg => exact ⟨_, isMaintenanceDay_weekday_err s o w msg hE hw D⟩

/-- C15 at failing inputs: the day specifications `1st Sunday` and
`Every Monday` (capital letters) and ` everyday ` (blanks around) make
`IsMaintenanceDay` fail on every date with the run-time failure of `result[0]`,
while `1st sunday`, `every monday` and `everyday` give booleans.  The pattern of
`weekday` has no flag for upper case, and `isEveryDay` does not trim. -/
theorem isMaintenanceDay_case_and_blanks (D : Int) :
    (ruleOf "1st Sunday").IsMaintenanceDay D = .error (Failure.indexOutOfRange "1st Sunday") ∧
    (ruleOf "Every Monday").IsMaintenanceDay D =
      .error (Failure.indexOutOfRange "Every Monday") ∧
    (ruleOf " everyday ").IsMaintenanceDay D = .error (Failure.indexOutOfRange " everyday ") ∧
    (ruleOf "1st sunday").IsMaintenanceDay (timeOf 2020 1 5 0 0) = .ok true ∧
    (ruleOf "every monday").IsMaintenanceDay (timeOf 2020 1 6 0 0) = .ok true ∧
    (ruleOf "everyday").IsMaintenanceDay D = .ok true ∧
    (ruleOf "EveryDay").IsMaintenanceDay D = .ok true ∧
    (ruleOf "  1st   sunday ").IsMaintenanceDay (timeOf 2020 1 5 0 0) = .ok true :=
  ⟨isMaintenanceDay_nomatch _ _ (by decide) (by decide) D,
    isMaintenanceDay_nomatch _ _ (by decide) (by decide) D,
    isMaintenanceDay_nomatch _ _ (by decide) (by decide) D,
    by decide, by decide,
    isMaintenanceDay_everyday _ (by decide) D,
    isMaintenanceDay_everyday _ (by decide) D,
    by decide⟩

/-- C16 at failing inputs: for the day specifications `someday` and the empty
text `weekday` does not return an error; it fails at run time at `result[0]`,
and so does `IsMaintenanceDay` on every date.  For `44th monday` and
`4,5th monday`, which the pattern lets through, `weekday` does return the error
`invalid weekday`, and `IsMaintenanceDay` stops with it. -/
theorem weekday_fails_without_error (D : Int) :
    (ruleOf "someday").weekday = .error (Failure.indexOutOfRange "someday") ∧
    (ruleOf "").weekday = .error (Failure.indexOutOfRange "") ∧
    (ruleOf "someday").IsMaintenanceDay D = .error (Failure.indexOutOfRange "someday") ∧
    (ruleOf "44th monday").weekday = .ok (-1, "", some "invalid weekday: 44th monday") ∧
    (ruleOf "4,5th monday").weekday = .ok (-1, "", some "invalid weekday: 4,5th monday") ∧
    (ruleOf "44th monday").IsMaintenanceDay D = .error (Failure.invalidWeekday "44th monday") :=
  ⟨by decide, by decide,
    isMaintenanceDay_nomatch _ _ (by decide) (by decide) D,
    by decide, by decide,
    isMaintenanceDay_weekday_err _ (-1) "" "invalid weekday: 44th monday" (by decide)
      (by decide) D⟩

/-! ## `CreateSchedule` -/

/-- `CreateTerms` returns for every rule with a valid day specification. -/
theorem createTerms_total (s : RecurringSchedules) (hv : s.validDay = true)
    (first last : Int) : ∃ terms, s.CreateTerms first last = .ok terms := by
  obtain ⟨isM, hM⟩ := isMaintenanceDay_total s hv
  simp only [RecurringSchedules.CreateTerms]
  exact ⟨_, createTermsLoop_eq s _ isM hM _ first [] (le_refl _)⟩

theorem createScheduleRules_cons (c : RecurringCommand) (s : RecurringSchedules)
    (rest : List RecurringSchedules) (terms : List Term) :
    createScheduleRules c (s :: rest) terms =
      (match s.CreateTerms c.FromDate c.ToDate with
       | .error e => .error e
       | .ok created => createScheduleRules c rest (c.margeTerms terms created)) := rfl

theorem createScheduleLoop_cons (c : RecurringCommand) (ps : RecurringMaintenance)
    (rest : List RecurringMaintenance) (acc : List ScheduledTerm) :
    createScheduleLoop c (ps :: rest) acc =
      (match createScheduleRules c ps.RecurringSchedules [] with
       | .error e => .error e
       | .ok terms => createScheduleLoop c rest (acc ++ scheduledTermsOf ps terms)) := rfl

theorem createdTerms_ok (c : RecurringCommand) (s : RecurringSchedules) (created : List Term)
    (hc : s.CreateTerms c.FromDate c.ToDate = .ok created) : createdTerms c s = created := by
  unfold createdTerms
  rw [hc]

theorem createScheduleRules_eq (c : RecurringCommand) (rules : List RecurringSchedules) :
    ∀ (terms : List Term),
      (∀ s ∈ rules, ∃ created, s.CreateTerms c.FromDate c.ToDate = .ok created) →
      createScheduleRules c rules terms =
        .ok (rules.foldl (fun terms s => c.margeTerms terms (createdTerms c s)) terms) := by
  induction rules with
  | nil => intro terms _; rfl
  | cons s rest ih =>
    intro terms h
    obtain ⟨created, hc⟩ := h s (List.mem_cons_self _ _)
    rw [createScheduleRules_cons, hc, List.foldl_cons, createdTerms_ok c s created hc]
    exact ih _ (fun t ht => h t (List.mem_cons_of_mem _ ht))

theorem createScheduleRules_ok (c : RecurringCommand) (rules : List RecurringSchedules) :
    ∀ (terms result : List Term), createScheduleRules c rules terms = .ok result →
      ∀ s ∈ rules, ∃ created, s.CreateTerms c.FromDate c.ToDate = .ok created := by
  induction rules with
  | nil => intro _ _ _ s hs; simp at hs
  | cons r rest ih =>
    intro terms result h s hs
    rw [createScheduleRules_cons] at h
    cases hc : r.CreateTerms c.FromDate c.ToDate with
    | error e => simp [hc] at h
    | ok created =>
      simp only [hc] at h
      rcases List.mem_cons.mp hs with h1 | h1
      · subst h1
        exact ⟨created, hc⟩
      · exact ih _ _ h s h1

theorem createScheduleLoop_eq (c : RecurringCommand) (ms : List RecurringMaintenance) :
    ∀ (acc : List ScheduledTerm),
      (∀ ps ∈ ms, ∀ s ∈ ps.RecurringSchedules,
        ∃ created, s.CreateTerms c.FromDate c.ToDate = .ok created) →
      createScheduleLoop c ms acc =
        .ok (acc ++ ms.flatMap (fun ps => scheduledTermsOf ps (mergedTerms c ps))) := by
  induction ms with
  | nil => intro acc _; simp [createScheduleLoop]
  | cons ps rest ih =>
    intro acc h
    rw [createScheduleLoop_cons,
      createScheduleRules_eq c ps.RecurringSchedules [] (h ps (List.mem_cons_self _ _))]
    simp only [List.flatMap_cons]
    rw [ih _ (fun qs hq => h qs (List.mem_cons_of_mem _ hq))]
    simp [mergedTerms]

theorem createScheduleLoop_ok (c : RecurringCommand) (ms : List RecurringMaintenance) :
    ∀ (acc result : List ScheduledTerm), createScheduleLoop c ms acc = .ok result →
      ∀ ps ∈ ms, ∀ s ∈ ps.RecurringSchedules,
        ∃ created, s.CreateTerms c.FromDate c.ToDate = .ok created := by
  induction ms with
  | nil => intro _ _ _ ps hps; simp at hps
  | cons qs rest ih =>
    intro acc result h ps hps
    rw [createScheduleLoop_cons] at h
    cases hr : createScheduleRules c qs.RecurringSchedules [] with
    | error e => simp [hr] at h
    | ok terms =>
      simp only [hr] at h
      rcases List.mem_cons.mp hps with h1 | h1
      · subst h1
        exact createScheduleRules_ok c _ _ _ hr
      · exact ih _ _ h ps h1

theorem margeTerms_nil (c : RecurringCommand) (terms : List Term) :
    c.margeTerms terms [] = terms := by
  cases terms <;> rfl

/-- C11: whenever `CreateSchedule` returns, it returns the concatenation, in the
order of the definitions, of the merged term list of each definition (in merge
order), every term with the `Service`, `Title` and `Body` of its definition and
the `Start` and `End` of the merged term; it returns when the day specification
of every rule is valid; and a definition none of whose rules creates a term has
an empty merged list, so it contributes nothing. -/
theorem createSchedule_concat (c : RecurringCommand) (maintenances : List RecurringMaintenance) :
    (∀ S, c.CreateSchedule maintenances = .ok S →
      S = maintenances.flatMap (fun ps => (mergedTerms c ps).map (fun t =>
        { Service := ps.Service, Title := ps.Title, Body := ps.Body,
          Start := t.Start, End := t.End }))) ∧
    ((∀ ps ∈ maintenances, ∀ s ∈ ps.RecurringSchedules, s.validDay = true) →
      c.CreateSchedule maintenances =
        .ok (maintenances.flatMap (fun ps => (mergedTerms c ps).map (fun t =>
          { Service := ps.Service, Title := ps.Title, Body := ps.Body,
            Start := t.Start, End := t.End })))) ∧
    (∀ ps, (∀ s ∈ ps.RecurringSchedules, createdTerms c s = []) → mergedTerms c ps = []) := by
  have hgen : (∀ ps ∈ maintenances, ∀ s ∈ ps.RecurringSchedules,
      ∃ created, s.CreateTerms c.FromDate c.ToDate = .ok created) →
      c.CreateSchedule maintenances =
        .ok (maintenances.flatMap (fun ps => (mergedTerms c ps).map (fun t =>
          { Service := ps.Service, Title := ps.Title, Body := ps.Body,
            Start := t.Start, End := t.End }))) := by
    intro h
    rw [RecurringCommand.CreateSchedule, createScheduleLoop_eq c maintenances [] h]
    rfl
  refine ⟨?_, ?_, ?_⟩
  · intro S hS
    have h := createScheduleLoop_ok c maintenances [] S hS
    rw [hgen h] at hS
    exact (Except.ok.inj hS).symm
  · intro hv
    exact hgen (fun ps hps s hs => createTerms_total s (hv ps hps s hs) _ _)
  · intro ps h
    simp only [mergedTerms]
    generalize ps.RecurringSchedules = rules at h
    induction rules with
    | nil => rfl
    | cons s rest ih =>
      simp only [List.foldl_cons, h s (List.mem_cons_self _ _), margeTerms_nil]
      exact ih (fun t ht => h t (List.mem_cons_of_mem _ ht))

/-- The theorem `createSchedule_concat` at the case `2 Services` of
`TestCreateSchedule`: the two terms of `test1` come first and the term of `test2`
at January 1 10:00 last, although that term is the first in time. -/
theorem createSchedule_concat_witness :
    (∀ ps ∈ twoServices, ∀ s ∈ ps.RecurringSchedules, s.validDay = true) ∧
    twoDayCommand.CreateSchedule twoServices =
      .ok (twoServices.flatMap (fun ps => (mergedTerms twoDayCommand ps).map (fun t =>
        { Service := ps.Service, Title := ps.Title, Body := ps.Body,
          Start := t.Start, End := t.End }))) ∧
    twoDayCommand.CreateSchedule twoServices =
      .ok [{ Service := "test1", Title := "first", Body := "body of first",
             Start := timeOf 2020 1 1 23 50, End := timeOf 2020 1 2 0 10 },
           { Service := "test1", Title := "first", Body := "body of first",
             Start := timeOf 2020 1 2 23 50, End := timeOf 2020 1 3 0 10 },
           { Service := "test2", Title := "second", Body := "body of second",
             Start := timeOf 2020 1 1 10 0, End := timeOf 2020 1 1 10 20 }] :=
  ⟨by decide,
    (createSchedule_concat twoDayCommand twoServices).2.1 (by decide),
    by decide⟩

/-! ## Start and end of the created terms -/

theorem termAt_start (s : RecurringSchedules) (D : Int) :
    (s.termAt D).Start = D + (ParseDuration s.Start).getD 0 := rfl

theorem termAt_end (s : RecurringSchedules) (D : Int) :
    (s.termAt D).End = (s.termAt D).Start + (ParseDuration s.Time).getD 0 := rfl

/-- Every term that the loop of `CreateTerms` returns was in the list it
started with or is the term of the rule at some date. -/
theorem createTermsLoop_mem (s : RecurringSchedules) (limit : Int) (fuel : Nat) :
    ∀ (date : Int) (terms result : List Term),
      createTermsLoop s limit fuel date terms = .ok result →
      ∀ t ∈ result, t ∈ terms ∨ ∃ D, t = s.termAt D := by
  induction fuel with
  | zero =>
    intro date terms result h t ht
    rw [createTermsLoop] at h
    split at h
    · cases h
    · cases h
      exact Or.inl ht
  | succ fuel ih =>
    intro date terms result h t ht
    rw [createTermsLoop] at h
    split at h
    · generalize s.IsMaintenanceDay date = r at h
      rcases r with e | b
      · cases h
      · cases b
        · exact ih _ _ _ h t ht
        · rcases ih _ _ _ h t ht with h1 | h1
          · rcases List.mem_append.mp h1 with h2 | h2
            · exact Or.inl h2
            · exact Or.inr ⟨date, List.mem_singleton.mp h2⟩
          · exact Or.inr h1
    · cases h
      exact Or.inl ht

theorem createTerms_mem (s : RecurringSchedules) (first last : Int) (terms : List Term)
    (h : s.CreateTerms first last = .ok terms) : ∀ t ∈ terms, ∃ D, t = s.termAt D := by
  intro t ht
  rcases createTermsLoop_mem s _ _ _ _ _ h t ht with h1 | h1
  · simp at h1
  · exact h1

theorem createdTerms_mem (c : RecurringCommand) (s : RecurringSchedules) :
    ∀ t ∈ createdTerms c s, ∃ D, t = s.termAt D := by
  intro t ht
  unfold createdTerms at ht
  cases hc : s.CreateTerms c.FromDate c.ToDate with
  | error e => rw [hc] at ht; simp at ht
  | ok terms =>
    rw [hc] at ht
    exact createTerms_mem s _ _ terms hc t ht

theorem margeInto_pos (m1 : Term) (h1 : m1.Start < m1.End) :
    ∀ (terms merged : List Term), margeInto m1 terms = some merged →
      (∀ t ∈ terms, t.Start < t.End) → ∀ t ∈ merged, t.Start < t.End := by
  intro terms
  induction terms with
  | nil => intro merged h; simp [margeInto] at h
  | cons m2 rest ih =>
    intro merged h hpos t ht
    have h2 := hpos m2 (List.mem_cons_self _ _)
    rw [margeInto] at h
    split at h
    · cases h
      rcases List.mem_cons.mp ht with h3 | h3
      · subst h3
        simp only [Time.Before]
        by_cases ha : m1.Start < m2.Start <;> by_cases hb : m2.End < m1.End <;>
          simp [ha, hb] <;> omega
      · exact hpos t (List.mem_cons_of_mem _ h3)
    · cases hm : margeInto m1 rest with
      | none => rw [hm] at h; simp at h
      | some l =>
        rw [hm] at h
        simp only [Option.map_some', Option.some.injEq] at h
        subst h
        rcases List.mem_cons.mp ht with h3 | h3
        · subst h3
          exact h2
        · exact ih l hm (fun u hu => hpos u (List.mem_cons_of_mem _ hu)) t h3

theorem margeTerms_pos (c : RecurringCommand) (terms2 : List Term) :
    ∀ (terms1 : List Term), (∀ t ∈ terms1, t.Start < t.End) →
      (∀ t ∈ terms2, t.Start < t.End) → ∀ t ∈ c.margeTerms terms1 terms2, t.Start < t.End := by
  induction terms2 with
  | nil => intro terms1 h1 _; rw [margeTerms_nil]; exact h1
  | cons m1 rest ih =>
    intro terms1 h1 h2
    have hm1 := h2 m1 (List.mem_cons_self _ _)
    have hrest : ∀ t ∈ rest, t.Start < t.End := fun t ht => h2 t (List.mem_cons_of_mem _ ht)
    rw [RecurringCommand.margeTerms]
    cases hm : margeInto m1 terms1 with
    | some merged => exact ih merged (margeInto_pos m1 hm1 terms1 merged hm h1) hrest
    | none =>
      refine ih (terms1 ++ [m1]) ?_ hrest
      intro t ht
      rcases List.mem_append.mp ht with h3 | h3
      · exact h1 t h3
      · rw [List.mem_singleton.mp h3]
        exact hm1

theorem mergedTerms_pos (c : RecurringCommand) (ps : RecurringMaintenance)
    (hpos : ∀ s ∈ ps.RecurringSchedules, 0 < (ParseDuration s.Time).getD 0) :
    ∀ t ∈ mergedTerms c ps, t.Start < t.End := by
  have hgen : ∀ (rules : List RecurringSchedules) (terms : List Term),
      (∀ s ∈ rules, 0 < (ParseDuration s.Time).getD 0) → (∀ t ∈ terms, t.Start < t.End) →
      ∀ t ∈ rules.foldl (fun terms s => c.margeTerms terms (createdTerms c s)) terms,
        t.Start < t.End := by
    intro rules
    induction rules with
    | nil => intro terms _ h; exact h
    | cons s rest ih =>
      intro terms hr ht
      rw [List.foldl_cons]
      refine ih _ (fun u hu => hr u (List.mem_cons_of_mem _ hu)) ?_
      refine margeTerms_pos c _ terms ht ?_
      intro t hmem
      obtain ⟨D, rfl⟩ := createdTerms_mem c s t hmem
      have hp := hr s (List.mem_cons_self _ _)
      rw [termAt_end]
      omega
  exact hgen ps.RecurringSchedules [] hpos (by simp)

/-- C17 counterexample: the rule for every day at 01:00 whose duration is `0s`
yields on 2020-01-01 a term that ends at the moment it starts, the rule whose
duration is `-30m` a term that ends half an hour before it starts, and
`CreateSchedule` returns the former term, so its `End` is not after its `Start`. -/
theorem createTerms_end_not_after_start :
    zeroRule.CreateTerms (timeOf 2020 1 1 0 0) (timeOf 2020 1 1 0 0) =
      .ok [{ Start := timeOf 2020 1 1 1 0, End := timeOf 2020 1 1 1 0 }] ∧
    negativeRule.CreateTerms (timeOf 2020 1 1 0 0) (timeOf 2020 1 1 0 0) =
      .ok [{ Start := timeOf 2020 1 1 1 0, End := timeOf 2020 1 1 0 30 }] ∧
    oneDayCommand.CreateSchedule
        [{ Service := "test", Title := "", Body := "", RecurringSchedules := [zeroRule] }] =
      .ok [{ Service := "test", Title := "", Body := "",
             Start := timeOf 2020 1 1 1 0, End := timeOf 2020 1 1 1 0 }] ∧
    Time.After (timeOf 2020 1 1 1 0) (timeOf 2020 1 1 1 0) = false ∧
    Time.After (timeOf 2020 1 1 0 30) (timeOf 2020 1 1 1 0) = false := by
  decide

/-- C17, amended: for every rule whose `Time` is a duration that
`time.ParseDuration` accepts and that is positive, every term that `CreateTerms`
returns ends after it starts, whatever the `Start` text and the dates; when all
rules of all definitions have such a `Time`, every term that `CreateSchedule`
returns ends after it starts; and for a rule whose `Time` is rejected or not
positive no term that `CreateTerms` returns ends after it starts. -/
theorem terms_end_after_start (c : RecurringCommand) :
    (∀ (s : RecurringSchedules) (first last : Int) (terms : List Term),
      0 < (ParseDuration s.Time).getD 0 → s.CreateTerms first last = .ok terms →
      ∀ t ∈ terms, Time.After t.End t.Start = true) ∧
    (∀ (maintenances : List RecurringMaintenance) (S : List ScheduledTerm),
      (∀ ps ∈ maintenances, ∀ s ∈ ps.RecurringSchedules, 0 < (ParseDuration s.Time).getD 0) →
      c.CreateSchedule maintenances = .ok S →
      ∀ t ∈ S, Time.After t.End t.Start = true) ∧
    (∀ (s : RecurringSchedules) (first last : Int) (terms : List Term),
      (ParseDuration s.Time).getD 0 ≤ 0 → s.CreateTerms first last = .ok terms →
      ∀ t ∈ terms, Time.After t.End t.Start = false) := by
  refine ⟨?_, ?_, ?_⟩
  · intro s first last terms hpos h t ht
    obtain ⟨D, rfl⟩ := createTerms_mem s first last terms h t ht
    simp only [Time.After, decide_eq_true_eq]
    rw [termAt_end]
    omega
  · intro maintenances S hpos h t ht
    have hok := createScheduleLoop_ok c maintenances [] S h
    have heq := createScheduleLoop_eq c maintenances [] hok
    rw [RecurringCommand.CreateSchedule] at h
    rw [heq] at h
    have hS := (Except.ok.inj h).symm
    rw [hS, List.nil_append, List.mem_flatMap] at ht
    obtain ⟨ps, hps, hmem⟩ := ht
    simp only [scheduledTermsOf, List.mem_map] at hmem
    obtain ⟨u, hu, rfl⟩ := hmem
    have := mergedTerms_pos c ps (hpos ps hps) u hu
    simpa only [Time.After, decide_eq_true_eq] using this
  · intro s first last terms hneg h t ht
    obtain ⟨D, rfl⟩ := createTerms_mem s first last terms h t ht
    simp only [Time.After, decide_eq_false_iff_not]
    rw [termAt_end]
    omega

/-- The theorem `terms_end_after_start` at the rule for every day at 23:50 for
twenty minutes over 2020-01-01 and 2020-01-02, at the definitions of the case
`2 Services` of `TestCreateSchedule`, and at the rule whose duration is `0s`. -/
theorem terms_end_after_start_witness :
    (0 < (ParseDuration (ruleOf "everyday").Time).getD 0 ∧
      (ruleOf "everyday").CreateTerms (timeOf 2020 1 1 0 0) (timeOf 2020 1 2 0 0) =
        .ok [{ Start := timeOf 2020 1 1 23 50, End := timeOf 2020 1 2 0 10 },
             { Start := timeOf 2020 1 2 23 50, End := timeOf 2020 1 3 0 10 }]) ∧
    (∀ t ∈ [({ Start := timeOf 2020 1 1 23 50, End := timeOf 2020 1 2 0 10 } : Term),
            { Start := timeOf 2020 1 2 23 50, End := timeOf 2020 1 3 0 10 }],
      Time.After t.End t.Start = true) ∧
    ((∀ ps ∈ twoServices, ∀ s ∈ ps.RecurringSchedules, 0 < (ParseDuration s.Time).getD 0) ∧
      twoDayCommand.CreateSchedule twoServices = .ok twoServicesSchedule ∧
      ∀ t ∈ twoServicesSchedule, Time.After t.End t.Start = true) ∧
    ((ParseDuration zeroRule.Time).getD 0 ≤ 0 ∧
      ∀ t ∈ [({ Start := timeOf 2020 1 1 1 0, End := timeOf 2020 1 1 1 0 } : Term)],
        Time.After t.End t.Start = false) :=
  ⟨by decide,
    (terms_end_after_start twoDayCommand).1 (ruleOf "everyday") (timeOf 2020 1 1 0 0)
      (timeOf 2020 1 2 0 0) _ (by decide) (by decide),
    ⟨by decide, by decide,
      (terms_end_after_start twoDayCommand).2.1 twoServices _ (by decide) (by decide)⟩,
    by decide,
    (terms_end_after_start oneDayCommand).2.2 zeroRule (timeOf 2020 1 1 0 0)
      (timeOf 2020 1 1 0 0) _ (by decide) (by decide)⟩

/-! ## Malformed start offsets and durations -/

/-- For a rule with a valid day specification `CreateTerms` returns the term of
the rule at every maintenance day of the range, in date order. -/
theorem createTerms_termAt (s : RecurringSchedules) (first last : Int)
    (hv : s.validDay = true) (hf : first % nsPerDay = 0) (hl : last % nsPerDay = 0) :
    s.CreateTerms first last =
      .ok (((datesOfRange first last).filter
        (fun D => decide (s.IsMaintenanceDay D = .ok true))).map s.termAt) := by
  obtain ⟨isM, hM⟩ := isMaintenanceDay_total s hv
  have hfilter : (fun D => decide (s.IsMaintenanceDay D = .ok true)) = isM := by
    funext D
    rw [hM D]
    cases isM D <;> simp
  simp only [RecurringSchedules.CreateTerms, addDate_days, one_mul]
  rw [createTermsLoop_eq s (last + nsPerDay) isM hM _ first [] (le_refl _), hfilter,
    datesOfRange_count first last hf hl]
  simp only [List.nil_append, datesOfRange]

/-- C18 counterexample: the start offset `abc` is not a duration, the range
2020-01-01 to 2020-01-01 holds a maintenance day of the rule, and `CreateTerms`
returns the term from 00:00 to 00:20 of that day; with the duration `1x` it
returns the term from 01:00 to 01:00; `CreateSchedule` returns the former term
and the run over 2020-01-01 and 2020-01-02 ends without failure after one `Add`. -/
theorem createTerms_malformed_returns :
    ParseDuration malformedRule.Start = none ∧
    malformedRule.IsMaintenanceDay (timeOf 2020 1 1 0 0) = .ok true ∧
    malformedRule.CreateTerms (timeOf 2020 1 1 0 0) (timeOf 2020 1 1 0 0) =
      .ok [{ Start := timeOf 2020 1 1 0 0, End := timeOf 2020 1 1 0 20 }] ∧
    ParseDuration malformedTimeRule.Time = none ∧
    malformedTimeRule.CreateTerms (timeOf 2020 1 1 0 0) (timeOf 2020 1 1 0 0) =
      .ok [{ Start := timeOf 2020 1 1 1 0, End := timeOf 2020 1 1 1 0 }] ∧
    oneDayCommand.CreateSchedule malformedMaintenance =
      .ok [{ Service := "testService", Title := "t", Body := "b",
             Start := timeOf 2020 1 1 0 0, End := timeOf 2020 1 1 0 20 }] ∧
    (twoDayCommand.Run malformedMaintenance testConfig memoryRepository (timeOf 2019 12 31 0 0)
      { repo := [] }).2 = none ∧
    (twoDayCommand.Run malformedMaintenance testConfig memoryRepository (timeOf 2019 12 31 0 0)
      { repo := [] }).1.calls.length = 1 := by
  decide

/-- C18, amended: `CreateTerms` does not fail for a malformed start offset or
duration.  For every rule with a valid day specification, whatever its `Start`
and `Time`, and dates `first` and `last` at midnight, it returns one term per
maintenance day `D` of the range, from `D + o` to `D + o + d`, where `o` and `d`
are the values of `Start` and `Time` and zero when `time.ParseDuration` rejects
the text: a malformed `Start` gives terms that start at midnight, a malformed
`Time` terms that end when they start. -/
theorem createTerms_malformed_as_zero (s : RecurringSchedules) (first last : Int)
    (hv : s.validDay = true) (hf : first % nsPerDay = 0) (hl : last % nsPerDay = 0) :
    s.CreateTerms first last =
      .ok (((datesOfRange first last).filter
        (fun D => decide (s.IsMaintenanceDay D = .ok true))).map
          (fun D => { Start := D + (ParseDuration s.Start).getD 0,
                      End := D + (ParseDuration s.Start).getD 0 +
                        (ParseDuration s.Time).getD 0 })) ∧
    (ParseDuration s.Start = none →
      s.CreateTerms first last =
        .ok (((datesOfRange first last).filter
          (fun D => decide (s.IsMaintenanceDay D = .ok true))).map
            (fun D => { Start := D, End := D + (ParseDuration s.Time).getD 0 }))) ∧
    (ParseDuration s.Time = none →
      s.CreateTerms first last =
        .ok (((datesOfRange first last).filter
          (fun D => decide (s.IsMaintenanceDay D = .ok true))).map
            (fun D => { Start := D + (ParseDuration s.Start).getD 0,
                        End := D + (ParseDuration s.Start).getD 0 }))) := by
  have hmain := createTerms_termAt s first last hv hf hl
  refine ⟨hmain, ?_, ?_⟩
  · intro hnone
    rw [hmain]
    have hterm : s.termAt = fun D => Term.mk D (D + (ParseDuration s.Time).getD 0) := by
      funext D
      simp only [RecurringSchedules.termAt, hnone, Option.getD_none, Time.Add, add_zero]
    rw [hterm]
  · intro hnone
    rw [hmain]
    have hterm : s.termAt = fun D =>
        Term.mk (D + (ParseDuration s.Start).getD 0) (D + (ParseDuration s.Start).getD 0) := by
      funext D
      simp only [RecurringSchedules.termAt, hnone, Option.getD_none, Time.Add, add_zero]
    rw [hterm]

/-- The theorem `createTerms_malformed_as_zero` at the rule for every day whose
start offset is `abc`, over 2020-01-01 and 2020-01-02: two terms, from midnight
for twenty minutes. -/
theorem createTerms_malformed_as_zero_witness :
    (malformedRule.validDay = true ∧ timeOf 2020 1 1 0 0 % nsPerDay = 0 ∧
      timeOf 2020 1 2 0 0 % nsPerDay = 0 ∧ ParseDuration malformedRule.Start = none) ∧
    malformedRule.CreateTerms (timeOf 2020 1 1 0 0) (timeOf 2020 1 2 0 0) =
      .ok (((datesOfRange (timeOf 2020 1 1 0 0) (timeOf 2020 1 2 0 0)).filter
        (fun D => decide (malformedRule.IsMaintenanceDay D = .ok true))).map
          (fun D => { Start := D, End := D + (ParseDuration malformedRule.Time).getD 0 })) ∧
    malformedRule.CreateTerms (timeOf 2020 1 1 0 0) (timeOf 2020 1 2 0 0) =
      .ok [{ Start := timeOf 2020 1 1 0 0, End := timeOf 2020 1 1 0 20 },
           { Start := timeOf 2020 1 2 0 0, End := timeOf 2020 1 2 0 20 }] :=
  ⟨by decide,
    (createTerms_malformed_as_zero malformedRule (timeOf 2020 1 1 0 0) (timeOf 2020 1 2 0 0)
      (by decide) (by decide) (by decide)).2.1 (by decide),
    by decide⟩

/-! ## Terms of a service that the mapping does not hold -/

theorem hasSameComponent_unknown (s : ScheduledTerm) (i : StatuspageIncident)
    (config : StatuspageConfig) (hu : config.findComponentByServiceName s.Service = none) :
    s.hasSameComponent i config = .error (Failure.unknownService s.Service) := by
  simp only [ScheduledTerm.hasSameComponent, hu]

theorem hasSameComponent_error (s : ScheduledTerm) (i : StatuspageIncident)
    (config : StatuspageConfig) (e : Failure) (h : s.hasSameComponent i config = .error e) :
    e.isUnknownService config = true := by
  unfold ScheduledTerm.hasSameComponent at h
  cases hf : config.findComponentByServiceName s.Service with
  | none =>
    rw [hf] at h
    cases h
    simp [Failure.isUnknownService, hf]
  | some comp => rw [hf] at h; cases h

theorem existsSameIncident_unknown (c : RecurringCommand) (incidents : List StatuspageIncident)
    (config : StatuspageConfig) (s : ScheduledTerm)
    (hu : config.findComponentByServiceName s.Service = none) :
    c.existsSameIncident incidents config s = .error (Failure.unknownService s.Service) := by
  simp only [RecurringCommand.existsSameIncident, hu]

theorem existsSameIncident_error (c : RecurringCommand) (incidents : List StatuspageIncident)
    (config : StatuspageConfig) (s : ScheduledTerm) (e : Failure)
    (h : c.existsSameIncident incidents config s = .error e) :
    e.isUnknownService config = true := by
  unfold RecurringCommand.existsSameIncident at h
  cases hf : config.findComponentByServiceName s.Service with
  | none =>
    rw [hf] at h
    cases h
    simp [Failure.isUnknownService, hf]
  | some comp => rw [hf] at h; cases h

/-- The inner loop of `adjustIncients` fails only for an unmapped service, and
for a term of an unmapped service it does not set `overlaped`. -/
theorem adjustInner_unknown (s : ScheduledTerm) (config : StatuspageConfig)
    (incidents : List StatuspageIncident) :
    (∀ e, adjustInner s config incidents = .error e → e.isUnknownService config = true) ∧
    (config.findComponentByServiceName s.Service = none →
      ∀ r, adjustInner s config incidents = .ok r → r = none) := by
  induction incidents with
  | nil =>
    refine ⟨fun e h => ?_, fun _ r h => ?_⟩
    · cases h
    · cases h
      rfl
  | cons i rest ih =>
    rw [adjustInner]
    cases i.isRecurringSchedule with
    | true => simpa using ih
    | false =>
      simp only [Bool.false_eq_true, if_false]
      cases hc : s.hasSameComponent i config with
      | error e0 =>
        refine ⟨fun e h => ?_, fun _ r h => ?_⟩
        · cases h
          exact hasSameComponent_error s i config e0 hc
        · cases h
      | ok b =>
        cases b with
        | false => exact ih
        | true =>
          refine ⟨fun e h => ?_, fun hu r h => ?_⟩
          · simp only at h
            split at h
            · cases h
            · exact ih.1 e h
          · rw [hasSameComponent_unknown s i config hu] at hc
            cases hc

/-- The outer loop of `adjustIncients` fails only for an unmapped service, and
when it returns, it keeps what it had kept and every term of an unmapped service. -/
theorem adjustLoop_unknown (incidents : List StatuspageIncident) (config : StatuspageConfig)
    (schedules : List ScheduledTerm) :
    ∀ (acc : List ScheduledTerm) (out : List LogLine),
      (∀ e, adjustLoop incidents config schedules acc out = .error e →
        e.isUnknownService config = true) ∧
      (∀ A out2, adjustLoop incidents config schedules acc out = .ok (A, out2) →
        (∀ s ∈ acc, s ∈ A) ∧
        (∀ s ∈ schedules, config.findComponentByServiceName s.Service = none → s ∈ A)) := by
  induction schedules with
  | nil =>
    intro acc out
    refine ⟨fun e h => ?_, fun A out2 h => ?_⟩
    · cases h
    · cases h
      exact ⟨fun s hs => hs, fun s hs => by simp at hs⟩
  | cons s rest ih =>
    intro acc out
    rw [adjustLoop]
    obtain ⟨hin1, hin2⟩ := adjustInner_unknown s config incidents
    cases hi : adjustInner s config incidents with
    | error e0 =>
      refine ⟨fun e h => ?_, fun A out2 h => ?_⟩
      · cases h
        exact hin1 e0 hi
      · cases h
    | ok r =>
      cases r with
      | some line =>
        obtain ⟨ih1, ih2⟩ := ih acc (out ++ [line])
        refine ⟨ih1, fun A out2 h => ?_⟩
        obtain ⟨ha, hb⟩ := ih2 A out2 h
        refine ⟨ha, fun t ht hu => ?_⟩
        rcases List.mem_cons.mp ht with h1 | h1
        · subst h1
          have := hin2 hu _ hi
          cases this
        · exact hb t h1 hu
      | none =>
        obtain ⟨ih1, ih2⟩ := ih (acc ++ [s]) out
        refine ⟨ih1, fun A out2 h => ?_⟩
        obtain ⟨ha, hb⟩ := ih2 A out2 h
        refine ⟨fun t ht => ha t (List.mem_append_left _ ht), fun t ht hu => ?_⟩
        rcases List.mem_cons.mp ht with h1 | h1
        · subst h1
          exact ha t (List.mem_append_right _ (List.mem_singleton_self _))
        · exact hb t h1 hu

/-- The inner loop of `deleteIncidents` over terms with a term of an unmapped
service fails for an unmapped service or sets `exsists`. -/
theorem deleteExists_unknown (c : RecurringCommand) (i : StatuspageIncident)
    (config : StatuspageConfig) (schedules : List ScheduledTerm) :
    (∀ e, deleteExists c i config schedules = .error e → e.isUnknownService config = true) ∧
    ((∃ s ∈ schedules, config.findComponentByServiceName s.Service = none) →
      ∀ b, deleteExists c i config schedules = .ok b → b = true) := by
  induction schedules with
  | nil =>
    refine ⟨fun e h => ?_, fun hu => ?_⟩
    · cases h
    · obtain ⟨s, hs, _⟩ := hu
      simp at hs
  | cons s rest ih =>
    rw [deleteExists]
    cases he : c.existsSameIncident [i] config s with
    | error e0 =>
      refine ⟨fun e h => ?_, fun _ b h => ?_⟩
      · cases h
        exact existsSameIncident_error c [i] config s e0 he
      · cases h
    | ok found =>
      cases found with
      | true =>
        refine ⟨fun e h => ?_, fun _ b h => ?_⟩
        · cases h
        · cases h
          rfl
      | false =>
        refine ⟨ih.1, fun hu => ih.2 ?_⟩
        obtain ⟨t, ht, htu⟩ := hu
        rcases List.mem_cons.mp ht with h1 | h1
        · subst h1
          rw [existsSameIncident_unknown c [i] config t htu] at he
          cases he
        · exact ⟨t, h1, htu⟩

/-- The first loop of `deleteIncidents` over terms with a term of an unmapped
service fails for an unmapped service or selects nothing. -/
theorem toBeDeletedLoop_unknown (c : RecurringCommand) (config : StatuspageConfig)
    (schedules : List ScheduledTerm) (incidents : List StatuspageIncident) :
    ∀ (acc : List StatuspageIncident),
      (∀ e, toBeDeletedLoop c config schedules incidents acc = .error e →
        e.isUnknownService config = true) ∧
      ((∃ s ∈ schedules, config.findComponentByServiceName s.Service = none) →
        ∀ l, toBeDeletedLoop c config schedules incidents acc = .ok l → l = acc) := by
  induction incidents with
  | nil =>
    intro acc
    refine ⟨fun e h => ?_, fun _ l h => ?_⟩
    · cases h
    · cases h
      rfl
  | cons i rest ih =>
    intro acc
    rw [toBeDeletedLoop]
    obtain ⟨hd1, hd2⟩ := deleteExists_unknown c i config schedules
    cases hde : deleteExists c i config schedules with
    | error e0 =>
      refine ⟨fun e h => ?_, fun _ l h => ?_⟩
      · cases h
        exact hd1 e0 hde
      · cases h
    | ok b =>
      refine ⟨fun e h => ?_, fun hu l h => ?_⟩
      · simp only at h
        split at h
        · exact (ih _).1 e h
        · exact (ih _).1 e h
      · have hb := hd2 hu b hde
        subst hb
        simp only [Bool.not_true, Bool.false_and, Bool.false_eq_true, if_false] at h
        exact (ih acc).2 hu l h

/-- The first loop of `registerIncidents` over terms with a term of an unmapped
service fails, and when it fails it fails for an unmapped service. -/
theorem toBeRegisteredLoop_unknown (c : RecurringCommand) (incidents : List StatuspageIncident)
    (config : StatuspageConfig) (now : Int) (schedules : List ScheduledTerm) :
    ∀ (acc : List ScheduledTerm) (out : List LogLine),
      (∀ e, toBeRegisteredLoop c incidents config now schedules acc out = .error e →
        e.isUnknownService config = true) ∧
      ((∃ s ∈ schedules, config.findComponentByServiceName s.Service = none) →
        ∃ e, toBeRegisteredLoop c incidents config now schedules acc out = .error e) := by
  induction schedules with
  | nil =>
    intro acc out
    refine ⟨fun e h => ?_, fun hu => ?_⟩
    · cases h
    · obtain ⟨s, hs, _⟩ := hu
      simp at hs
  | cons s rest ih =>
    intro acc out
    rw [toBeRegisteredLoop]
    cases he : c.existsSameIncident incidents config s with
    | error e0 =>
      refine ⟨fun e h => ?_, fun _ => ⟨e0, rfl⟩⟩
      cases h
      exact existsSameIncident_error c incidents config s e0 he
    | ok found =>
      have hrest : (∃ t ∈ s :: rest, config.findComponentByServiceName t.Service = none) →
          ∃ t ∈ rest, config.findComponentByServiceName t.Service = none := by
        rintro ⟨t, ht, htu⟩
        rcases List.mem_cons.mp ht with h1 | h1
        · subst h1
          rw [existsSameIncident_unknown c incidents config t htu] at he
          cases he
        · exact ⟨t, h1, htu⟩
      simp only
      split
      · exact ⟨(ih _ _).1, fun hu => (ih _ _).2 (hrest hu)⟩
      · exact ⟨(ih _ _).1, fun hu => (ih _ _).2 (hrest hu)⟩

/-- C19: when `CreateSchedule` returns a schedule with a term whose service the
mapping does not hold and `FindAllScheduledIncidents` returns fewer than 200
incidents, the run ends with the failure `unkown service is found` for an
unmapped service and has issued no `Delete` and no `Add`, for every repository. -/
theorem run_unknown_service {σ : Type} (c : RecurringCommand)
    (maintenances : List RecurringMaintenance) (config : StatuspageConfig)
    (repository : StatuspageRepository σ) (now : Int) (st : RunState σ)
    (S : List ScheduledTerm) (incidents : List StatuspageIncident)
    (hS : c.CreateSchedule maintenances = .ok S)
    (hF : (repository.FindAllScheduledIncidents st.repo 1 200).2 = .ok incidents)
    (hlen : incidents.length < 200)
    (hU : ∃ s ∈ S, config.findComponentByServiceName s.Service = none) :
    (∃ service, config.findComponentByServiceName service = none ∧
      (c.Run maintenances config repository now st).2 =
        some (Failure.unknownService service)) ∧
    (c.Run maintenances config repository now st).1.calls = st.calls := by
  have hfail : ∀ e : Failure, e.isUnknownService config = true →
      ∃ service, config.findComponentByServiceName service = none ∧
        some e = some (Failure.unknownService service) := by
    intro e he
    cases e <;> simp only [Failure.isUnknownService, Bool.false_eq_true] at he
    rename_i service
    exact ⟨service, Option.isNone_iff_eq_none.mp he, rfl⟩
  have hlen2 : ¬ incidents.length ≥ 200 := by omega
  simp only [RecurringCommand.Run, hS, hF, hlen2, if_false]
  obtain ⟨ha1, ha2⟩ := adjustLoop_unknown incidents config S [] []
  cases hA : c.adjustIncients incidents S config with
  | error e => exact ⟨hfail e (ha1 e hA), rfl⟩
  | ok p =>
    obtain ⟨A, out⟩ := p
    obtain ⟨s, hs, hsu⟩ := hU
    have hUA : ∃ t ∈ A, config.findComponentByServiceName t.Service = none :=
      ⟨s, (ha2 A out hA).2 s hs hsu, hsu⟩
    obtain ⟨hd1, hd2⟩ := toBeDeletedLoop_unknown c config A incidents []
    obtain ⟨hr1, hr2⟩ := toBeRegisteredLoop_unknown c incidents config now A [] []
    simp only [RecurringCommand.deleteIncidents]
    cases hD : c.toBeDeleted incidents config A with
    | error e => exact ⟨hfail e (hd1 e hD), rfl⟩
    | ok l =>
      have hl := hd2 hUA l hD
      subst hl
      simp only [deleteCalls, RecurringCommand.registerIncidents]
      obtain ⟨e, he⟩ := hr2 hUA
      have he2 : c.toBeRegistered incidents config A now = .error e := he
      rw [he2]
      exact ⟨hfail e (hr1 e he), rfl⟩

/-- The theorem `run_unknown_service` at two maintenances for every day, the
second of a service that `testConfig` does not map, over the store in memory
with one incident: the run fails for `otherService` without a call. -/
theorem run_unknown_service_witness :
    (oneDayCommand.CreateSchedule unmappedMaintenance = .ok unmappedSchedule ∧
      testConfig.findComponentByServiceName "otherService" = none) ∧
    ((∃ service, testConfig.findComponentByServiceName service = none ∧
      (oneDayCommand.Run unmappedMaintenance testConfig memoryRepository (timeOf 2019 12 31 0 0)
        { repo := [abIncident] }).2 = some (Failure.unknownService service)) ∧
    (oneDayCommand.Run unmappedMaintenance testConfig memoryRepository (timeOf 2019 12 31 0 0)
      { repo := [abIncident] }).1.calls = []) ∧
    (oneDayCommand.Run unmappedMaintenance testConfig memoryRepository (timeOf 2019 12 31 0 0)
      { repo := [abIncident] }).2 = some (Failure.unknownService "otherService") :=
  ⟨by decide,
    run_unknown_service oneDayCommand unmappedMaintenance testConfig memoryRepository
      (timeOf 2019 12 31 0 0) { repo := [abIncident] } unmappedSchedule [abIncident]
      (by decide) rfl (by decide)
      ⟨{ Service := "otherService", Title := "other", Body := "other maintenance",
         Start := timeOf 2020 1 1 3 0, End := timeOf 2020 1 1 3 10 }, by decide, by decide⟩,
    by decide⟩

/-! ## The bound on the incidents read -/

/-- C20: when `FindAllScheduledIncidents(1, 200)` returns 200 incidents or more,
the run ends with the failure `too many incidents are registered` and has issued
no `Delete` and no `Add` and printed nothing, so `adjustIncients` was not
reached; when it returns an error the run ends with that failure and no call;
and a run that ends without failure, or that issued a call, read fewer than 200
incidents. -/
theorem run_capacity {σ : Type} (c : RecurringCommand)
    (maintenances : List RecurringMaintenance) (config : StatuspageConfig)
    (repository : StatuspageRepository σ) (now : Int) (st : RunState σ)
    (S : List ScheduledTerm) (hS : c.CreateSchedule maintenances = .ok S) :
    (∀ incidents, (repository.FindAllScheduledIncidents st.repo 1 200).2 = .ok incidents →
      incidents.length ≥ 200 →
      (c.Run maintenances config repository now st).2 =
          some (Failure.tooManyIncidents incidents.length) ∧
        (c.Run maintenances config repository now st).1.calls = st.calls ∧
        (c.Run maintenances config repository now st).1.out = st.out) ∧
    (∀ err, (repository.FindAllScheduledIncidents st.repo 1 200).2 = .error err →
      (c.Run maintenances config repository now st).2 = some (Failure.findAllFailed err) ∧
        (c.Run maintenances config repository now st).1.calls = st.calls ∧
        (c.Run maintenances config repository now st).1.out = st.out) ∧
    (((c.Run maintenances config repository now st).2 = none ∨
        (c.Run maintenances config repository now st).1.calls ≠ st.calls) →
      ∃ incidents, (repository.FindAllScheduledIncidents st.repo 1 200).2 = .ok incidents ∧
        incidents.length < 200) := by
  have hmany : ∀ incidents,
      (repository.FindAllScheduledIncidents st.repo 1 200).2 = .ok incidents →
      incidents.length ≥ 200 →
      (c.Run maintenances config repository now st).2 =
          some (Failure.tooManyIncidents incidents.length) ∧
        (c.Run maintenances config repository now st).1.calls = st.calls ∧
        (c.Run maintenances config repository now st).1.out = st.out := by
    intro incidents hF hlen
    simp [RecurringCommand.Run, hS, hF, hlen]
  have herr : ∀ err, (repository.FindAllScheduledIncidents st.repo 1 200).2 = .error err →
      (c.Run maintenances config repository now st).2 = some (Failure.findAllFailed err) ∧
        (c.Run maintenances config repository now st).1.calls = st.calls ∧
        (c.Run maintenances config repository now st).1.out = st.out := by
    intro err hF
    simp [RecurringCommand.Run, hS, hF]
  refine ⟨hmany, herr, ?_⟩
  intro h
  cases hF : (repository.FindAllScheduledIncidents st.repo 1 200).2 with
  | error err =>
    obtain ⟨h1, h2, _⟩ := herr err hF
    rcases h with h | h
    · rw [h1] at h
      cases h
    · exact absurd h2 h
  | ok incidents =>
    refine ⟨incidents, rfl, ?_⟩
    by_contra hlen
    obtain ⟨h1, h2, _⟩ := hmany incidents hF (by omega)
    rcases h with h | h
    · rw [h1] at h
      cases h
    · exact absurd h2 h

/-- The theorem `run_capacity` at the maintenance `dailyMaintenance` over the
store in memory: with 200 incidents the run fails without a call, and the run
over one incident, which ends without failure, read fewer than 200 incidents. -/
theorem run_capacity_witness :
    (oneDayCommand.CreateSchedule dailyMaintenance = .ok oneDaySchedule ∧
      (memoryRepository.FindAllScheduledIncidents fullStore 1 200).2 = .ok fullStore ∧
      fullStore.length ≥ 200) ∧
    ((oneDayCommand.Run dailyMaintenance testConfig memoryRepository (timeOf 2019 12 31 0 0)
          { repo := fullStore }).2 = some (Failure.tooManyIncidents fullStore.length) ∧
      (oneDayCommand.Run dailyMaintenance testConfig memoryRepository (timeOf 2019 12 31 0 0)
          { repo := fullStore }).1.calls = [] ∧
      (oneDayCommand.Run dailyMaintenance testConfig memoryRepository (timeOf 2019 12 31 0 0)
          { repo := fullStore }).1.out = []) ∧
    ((oneDayCommand.Run dailyMaintenance testConfig memoryRepository (timeOf 2019 12 31 0 0)
        { repo := [abIncident] }).2 = none ∧
      ∃ incidents, (memoryRepository.FindAllScheduledIncidents [abIncident] 1 200).2 =
        .ok incidents ∧ incidents.length < 200) :=
  ⟨⟨by decide, rfl, ge_of_eq (List.length_replicate 200 abIncident)⟩,
    (run_capacity oneDayCommand dailyMaintenance testConfig memoryRepository
      (timeOf 2019 12 31 0 0) { repo := fullStore } oneDaySchedule (by decide)).1
        fullStore rfl (ge_of_eq (List.length_replicate 200 abIncident)),
    by decide,
    (run_capacity oneDayCommand dailyMaintenance testConfig memoryRepository
      (timeOf 2019 12 31 0 0) { repo := [abIncident] } oneDaySchedule (by decide)).2.2
        (Or.inl (by decide))⟩

/-! ## Order of the write calls and failed calls -/

theorem toBeDeletedLoop_sublist (c : RecurringCommand) (config : StatuspageConfig)
    (schedules : List ScheduledTerm) (incidents : List StatuspageIncident) :
    ∀ (acc l : List StatuspageIncident),
      toBeDeletedLoop c config schedules incidents acc = .ok l →
      ∃ l2, l = acc ++ l2 ∧ l2.Sublist incidents := by
  induction incidents with
  | nil =>
    intro acc l h
    cases h
    exact ⟨[], by simp, List.Sublist.refl _⟩
  | cons i rest ih =>
    intro acc l h
    rw [toBeDeletedLoop] at h
    generalize deleteExists c i config schedules = r at h
    rcases r with e | b
    · cases h
    · simp only at h
      split at h
      · obtain ⟨l2, h1, h2⟩ := ih _ _ h
        exact ⟨i :: l2, by simp [h1], h2.cons₂ i⟩
      · obtain ⟨l2, h1, h2⟩ := ih _ _ h
        exact ⟨l2, h1, h2.cons i⟩

theorem toBeRegisteredLoop_sublist (c : RecurringCommand) (incidents : List StatuspageIncident)
    (config : StatuspageConfig) (now : Int) (schedules : List ScheduledTerm) :
    ∀ (acc l : List ScheduledTerm) (out out2 : List LogLine),
      toBeRegisteredLoop c incidents config now schedules acc out = .ok (l, out2) →
      ∃ l2, l = acc ++ l2 ∧ l2.Sublist schedules := by
  induction schedules with
  | nil =>
    intro acc l out out2 h
    cases h
    exact ⟨[], by simp, List.Sublist.refl _⟩
  | cons s rest ih =>
    intro acc l out out2 h
    rw [toBeRegisteredLoop] at h
    generalize c.existsSameIncident incidents config s = r at h
    rcases r with e | b
    · cases h
    · simp only at h
      split at h
      · obtain ⟨l2, h1, h2⟩ := ih _ _ _ _ h
        exact ⟨s :: l2, by simp [h1], h2.cons₂ s⟩
      · obtain ⟨l2, h1, h2⟩ := ih _ _ _ _ h
        exact ⟨l2, h1, h2.cons s⟩

/-- In a list of `Delete` calls followed by `Add` calls no `Delete` comes after an `Add`. -/
theorem no_delete_after_add (ds : List StatuspageIncident)
    (as : List StatuspageCreateIncidentRequest) (pre post : List Call)
    (data : StatuspageCreateIncidentRequest)
    (h : ds.map Call.Delete ++ as.map Call.Add = pre ++ Call.Add data :: post) :
    ∀ i, Call.Delete i ∉ post := by
  intro i hi
  rcases List.append_eq_append_iff.mp h with ⟨a, _, h2⟩ | ⟨b, h1, h2⟩
  · have hmem : Call.Delete i ∈ as.map Call.Add := by
      rw [h2]
      exact List.mem_append_right _ (List.mem_cons_of_mem _ hi)
    simp at hmem
  · cases b with
    | nil =>
      have hmem : Call.Delete i ∈ as.map Call.Add := by
        rw [← List.nil_append (List.map Call.Add as), ← h2]
        exact List.mem_cons_of_mem _ hi
      simp at hmem
    | cons x b2 =>
      have hxe : x = Call.Add data := by
        injection h2 with h3 _
        exact h3.symm
      have hx : Call.Add data ∈ ds.map Call.Delete := by
        rw [h1, hxe]
        exact List.mem_append_right _ (List.mem_cons_self _ _)
      simp at hx

theorem deleteIncidents_shape {σ : Type} (c : RecurringCommand)
    (repository : StatuspageRepository σ) (incidents : List StatuspageIncident)
    (config : StatuspageConfig) (schedules : List ScheduledTerm) (st : RunState σ) :
    ∃ ds : List StatuspageIncident,
      (c.deleteIncidents repository incidents config schedules st).1.calls =
        st.calls ++ ds.map Call.Delete ∧ ds.Sublist incidents := by
  simp only [RecurringCommand.deleteIncidents, RecurringCommand.toBeDeleted]
  cases hsel : toBeDeletedLoop c config schedules incidents [] with
  | error e => exact ⟨[], by simp, List.nil_sublist _⟩
  | ok l =>
    obtain ⟨l2, h1, h2⟩ := toBeDeletedLoop_sublist c config schedules incidents [] l hsel
    obtain ⟨k, _, hc, _, _⟩ := deleteCalls_spec repository l st
    rw [List.nil_append] at h1
    subst h1
    exact ⟨l.take k, hc, (List.take_sublist k l).trans h2⟩

theorem registerIncidents_shape {σ : Type} (c : RecurringCommand)
    (repository : StatuspageRepository σ) (incidents : List StatuspageIncident)
    (config : StatuspageConfig) (schedules : List ScheduledTerm) (now : Int)
    (st : RunState σ) :
    ∃ rs : List ScheduledTerm,
      (c.registerIncidents repository incidents config schedules now st).1.calls =
        st.calls ++ rs.map (fun s => Call.Add (addRequest config now s)) ∧
      rs.Sublist schedules ∧
      ∀ s ∈ rs, (config.findComponentByServiceName s.Service).isSome := by
  simp only [RecurringCommand.registerIncidents, RecurringCommand.toBeRegistered]
  cases hsel : toBeRegisteredLoop c incidents config now schedules [] [] with
  | error e => exact ⟨[], by simp, List.nil_sublist _, by simp⟩
  | ok p =>
    obtain ⟨l, out⟩ := p
    obtain ⟨l2, h1, h2⟩ := toBeRegisteredLoop_sublist c incidents config now schedules [] l [] out hsel
    rw [List.nil_append] at h1
    subst h1
    obtain ⟨k, _, hc, _⟩ := registerCalls_spec repository config now l
      (RunState.mk st.repo st.calls (st.out ++ out))
    refine ⟨l.take k, hc, (List.take_sublist k l).trans h2, fun s hs => ?_⟩
    cases hf : config.findComponentByServiceName s.Service with
    | some comp => rfl
    | none =>
      obtain ⟨e, he⟩ := (toBeRegisteredLoop_unknown c incidents config now schedules [] []).2
        ⟨s, h2.subset (List.mem_of_mem_take hs), hf⟩
      rw [he] at hsel
      cases hsel

/-- C21: in every run the write calls issued are `Delete` calls followed by
`Add` calls, so that no `Delete` comes after an `Add`; the incidents deleted are
a sublist of the incidents read, in their order, and the terms added are a
sublist of the adjusted schedule, in its order. -/
theorem run_deletes_before_adds {σ : Type} (c : RecurringCommand)
    (maintenances : List RecurringMaintenance) (config : StatuspageConfig)
    (repository : StatuspageRepository σ) (now : Int) (st : RunState σ) :
    ∃ (ds : List StatuspageIncident) (rs : List ScheduledTerm),
      (c.Run maintenances config repository now st).1.calls =
        st.calls ++ (ds.map Call.Delete ++
          rs.map (fun s => Call.Add (addRequest config now s))) ∧
      (∀ pre post data, ds.map Call.Delete ++
          rs.map (fun s => Call.Add (addRequest config now s)) = pre ++ Call.Add data :: post →
        ∀ i, Call.Delete i ∉ post) ∧
      (∀ incidents, (repository.FindAllScheduledIncidents st.repo 1 200).2 = .ok incidents →
        ds.Sublist incidents) ∧
      (∀ S incidents A out, c.CreateSchedule maintenances = .ok S →
        (repository.FindAllScheduledIncidents st.repo 1 200).2 = .ok incidents →
        c.adjustIncients incidents S config = .ok (A, out) → rs.Sublist A) := by
  have hord : ∀ (ds : List StatuspageIncident) (rs : List ScheduledTerm) pre post data,
      ds.map Call.Delete ++ rs.map (fun s => Call.Add (addRequest config now s)) =
        pre ++ Call.Add data :: post → ∀ i, Call.Delete i ∉ post := by
    intro ds rs pre post data h
    have h2 : ds.map Call.Delete ++ (rs.map (addRequest config now)).map Call.Add =
        pre ++ Call.Add data :: post := by
      rw [List.map_map]
      exact h
    exact no_delete_after_add ds _ pre post data h2
  have hnone : (c.Run maintenances config repository now st).1.calls = st.calls →
      ∃ (ds : List StatuspageIncident) (rs : List ScheduledTerm),
      (c.Run maintenances config repository now st).1.calls =
        st.calls ++ (ds.map Call.Delete ++
          rs.map (fun s => Call.Add (addRequest config now s))) ∧
      (∀ pre post data, ds.map Call.Delete ++
          rs.map (fun s => Call.Add (addRequest config now s)) = pre ++ Call.Add data :: post →
        ∀ i, Call.Delete i ∉ post) ∧
      (∀ incidents, (repository.FindAllScheduledIncidents st.repo 1 200).2 = .ok incidents →
        ds.Sublist incidents) ∧
      (∀ S incidents A out, c.CreateSchedule maintenances = .ok S →
        (repository.FindAllScheduledIncidents st.repo 1 200).2 = .ok incidents →
        c.adjustIncients incidents S config = .ok (A, out) → rs.Sublist A) := by
    intro h
    exact ⟨[], [], by simpa using h, hord [] [], fun _ _ => List.nil_sublist _,
      fun _ _ _ _ _ _ _ => List.nil_sublist _⟩
  obtain ⟨rS, hS⟩ : ∃ r, c.CreateSchedule maintenances = r := ⟨_, rfl⟩
  obtain ⟨rF, hF⟩ : ∃ r, (repository.FindAllScheduledIncidents st.repo 1 200).2 = r := ⟨_, rfl⟩
  cases rS with
  | error e => exact hnone (by simp only [RecurringCommand.Run, hS])
  | ok S =>
    cases rF with
    | error err => exact hnone (by simp only [RecurringCommand.Run, hS, hF])
    | ok incidents =>
      by_cases hlen : incidents.length ≥ 200
      · exact hnone (by simp only [RecurringCommand.Run, hS, hF, hlen, if_true])
      · obtain ⟨rA, hA⟩ : ∃ r, c.adjustIncients incidents S config = r := ⟨_, rfl⟩
        cases rA with
        | error e => exact hnone (by simp only [RecurringCommand.Run, hS, hF, hlen, if_false, hA])
        | ok p =>
          obtain ⟨A, out⟩ := p
          obtain ⟨ds, hd1, hd2⟩ := deleteIncidents_shape c repository incidents config A
            (RunState.mk (repository.FindAllScheduledIncidents st.repo 1 200).1 st.calls
              (st.out ++ out))
          have hincidents : ∀ incidents2,
              (repository.FindAllScheduledIncidents st.repo 1 200).2 = .ok incidents2 →
              ds.Sublist incidents2 := by
            intro incidents2 h
            rw [hF] at h
            cases h
            exact hd2
          have hrun : c.Run maintenances config repository now st =
              (match c.deleteIncidents repository incidents config A
                (RunState.mk (repository.FindAllScheduledIncidents st.repo 1 200).1 st.calls
                  (st.out ++ out)) with
              | (st, some e) => (st, some e)
              | (st, none) => c.registerIncidents repository incidents config A now st) := by
            simp only [RecurringCommand.Run, hS, hF, hlen, if_false, hA]
          rw [hrun]
          generalize c.deleteIncidents repository incidents config A
            (RunState.mk (repository.FindAllScheduledIncidents st.repo 1 200).1 st.calls
              (st.out ++ out)) = r at hd1
          obtain ⟨st2, f⟩ := r
          cases f with
          | some e =>
            refine ⟨ds, [], ?_, hord ds [], hincidents, fun _ _ _ _ _ _ _ => List.nil_sublist _⟩
            simpa using hd1
          | none =>
            obtain ⟨rs, hr1, hr2, _⟩ := registerIncidents_shape c repository incidents config A now st2
            refine ⟨ds, rs, ?_, hord ds rs, hincidents, ?_⟩
            · simp only at hd1 ⊢
              rw [hr1, hd1, List.append_assoc]
            · intro S2 incidents2 A2 out2 h1 h2 h3
              rw [hS] at h1
              cases h1
              rw [hF] at h2
              cases h2
              rw [hA] at h3
              cases h3
              exact hr2

/-- The theorem `run_deletes_before_adds` at the run of `dailyMaintenance` from
2020-01-01 to 2020-01-05 over the store in memory with the incidents
`diffIncidents`: two `Delete` calls, then five `Add` calls. -/
theorem run_deletes_before_adds_witness :
    (∃ (ds : List StatuspageIncident) (rs : List ScheduledTerm),
      (testCommand.Run dailyMaintenance testConfig memoryRepository (timeOf 2019 12 31 0 0)
          { repo := diffIncidents }).1.calls =
        [] ++ (ds.map Call.Delete ++
          rs.map (fun s => Call.Add (addRequest testConfig (timeOf 2019 12 31 0 0) s))) ∧
      (∀ pre post data, ds.map Call.Delete ++
          rs.map (fun s => Call.Add (addRequest testConfig (timeOf 2019 12 31 0 0) s)) =
            pre ++ Call.Add data :: post →
        ∀ i, Call.Delete i ∉ post) ∧
      (∀ incidents, (memoryRepository.FindAllScheduledIncidents diffIncidents 1 200).2 =
          .ok incidents → ds.Sublist incidents) ∧
      (∀ S incidents A out, testCommand.CreateSchedule dailyMaintenance = .ok S →
        (memoryRepository.FindAllScheduledIncidents diffIncidents 1 200).2 = .ok incidents →
        testCommand.adjustIncients incidents S testConfig = .ok (A, out) → rs.Sublist A)) ∧
    (testCommand.Run dailyMaintenance testConfig memoryRepository (timeOf 2019 12 31 0 0)
        { repo := diffIncidents }).1.calls =
      (diffIncidents.take 2).map Call.Delete ++
        dailyTerms.map (fun s => Call.Add (addRequest testConfig (timeOf 2019 12 31 0 0) s)) :=
  ⟨run_deletes_before_adds testCommand dailyMaintenance testConfig memoryRepository
    (timeOf 2019 12 31 0 0) { repo := diffIncidents }, by decide⟩

theorem issueCalls_nil {σ : Type} (repository : StatuspageRepository σ) (repo : σ) :
    issueCalls repository [] repo = (repo, [], none) := rfl

theorem issueCalls_cons {σ : Type} (repository : StatuspageRepository σ) (call : Call)
    (rest : List Call) (repo : σ) :
    issueCalls repository (call :: rest) repo =
      (match (call.applyTo repository repo).2 with
      | some err => ((call.applyTo repository repo).1, [call], some (call.failure err))
      | none =>
        ((issueCalls repository rest (call.applyTo repository repo).1).1,
          call :: (issueCalls repository rest (call.applyTo repository repo).1).2.1,
          (issueCalls repository rest (call.applyTo repository repo).1).2.2)) := rfl

/-- The calls issued are an initial part of the planned calls, and all of them
when no call fails. -/
theorem issueCalls_take {σ : Type} (repository : StatuspageRepository σ) (calls : List Call) :
    ∀ repo : σ, ∃ k, k ≤ calls.length ∧ (issueCalls repository calls repo).2.1 = calls.take k ∧
      ((issueCalls repository calls repo).2.2 = none → k = calls.length) := by
  induction calls with
  | nil => intro repo; exact ⟨0, by simp [issueCalls_nil]⟩
  | cons call rest ih =>
    intro repo
    rw [issueCalls_cons]
    cases h : (call.applyTo repository repo).2 with
    | some err => exact ⟨1, by simp⟩
    | none =>
      obtain ⟨k, hk, h1, h2⟩ := ih (call.applyTo repository repo).1
      refine ⟨k + 1, by simpa using hk, by simp [h1], fun hn => ?_⟩
      simp only at hn
      simp [h2 hn]

/-- Planned calls after planned calls that all succeed are issued on the state
these leave; after a failed call nothing more is issued. -/
theorem issueCalls_append {σ : Type} (repository : StatuspageRepository σ)
    (a b : List Call) :
    ∀ repo : σ, issueCalls repository (a ++ b) repo =
      (match (issueCalls repository a repo).2.2 with
      | some f => ((issueCalls repository a repo).1, (issueCalls repository a repo).2.1, some f)
      | none =>
        ((issueCalls repository b (issueCalls repository a repo).1).1,
          (issueCalls repository a repo).2.1 ++
            (issueCalls repository b (issueCalls repository a repo).1).2.1,
          (issueCalls repository b (issueCalls repository a repo).1).2.2)) := by
  induction a with
  | nil => intro repo; simp [issueCalls_nil]
  | cons call rest ih =>
    intro repo
    rw [List.cons_append, issueCalls_cons, issueCalls_cons]
    cases h : (call.applyTo repository repo).2 with
    | some err => rfl
    | none =>
      simp only
      rw [ih]
      cases (issueCalls repository rest (call.applyTo repository repo).1).2.2 with
      | some f => rfl
      | none => rfl

/-- The second loop of `deleteIncidents` issues the `Delete` calls of the
selected incidents up to the first that fails. -/
theorem deleteCalls_issue {σ : Type} (repository : StatuspageRepository σ)
    (l : List StatuspageIncident) :
    ∀ st : RunState σ, deleteCalls repository l st =
      (RunState.mk (issueCalls repository (l.map Call.Delete) st.repo).1
        (st.calls ++ (issueCalls repository (l.map Call.Delete) st.repo).2.1) st.out,
        (issueCalls repository (l.map Call.Delete) st.repo).2.2) := by
  induction l with
  | nil => intro st; simp [deleteCalls, issueCalls_nil]
  | cons i rest ih =>
    intro st
    rw [deleteCalls, List.map_cons, issueCalls_cons]
    simp only [Call.applyTo]
    cases h : (repository.Delete st.repo i).2 with
    | some err => rfl
    | none =>
      simp only
      rw [ih]
      simp

/-- The second loop of `registerIncidents` issues the `Add` calls of the
selected terms up to the first that fails, when the mapping has their services. -/
theorem registerCalls_issue {σ : Type} (repository : StatuspageRepository σ)
    (config : StatuspageConfig) (now : Int) (l : List ScheduledTerm) :
    ∀ st : RunState σ, (∀ s ∈ l, (config.findComponentByServiceName s.Service).isSome) →
      registerCalls repository config now l st =
      (RunState.mk
        (issueCalls repository (l.map (fun s => Call.Add (addRequest config now s))) st.repo).1
        (st.calls ++
          (issueCalls repository (l.map (fun s => Call.Add (addRequest config now s))) st.repo).2.1)
        st.out,
        (issueCalls repository (l.map (fun s => Call.Add (addRequest config now s))) st.repo).2.2) := by
  induction l with
  | nil => intro st _; simp [registerCalls, issueCalls_nil]
  | cons s rest ih =>
    intro st hl
    obtain ⟨comp, hcomp⟩ := Option.isSome_iff_exists.mp (hl s (List.mem_cons_self _ _))
    have hreq : CreateMaintenanceStatuspageData s.Title s.Body comp.ComponentIds s.Start s.End
        ScheduleType_Recurring "" now = addRequest config now s := by
      simp only [addRequest, StatuspageConfig.componentIdsOf, hcomp]
    rw [registerCalls, List.map_cons, issueCalls_cons]
    simp only [hcomp, hreq, Call.applyTo]
    cases h : (repository.Add st.repo (addRequest config now s)).2 with
    | some err => rfl
    | none =>
      simp only
      rw [ih _ (fun t ht => hl t (List.mem_cons_of_mem _ ht))]
      simp

/-- The terms that `registerIncidents` selects have a mapped service. -/
theorem toBeRegistered_mapped (c : RecurringCommand) (incidents : List StatuspageIncident)
    (config : StatuspageConfig) (now : Int) (schedules R : List ScheduledTerm)
    (out : List LogLine) (h : c.toBeRegistered incidents config schedules now = .ok (R, out)) :
    ∀ s ∈ R, (config.findComponentByServiceName s.Service).isSome := by
  intro s hs
  obtain ⟨l2, h1, h2⟩ := toBeRegisteredLoop_sublist c incidents config now schedules [] R [] out h
  rw [List.nil_append] at h1
  subst h1
  have hmem := h2.subset hs
  cases hf : config.findComponentByServiceName s.Service with
  | some comp => rfl
  | none =>
    obtain ⟨e, he⟩ := (toBeRegisteredLoop_unknown c incidents config now schedules [] []).2
      ⟨s, hmem, hf⟩
    have h3 : toBeRegisteredLoop c incidents config now schedules [] [] = .ok (R, out) := h
    rw [he] at h3
    cases h3

/-- A run that reaches `deleteIncidents` and selects the incidents `D`: when a
`Delete` fails the run ends there; otherwise, with the terms `R` selected by
`registerIncidents`, the run issues the `Delete` calls and the `Add` calls one
after the other up to the first that fails. -/
theorem run_issue {σ : Type} (c : RecurringCommand)
    (maintenances : List RecurringMaintenance) (config : StatuspageConfig)
    (repository : StatuspageRepository σ) (now : Int) (st : RunState σ)
    (S A : List ScheduledTerm) (incidents D : List StatuspageIncident) (out1 : List LogLine)
    (hS : c.CreateSchedule maintenances = .ok S)
    (hF : (repository.FindAllScheduledIncidents st.repo 1 200).2 = .ok incidents)
    (hlen : incidents.length < 200)
    (hA : c.adjustIncients incidents S config = .ok (A, out1))
    (hD : c.toBeDeleted incidents config A = .ok D) :
    (∀ f, (issueCalls repository (D.map Call.Delete)
        (repository.FindAllScheduledIncidents st.repo 1 200).1).2.2 = some f →
      c.Run maintenances config repository now st =
        (RunState.mk
          (issueCalls repository (D.map Call.Delete)
            (repository.FindAllScheduledIncidents st.repo 1 200).1).1
          (st.calls ++ (issueCalls repository (D.map Call.Delete)
            (repository.FindAllScheduledIncidents st.repo 1 200).1).2.1)
          (st.out ++ out1), some f)) ∧
    (∀ R out2, (issueCalls repository (D.map Call.Delete)
        (repository.FindAllScheduledIncidents st.repo 1 200).1).2.2 = none →
      c.toBeRegistered incidents config A now = .ok (R, out2) →
      c.Run maintenances config repository now st =
        (RunState.mk
          (issueCalls repository
            (D.map Call.Delete ++ R.map (fun s => Call.Add (addRequest config now s)))
            (repository.FindAllScheduledIncidents st.repo 1 200).1).1
          (st.calls ++ (issueCalls repository
            (D.map Call.Delete ++ R.map (fun s => Call.Add (addRequest config now s)))
            (repository.FindAllScheduledIncidents st.repo 1 200).1).2.1)
          (st.out ++ out1 ++ out2),
          (issueCalls repository
            (D.map Call.Delete ++ R.map (fun s => Call.Add (addRequest config now s)))
            (repository.FindAllScheduledIncidents st.repo 1 200).1).2.2)) := by
  have hlen2 : ¬ incidents.length ≥ 200 := by omega
  have hrun : c.Run maintenances config repository now st =
      (match deleteCalls repository D
        (RunState.mk (repository.FindAllScheduledIncidents st.repo 1 200).1 st.calls
          (st.out ++ out1)) with
      | (st, some e) => (st, some e)
      | (st, none) => c.registerIncidents repository incidents config A now st) := by
    simp only [RecurringCommand.Run, hS, hF, hlen2, if_false, hA, RecurringCommand.deleteIncidents,
      hD]
  rw [hrun, deleteCalls_issue]
  refine ⟨fun f hf => ?_, fun R out2 hn hR => ?_⟩
  · simp only [hf]
  · simp only [hn, RecurringCommand.registerIncidents, hR]
    rw [registerCalls_issue repository config now R _
      (toBeRegistered_mapped c incidents config now A R out2 hR), issueCalls_append]
    simp only [hn, List.append_assoc]

/-- C22: a failed write ends the run where it is.  In a run that selects the
incidents `D` for deletion, if the `Delete` calls of the incidents before `i` in
`D` succeed and the `Delete` of `i` returns an error, the run ends with that
failure, its calls are the `Delete` calls up to `i` and nothing else, and the
repository is left in the state that failed call returned, after the earlier
deletions.  If all `Delete` calls succeed, the `Add` calls of the selected terms
before `s` succeed and the `Add` of `s` returns an error, the run ends with that
failure, its calls are all the `Delete` calls and the `Add` calls up to `s`, and
the repository is left in the state that failed call returned. -/
theorem run_failed_write {σ : Type} (c : RecurringCommand)
    (maintenances : List RecurringMaintenance) (config : StatuspageConfig)
    (repository : StatuspageRepository σ) (now : Int) (st : RunState σ)
    (S A : List ScheduledTerm) (incidents D : List StatuspageIncident) (out1 : List LogLine)
    (hS : c.CreateSchedule maintenances = .ok S)
    (hF : (repository.FindAllScheduledIncidents st.repo 1 200).2 = .ok incidents)
    (hlen : incidents.length < 200)
    (hA : c.adjustIncients incidents S config = .ok (A, out1))
    (hD : c.toBeDeleted incidents config A = .ok D) :
    (∀ pre i post err, D = pre ++ i :: post →
      (issueCalls repository (pre.map Call.Delete)
        (repository.FindAllScheduledIncidents st.repo 1 200).1).2.2 = none →
      (repository.Delete (issueCalls repository (pre.map Call.Delete)
        (repository.FindAllScheduledIncidents st.repo 1 200).1).1 i).2 = some err →
      c.Run maintenances config repository now st =
        (RunState.mk
          (repository.Delete (issueCalls repository (pre.map Call.Delete)
            (repository.FindAllScheduledIncidents st.repo 1 200).1).1 i).1
          (st.calls ++ (pre ++ [i]).map Call.Delete)
          (st.out ++ out1), some (Failure.deleteFailed err))) ∧
    (∀ R out2 pre s post err, c.toBeRegistered incidents config A now = .ok (R, out2) →
      R = pre ++ s :: post →
      (issueCalls repository
        (D.map Call.Delete ++ pre.map (fun t => Call.Add (addRequest config now t)))
        (repository.FindAllScheduledIncidents st.repo 1 200).1).2.2 = none →
      (repository.Add (issueCalls repository
        (D.map Call.Delete ++ pre.map (fun t => Call.Add (addRequest config now t)))
        (repository.FindAllScheduledIncidents st.repo 1 200).1).1
          (addRequest config now s)).2 = some err →
      c.Run maintenances config repository now st =
        (RunState.mk
          (repository.Add (issueCalls repository
            (D.map Call.Delete ++ pre.map (fun t => Call.Add (addRequest config now t)))
            (repository.FindAllScheduledIncidents st.repo 1 200).1).1
              (addRequest config now s)).1
          (st.calls ++ (D.map Call.Delete ++
            (pre ++ [s]).map (fun t => Call.Add (addRequest config now t))))
          (st.out ++ out1 ++ out2), some (Failure.addFailed err))) := by
  obtain ⟨hdel, hadd⟩ := run_issue c maintenances config repository now st S A incidents D out1
    hS hF hlen hA hD
  have hall : ∀ (calls : List Call) (repo : σ), (issueCalls repository calls repo).2.2 = none →
      (issueCalls repository calls repo).2.1 = calls := by
    intro calls repo hn
    obtain ⟨k, _, h1, h2⟩ := issueCalls_take repository calls repo
    rw [h1, h2 hn, List.take_length]
  constructor
  · intro pre i post err hsplit hpre herr
    have hissue : issueCalls repository (D.map Call.Delete)
        (repository.FindAllScheduledIncidents st.repo 1 200).1 =
        ((repository.Delete (issueCalls repository (pre.map Call.Delete)
            (repository.FindAllScheduledIncidents st.repo 1 200).1).1 i).1,
          (pre ++ [i]).map Call.Delete, some (Failure.deleteFailed err)) := by
      rw [hsplit, List.map_append, List.map_cons, issueCalls_append, issueCalls_cons]
      simp only [hpre, Call.applyTo, herr, hall _ _ hpre, Call.failure, List.map_append,
        List.map_cons, List.map_nil]
    rw [hdel _ (by rw [hissue]), hissue]
  · intro R out2 pre s post err hR hsplit hpre herr
    have hD0 : (issueCalls repository (D.map Call.Delete)
        (repository.FindAllScheduledIncidents st.repo 1 200).1).2.2 = none := by
      have := hpre
      rw [issueCalls_append] at this
      cases hq : (issueCalls repository (D.map Call.Delete)
          (repository.FindAllScheduledIncidents st.repo 1 200).1).2.2 with
      | none => rfl
      | some f => rw [hq] at this; cases this
    have hissue : issueCalls repository
        (D.map Call.Delete ++ R.map (fun t => Call.Add (addRequest config now t)))
        (repository.FindAllScheduledIncidents st.repo 1 200).1 =
        ((repository.Add (issueCalls repository
            (D.map Call.Delete ++ pre.map (fun t => Call.Add (addRequest config now t)))
            (repository.FindAllScheduledIncidents st.repo 1 200).1).1
              (addRequest config now s)).1,
          D.map Call.Delete ++ (pre ++ [s]).map (fun t => Call.Add (addRequest config now t)),
          some (Failure.addFailed err)) := by
      rw [hsplit, List.map_append, List.map_cons, ← List.append_assoc, issueCalls_append,
        issueCalls_cons]
      simp only [hpre, Call.applyTo, herr, hall _ _ hpre, Call.failure, List.map_append,
        List.map_cons, List.map_nil, List.append_assoc]
    rw [hadd R out2 hD0 hR, hissue]

/-- The theorem `run_failed_write` at runs of `dailyMaintenance` from 2020-01-01
to 2020-01-05 over `failingRepository`.  With the incidents `diffIncidents` the
second `Delete` fails: the run ends after two `Delete` calls, without an `Add`,
and the first incident stays deleted.  With the first incident alone the third
`Add` fails: the run ends after one `Delete` and three `Add` calls, and the two
incidents added stay. -/
theorem run_failed_write_witness :
    (testCommand.CreateSchedule dailyMaintenance = .ok dailyTerms ∧
      testCommand.adjustIncients diffIncidents dailyTerms testConfig = .ok (dailyTerms, []) ∧
      testCommand.toBeDeleted diffIncidents testConfig dailyTerms = .ok [incidentA, incidentB] ∧
      testCommand.adjustIncients [incidentA] dailyTerms testConfig = .ok (dailyTerms, []) ∧
      testCommand.toBeDeleted [incidentA] testConfig dailyTerms = .ok [incidentA] ∧
      testCommand.toBeRegistered [incidentA] testConfig dailyTerms (timeOf 2019 12 31 0 0) =
        .ok (dailyTerms, [])) ∧
    testCommand.Run dailyMaintenance testConfig failingRepository (timeOf 2019 12 31 0 0)
        { repo := diffIncidents } =
      (RunState.mk
        (failingRepository.Delete (issueCalls failingRepository ([incidentA].map Call.Delete)
          (failingRepository.FindAllScheduledIncidents diffIncidents 1 200).1).1 incidentB).1
        ([] ++ ([incidentA] ++ [incidentB]).map Call.Delete)
        ([] ++ []), some (Failure.deleteFailed "delete refused")) ∧
    (testCommand.Run dailyMaintenance testConfig failingRepository (timeOf 2019 12 31 0 0)
        { repo := diffIncidents }).1.repo = diffIncidents.drop 1 ∧
    testCommand.Run dailyMaintenance testConfig failingRepository (timeOf 2019 12 31 0 0)
        { repo := [incidentA] } =
      (RunState.mk
        (failingRepository.Add (issueCalls failingRepository
          ([incidentA].map Call.Delete ++ (dailyTerms.take 2).map
            (fun t => Call.Add (addRequest testConfig (timeOf 2019 12 31 0 0) t)))
          (failingRepository.FindAllScheduledIncidents [incidentA] 1 200).1).1
            (addRequest testConfig (timeOf 2019 12 31 0 0) thirdDailyTerm)).1
        ([] ++ ([incidentA].map Call.Delete ++ (dailyTerms.take 2 ++ [thirdDailyTerm]).map
          (fun t => Call.Add (addRequest testConfig (timeOf 2019 12 31 0 0) t))))
        ([] ++ [] ++ []), some (Failure.addFailed "add refused")) ∧
    (testCommand.Run dailyMaintenance testConfig failingRepository (timeOf 2019 12 31 0 0)
        { repo := [incidentA] }).1.repo =
      (dailyTerms.take 2).map (registeredIncident testConfig (timeOf 2019 12 31 0 0) "") :=
  ⟨by decide,
    (run_failed_write testCommand dailyMaintenance testConfig failingRepository
      (timeOf 2019 12 31 0 0) { repo := diffIncidents } dailyTerms dailyTerms diffIncidents
      [incidentA, incidentB] [] (by decide) rfl (by decide) (by decide) (by decide)).1
        [incidentA] incidentB [] "delete refused" rfl (by decide) (by decide),
    by decide,
    (run_failed_write testCommand dailyMaintenance testConfig failingRepository
      (timeOf 2019 12 31 0 0) { repo := [incidentA] } dailyTerms dailyTerms [incidentA]
      [incidentA] [] (by decide) rfl (by decide) (by decide) (by decide)).2
        dailyTerms [] (dailyTerms.take 2) thirdDailyTerm (dailyTerms.drop 3) "add refused"
        (by decide) (by decide) (by decide) (by decide),
    by decide⟩

/-! ## The request passed to `Add` -/

/-- C23: every `Add` call that `registerIncidents` issues is for a term `s` of
the schedule whose service the mapping holds, and its request has the title of
`s` as name, the body of `s`, the component ids the mapping gives for the
service of `s`, the start and end of `s` as window, and under the namespace of
the tool the schedule type `recurring`.  An incident with the metadata of the
request is a recurring schedule for `isRecurringSchedule`; one with the
component ids of the request has the ids of the service for
`isSameComponentIds`; one with its window has the term of `s` for `isSameTerm`. -/
theorem registerIncidents_payload {σ : Type} (c : RecurringCommand)
    (repository : StatuspageRepository σ) (incidents : List StatuspageIncident)
    (config : StatuspageConfig) (schedules : List ScheduledTerm) (now : Int)
    (st : RunState σ) :
    ∀ call ∈ (c.registerIncidents repository incidents config schedules now st).1.calls,
      call ∈ st.calls ∨
      ∃ s ∈ schedules, ∃ component data,
        config.findComponentByServiceName s.Service = some component ∧
        call = Call.Add data ∧
        data.Incident.Name = s.Title ∧ data.Incident.Body = s.Body ∧
        data.Incident.ComponentIds = component.ComponentIds ∧
        data.Incident.ScheduledFor = s.Start ∧ data.Incident.ScheduledUntil = s.End ∧
        (∃ entries, data.Incident.Metadata.lookup key_toolNamespace = some entries ∧
          entries.lookup key_scheduleType = some (MetaValue.str ScheduleType_Recurring)) ∧
        (∀ i : StatuspageIncident,
          (i.Metadata = data.Incident.Metadata → i.isRecurringSchedule = true) ∧
          (i.Components = data.Incident.ComponentIds.map (fun cid => { Id := cid }) →
            i.isSameComponentIds component.ComponentIds = true) ∧
          (i.ScheduledFor = data.Incident.ScheduledFor →
            i.ScheduledUntil = data.Incident.ScheduledUntil →
            i.isSameTerm s.Start s.End = true)) := by
  intro call hcall
  obtain ⟨rs, h1, h2, h3⟩ := registerIncidents_shape c repository incidents config schedules now st
  rw [h1] at hcall
  rcases List.mem_append.mp hcall with h | h
  · exact Or.inl h
  · right
    obtain ⟨s, hs, rfl⟩ := List.mem_map.mp h
    obtain ⟨component, hcomp⟩ := Option.isSome_iff_exists.mp (h3 s hs)
    have hids : (addRequest config now s).Incident.ComponentIds = component.ComponentIds := by
      simp only [addRequest, CreateMaintenanceStatuspageData, StatuspageConfig.componentIdsOf,
        hcomp]
    refine ⟨s, h2.subset hs, component, addRequest config now s, hcomp, rfl, rfl, rfl, hids,
      rfl, rfl, ⟨_, rfl, rfl⟩, fun i => ⟨fun hm => ?_, fun hc => ?_, fun hf hu => ?_⟩⟩
    · simp only [StatuspageIncident.isRecurringSchedule, hm]
      rfl
    · rw [hids] at hc
      exact isSameComponentIds_of_map i component.ComponentIds hc
    · simp only [StatuspageIncident.isSameTerm, Time.Equal, hf, hu, Bool.and_eq_true,
        decide_eq_true_eq]
      exact ⟨rfl, rfl⟩

/-- The theorem `registerIncidents_payload` at the run of `registerIncidents`
for the first term of `dailyTerms` over the store in memory: the one call is the
`Add` of the request with the name `daily` and the component id of
`testService`, and the incident the store makes of it is a recurring schedule
with the ids and the term of the service. -/
theorem registerIncidents_payload_witness :
    (∀ call ∈ (testCommand.registerIncidents memoryRepository [] testConfig (dailyTerms.take 1)
        (timeOf 2019 12 31 0 0) { repo := [] }).1.calls,
      call ∈ ([] : List Call) ∨
      ∃ s ∈ dailyTerms.take 1, ∃ component data,
        testConfig.findComponentByServiceName s.Service = some component ∧
        call = Call.Add data ∧
        data.Incident.Name = s.Title ∧ data.Incident.Body = s.Body ∧
        data.Incident.ComponentIds = component.ComponentIds ∧
        data.Incident.ScheduledFor = s.Start ∧ data.Incident.ScheduledUntil = s.End ∧
        (∃ entries, data.Incident.Metadata.lookup key_toolNamespace = some entries ∧
          entries.lookup key_scheduleType = some (MetaValue.str ScheduleType_Recurring)) ∧
        (∀ i : StatuspageIncident,
          (i.Metadata = data.Incident.Metadata → i.isRecurringSchedule = true) ∧
          (i.Components = data.Incident.ComponentIds.map (fun cid => { Id := cid }) →
            i.isSameComponentIds component.ComponentIds = true) ∧
          (i.ScheduledFor = data.Incident.ScheduledFor →
            i.ScheduledUntil = data.Incident.ScheduledUntil →
            i.isSameTerm s.Start s.End = true))) ∧
    (testCommand.registerIncidents memoryRepository [] testConfig (dailyTerms.take 1)
        (timeOf 2019 12 31 0 0) { repo := [] }).1.calls =
      [Call.Add { Incident :=
        { Name := "daily", Body := "daily maintenance", Status := "scheduled",
          ImpactOverride := "maintenance", ComponentIds := ["testComponentId"],
          ScheduledFor := timeOf 2020 1 1 2 0, ScheduledUntil := timeOf 2020 1 1 2 10,
          Metadata := [(key_toolNamespace,
            [("createdAt", MetaValue.time (timeOf 2019 12 31 0 0)),
             (key_scheduleType, MetaValue.str "recurring"),
             (key_scheduleKey, MetaValue.str "")])] } }] ∧
    (testCommand.registerIncidents memoryRepository [] testConfig (dailyTerms.take 1)
        (timeOf 2019 12 31 0 0) { repo := [] }).1.repo.all (fun i =>
      i.isRecurringSchedule && i.isSameComponentIds ["testComponentId"] &&
        i.isSameTerm (timeOf 2020 1 1 2 0) (timeOf 2020 1 1 2 10)) = true :=
  ⟨registerIncidents_payload testCommand memoryRepository [] testConfig (dailyTerms.take 1)
    (timeOf 2019 12 31 0 0) { repo := [] }, by decide, by decide⟩

/-! ## The ordinal of a weekday within its month -/

theorem weekday_in_month (t d : Int) :
    Time.Weekday (Date (Time.Year t) (Time.Month t) d 0 0 0 0) =
      (Time.dayNumber t + (d - Time.Day t) + 4) % 7 := by
  rw [date_in_month, Time.Weekday, dayNumber_of_midnight]

set_option maxRecDepth 100000 in
theorem occurrence_table : ∀ n ∈ List.range 32, 1 ≤ n →
    (((List.range n).filter (fun (k : Nat) =>
      decide (((k : Int) + 1 - (n : Int)) % 7 = 0))).length : Int) = ((n : Int) - 1) / 7 + 1 := by
  decide

/-- The count that defines `occurrenceInMonth` in closed form. -/
theorem occurrenceInMonth_eq (t : Int) : occurrenceInMonth t = (Time.Day t - 1) / 7 + 1 := by
  obtain ⟨m1, m2, d1, d2, _⟩ := fields_spec t
  have hd := daysIn_le (isLeap (Time.Year t)) (Time.Month t) m1 m2
  have hpred : (fun (k : Nat) =>
      decide (Time.Weekday (Date (Time.Year t) (Time.Month t) ((k : Int) + 1) 0 0 0 0) =
        Time.Weekday t)) = (fun (k : Nat) =>
      decide (((k : Int) + 1 - ((Time.Day t).toNat : Int)) % 7 = 0)) := by
    funext k
    rw [decide_eq_decide, weekday_in_month, Time.Weekday, Int.toNat_of_nonneg (by omega)]
    omega
  have htab := occurrence_table (Time.Day t).toNat (List.mem_range.mpr (by omega)) (by omega)
  rw [Int.toNat_of_nonneg (by omega)] at htab
  rw [occurrenceInMonth, hpred]
  rw [Int.toNat_of_nonneg (by omega)] at *
  exact htab

/-- The fields and the weekday of an instant of the calendar date `y`, `m`, `d`. -/
theorem fields_of_instant (y m d c : Int) (hm0 : 1 ≤ m) (hm1 : m ≤ 12) (hd0 : 1 ≤ d)
    (hd1 : d ≤ daysIn (isLeap y) m) (hc0 : 0 ≤ c) (hc1 : c < nsPerDay) :
    Time.Year (Date y m d 0 0 0 0 + c) = y ∧ Time.Month (Date y m d 0 0 0 0 + c) = m ∧
      Time.Day (Date y m d 0 0 0 0 + c) = d ∧
      Time.Weekday (Date y m d 0 0 0 0 + c) = Time.Weekday (Date y m d 0 0 0 0) := by
  obtain ⟨f1, f2, f3⟩ := fields_of_date y m d c hm0 hm1 hd0 hd1 hc0 hc1
  refine ⟨f1, f2, f3, ?_⟩
  rw [date_eq y m d 0 0 0 0 hm0 hm1]
  simp only [Time.Weekday, Time.dayNumber, nsPerDay, nsPerHour, nsPerMinute, nsPerSecond] at hc1 ⊢
  omega

/-- C24: for every date `y`, `m`, `d` of the calendar and every instant of that
date, `ordinalOfWeekday` returns the number of days from the first of the month
to `d` whose weekday is the weekday of the date. -/
theorem ordinalOfWeekday_count (s : RecurringSchedules) (y m d c : Int)
    (hm0 : 1 ≤ m) (hm1 : m ≤ 12) (hd0 : 1 ≤ d) (hd1 : d ≤ daysIn (isLeap y) m)
    (hc0 : 0 ≤ c) (hc1 : c < nsPerDay) :
    s.ordinalOfWeekday (Date y m d 0 0 0 0 + c) =
      .ok (((List.range d.toNat).filter (fun (k : Nat) =>
        decide (Time.Weekday (Date y m ((k : Int) + 1) 0 0 0 0) =
          Time.Weekday (Date y m d 0 0 0 0)))).length) := by
  obtain ⟨f1, f2, f3, f4⟩ := fields_of_instant y m d c hm0 hm1 hd0 hd1 hc0 hc1
  rw [ordinalOfWeekday_eq, occurrenceInMonth, f1, f2, f3, f4]

/-- The theorem `ordinalOfWeekday_count` at 2020-12-31, the fifth Thursday of
its month, and the value at 2020-01-01, the first Wednesday of its month. -/
theorem ordinalOfWeekday_count_witness :
    ((1 : Int) ≤ 12 ∧ (12 : Int) ≤ 12 ∧ (1 : Int) ≤ 31 ∧ (31 : Int) ≤ daysIn (isLeap 2020) 12 ∧
      (0 : Int) ≤ 0 ∧ (0 : Int) < nsPerDay) ∧
    (ruleOf "5th thursday").ordinalOfWeekday (Date 2020 12 31 0 0 0 0 + 0) =
      .ok (((List.range (31 : Int).toNat).filter (fun (k : Nat) =>
        decide (Time.Weekday (Date 2020 12 ((k : Int) + 1) 0 0 0 0) =
          Time.Weekday (Date 2020 12 31 0 0 0 0)))).length) ∧
    (ruleOf "5th thursday").ordinalOfWeekday (timeOf 2020 12 31 0 0) = .ok 5 ∧
    (ruleOf "1st wednesday").ordinalOfWeekday (timeOf 2020 1 1 0 0) = .ok 1 :=
  ⟨by decide,
    ordinalOfWeekday_count (ruleOf "5th thursday") 2020 12 31 0 (by decide) (by decide)
      (by decide) (by decide) (by decide) (by decide),
    by decide, by decide⟩

/-- C27: for every instant `t`, `ordinalOfWeekday` returns the day of the month
of `t` minus one, divided by seven, plus one, a value from 1 to 5; it does not
end in its last branch; and for a date `y`, `m`, `d` of the calendar the value
is `(d - 1) / 7 + 1`. -/
theorem ordinalOfWeekday_closed (s : RecurringSchedules) (t : Int) :
    s.ordinalOfWeekday t = .ok ((Time.Day t - 1) / 7 + 1) ∧
    1 ≤ (Time.Day t - 1) / 7 + 1 ∧ (Time.Day t - 1) / 7 + 1 ≤ 5 ∧
    (∀ e, s.ordinalOfWeekday t ≠ .error e) ∧
    (∀ y m d : Int, 1 ≤ m → m ≤ 12 → 1 ≤ d → d ≤ daysIn (isLeap y) m →
      1 ≤ d ∧ d ≤ 31 ∧ s.ordinalOfWeekday (Date y m d 0 0 0 0) = .ok ((d - 1) / 7 + 1)) := by
  obtain ⟨m1, m2, d1, d2, _⟩ := fields_spec t
  have hd := daysIn_le (isLeap (Time.Year t)) (Time.Month t) m1 m2
  have hmain : ∀ u, s.ordinalOfWeekday u = .ok ((Time.Day u - 1) / 7 + 1) := by
    intro u
    rw [ordinalOfWeekday_eq, occurrenceInMonth_eq]
  refine ⟨hmain t, by omega, by omega, ?_, ?_⟩
  · intro e he
    rw [hmain t] at he
    cases he
  · intro y m d hm0 hm1 hd0 hd1
    have hle := daysIn_le (isLeap y) m hm0 hm1
    obtain ⟨_, _, f3⟩ := fields_of_date y m d 0 hm0 hm1 hd0 hd1 (le_refl _) (by decide)
    rw [add_zero] at f3
    refine ⟨hd0, by omega, ?_⟩
    rw [hmain, f3]

/-- The theorem `ordinalOfWeekday_closed` at 2020-02-29: the day 29 gives 5. -/
theorem ordinalOfWeekday_closed_witness :
    ((1 : Int) ≤ 2 ∧ (2 : Int) ≤ 12 ∧ (1 : Int) ≤ 29 ∧ (29 : Int) ≤ daysIn (isLeap 2020) 2) ∧
    ((1 : Int) ≤ 29 ∧ (29 : Int) ≤ 31 ∧
      (ruleOf "5th saturday").ordinalOfWeekday (Date 2020 2 29 0 0 0 0) =
        .ok (((29 : Int) - 1) / 7 + 1)) ∧
    (ruleOf "5th saturday").ordinalOfWeekday (timeOf 2020 2 29 0 0) = .ok 5 ∧
    (ruleOf "5th saturday").ordinalOfWeekday (timeOf 2020 2 14 12 30) = .ok 2 :=
  ⟨by decide,
    (ordinalOfWeekday_closed (ruleOf "5th saturday") 0).2.2.2.2 2020 2 29 (by decide)
      (by decide) (by decide) (by decide),
    by decide, by decide⟩

/-! ## One incoming term against two entries -/

/-- C25: for entries `a` and `b` and an incoming term `m` that overlaps both
(open intervals), `margeTerms [a, b] [m]` is the list of `a` widened by `m`,
from the earlier start to the later end, followed by `b` unchanged: two entries,
the first of which overlaps the second.  This holds whether or not `a` and `b`
are disjoint. -/
theorem margeTerms_first_entry_only (c : RecurringCommand) (a b m : Term)
    (hA : m.Start < a.End ∧ a.Start < m.End) (hB : m.Start < b.End ∧ b.Start < m.End) :
    c.margeTerms [a, b] [m] =
      [{ Start := min a.Start m.Start, End := max a.End m.End }, b] ∧
    (c.margeTerms [a, b] [m]).length = 2 ∧
    (min a.Start m.Start < b.End ∧ b.Start < max a.End m.End) := by
  obtain ⟨as, ae⟩ := a
  obtain ⟨bs, be⟩ := b
  obtain ⟨ms, me⟩ := m
  simp only at hA hB
  have hmain : c.margeTerms [⟨as, ae⟩, ⟨bs, be⟩] [⟨ms, me⟩] =
      [{ Start := min as ms, End := max ae me }, ⟨bs, be⟩] := by
    simp only [RecurringCommand.margeTerms, margeInto, Time.Before, Time.After, hA.1, hA.2,
      decide_True, Bool.and_self, if_true]
    by_cases h1 : ms < as <;> by_cases h2 : ae < me <;>
      simp [h1, h2, min_def, max_def] <;> omega
  refine ⟨hmain, by rw [hmain]; rfl, ?_, ?_⟩
  · simp only
    exact lt_of_le_of_lt (min_le_right _ _) hB.1
  · simp only
    exact lt_of_lt_of_le hB.2 (le_max_right _ _)

/-- The theorem `margeTerms_first_entry_only` at the entries 10:00 to 11:00 and
12:00 to 13:00 and the incoming term 10:30 to 12:30: the result is 10:00 to
12:30 followed by 12:00 to 13:00. -/
theorem margeTerms_first_entry_only_witness :
    ((timeOf 2020 1 1 10 30 < timeOf 2020 1 1 11 0 ∧
        timeOf 2020 1 1 10 0 < timeOf 2020 1 1 12 30) ∧
      (timeOf 2020 1 1 10 30 < timeOf 2020 1 1 13 0 ∧
        timeOf 2020 1 1 12 0 < timeOf 2020 1 1 12 30)) ∧
    (testCommand.margeTerms [⟨timeOf 2020 1 1 10 0, timeOf 2020 1 1 11 0⟩,
        ⟨timeOf 2020 1 1 12 0, timeOf 2020 1 1 13 0⟩]
        [⟨timeOf 2020 1 1 10 30, timeOf 2020 1 1 12 30⟩] =
      [{ Start := min (timeOf 2020 1 1 10 0) (timeOf 2020 1 1 10 30),
         End := max (timeOf 2020 1 1 11 0) (timeOf 2020 1 1 12 30) },
       ⟨timeOf 2020 1 1 12 0, timeOf 2020 1 1 13 0⟩]) ∧
    testCommand.margeTerms [⟨timeOf 2020 1 1 10 0, timeOf 2020 1 1 11 0⟩,
        ⟨timeOf 2020 1 1 12 0, timeOf 2020 1 1 13 0⟩]
        [⟨timeOf 2020 1 1 10 30, timeOf 2020 1 1 12 30⟩] =
      [⟨timeOf 2020 1 1 10 0, timeOf 2020 1 1 12 30⟩,
       ⟨timeOf 2020 1 1 12 0, timeOf 2020 1 1 13 0⟩] :=
  ⟨by decide,
    (margeTerms_first_entry_only testCommand ⟨timeOf 2020 1 1 10 0, timeOf 2020 1 1 11 0⟩
      ⟨timeOf 2020 1 1 12 0, timeOf 2020 1 1 13 0⟩ ⟨timeOf 2020 1 1 10 30, timeOf 2020 1 1 12 30⟩
      (by decide) (by decide)).1,
    by decide⟩

/-! ## Incidents that touch a term -/

/-- C26: `adjustIncients` counts an incident that touches a term as overlapping
it.  For a term `s` that starts before it ends and an incident `i` that is not a
recurring schedule of the tool and has the component ids of the service of `s`:
when `i` ends at the start of `s` or starts at the end of `s`, and its window
does not end before it starts, `isOverlapped` is true; and when such an `i`
overlaps `s` and no incident before it in the list blocks `s`, `i` does not
cover `s`, `adjustIncients` drops `s` and prints the alert that names `i`. -/
theorem adjustIncients_touching (c : RecurringCommand) (pre post : List StatuspageIncident)
    (i : StatuspageIncident) (schedules : List ScheduledTerm) (config : StatuspageConfig)
    (s : ScheduledTerm)
    (hmap : ∀ t ∈ schedules, (config.findComponentByServiceName t.Service).isSome)
    (hs : s ∈ schedules) (hlt : s.Start < s.End)
    (hforeign : i.isRecurringSchedule = false)
    (hcomp : i.isSameComponentIds (config.componentIdsOf s.Service) = true)
    (htouch : i.ScheduledUntil = s.Start ∨ i.ScheduledFor = s.End) :
    (i.ScheduledFor ≤ i.ScheduledUntil → s.isOverlapped i = true) ∧
    (s.isOverlapped i = true → (∀ j ∈ pre, s.blockedBy config j = false) →
      s.isCovered i = false ∧
      ∃ kept out, c.adjustIncients (pre ++ i :: post) schedules config = .ok (kept, out) ∧
        s ∉ kept ∧ LogLine.alert i.Name i.PageId i.Id s.Start s.End ∈ out) := by
  constructor
  · intro hwin
    rw [isOverlapped_eq]
    simp only [Bool.and_eq_true, decide_eq_true_eq]
    rcases htouch with h | h <;> constructor <;> omega
  · intro hov hfirst
    have hcov : s.isCovered i = false := by
      rw [isCovered_eq]
      rcases htouch with h | h
      · have : ¬ i.ScheduledUntil ≥ s.End := by omega
        simp [this]
      · have : ¬ i.ScheduledFor ≤ s.Start := by omega
        simp [this]
    have hblock : s.blockedBy config i = true := by
      rw [isOverlapped_eq] at hov
      simp only [ScheduledTerm.blockedBy, hforeign, hcomp, hov, Bool.not_false, Bool.and_self]
    have hfind : (pre ++ i :: post).find? (s.blockedBy config) = some i := by
      rw [List.find?_append]
      have hpre : pre.find? (s.blockedBy config) = none := by
        rw [List.find?_eq_none]
        intro j hj
        simp [hfirst j hj]
      rw [hpre, List.find?_cons, hblock]
      rfl
    refine ⟨hcov, ?_⟩
    rw [RecurringCommand.adjustIncients, adjustLoop_eq (pre ++ i :: post) config schedules hmap]
    refine ⟨_, _, rfl, ?_, ?_⟩
    · simp only [List.nil_append, List.mem_filter, not_and, Bool.not_eq_true',
        List.any_eq_false, Bool.not_eq_true]
      intro _ hall
      have := hall i (by simp)
      rw [hblock] at this
      cases this
    · simp only [List.nil_append, List.mem_filterMap]
      refine ⟨s, hs, ?_⟩
      rw [hfind]
      simp only [Option.map_some', adjustLine, hcov, Bool.false_eq_true, if_false]

/-- The theorem `adjustIncients_touching` at the incident 01:00 to 01:10 and the
term 01:10 to 01:15 of `TestAdjustIncients`: the result is empty and the alert
is printed. -/
theorem adjustIncients_touching_witness :
    ((∀ t ∈ [touchingTerm], (testConfig.findComponentByServiceName t.Service).isSome) ∧
      touchingTerm.Start < touchingTerm.End ∧ touchingIncident.isRecurringSchedule = false ∧
      touchingIncident.isSameComponentIds (testConfig.componentIdsOf touchingTerm.Service) = true ∧
      touchingIncident.ScheduledUntil = touchingTerm.Start ∧
      touchingIncident.ScheduledFor ≤ touchingIncident.ScheduledUntil) ∧
    touchingTerm.isOverlapped touchingIncident = true ∧
    (touchingTerm.isCovered touchingIncident = false ∧
      ∃ kept out, testCommand.adjustIncients ([] ++ touchingIncident :: []) [touchingTerm]
          testConfig = .ok (kept, out) ∧
        touchingTerm ∉ kept ∧
        LogLine.alert touchingIncident.Name touchingIncident.PageId touchingIncident.Id
          touchingTerm.Start touchingTerm.End ∈ out) ∧
    testCommand.adjustIncients [touchingIncident] [touchingTerm] testConfig =
      .ok ([], [LogLine.alert "" "page1" "1" (timeOf 2020 1 1 1 10) (timeOf 2020 1 1 1 15)]) :=
  ⟨by decide,
    (adjustIncients_touching testCommand [] [] touchingIncident [touchingTerm] testConfig
      touchingTerm (by decide) (by decide) (by decide) (by decide) (by decide)
      (Or.inl (by decide))).1 (by decide),
    (adjustIncients_touching testCommand [] [] touchingIncident [touchingTerm] testConfig
      touchingTerm (by decide) (by decide) (by decide) (by decide) (by decide)
      (Or.inl (by decide))).2 (by decide) (by decide),
    by decide⟩

/-! ## What `margeTerms` keeps -/

theorem forall2_self (R : Term → Term → Prop) (hr : ∀ x, R x x) :
    ∀ l : List Term, List.Forall₂ R l l := by
  intro l
  induction l with
  | nil => exact List.Forall₂.nil
  | cons x l ih => exact List.Forall₂.cons (hr x) ih

theorem forall2_trans (R : Term → Term → Prop) (ht : ∀ x y z, R x y → R y z → R x z) :
    ∀ a b c : List Term, List.Forall₂ R a b → List.Forall₂ R b c → List.Forall₂ R a c := by
  intro a
  induction a with
  | nil =>
    intro b c hab hbc
    cases hab
    cases hbc
    exact List.Forall₂.nil
  | cons x a ih =>
    intro b c hab hbc
    cases hab with
    | cons h1 t1 =>
      cases hbc with
      | cons h2 t2 => exact List.Forall₂.cons (ht _ _ _ h1 h2) (ih _ _ t1 t2)

theorem forall2_mem (R : Term → Term → Prop) :
    ∀ a b : List Term, List.Forall₂ R a b → ∀ y ∈ b, ∃ x ∈ a, R x y := by
  intro a b h
  induction h with
  | nil => intro y hy; simp at hy
  | cons h1 _ ih =>
    intro y hy
    rcases List.mem_cons.mp hy with h2 | h2
    · subst h2
      exact ⟨_, List.mem_cons_self _ _, h1⟩
    · obtain ⟨x, hx, hxy⟩ := ih y h2
      exact ⟨x, List.mem_cons_of_mem _ hx, hxy⟩

theorem forall2_getElem (R : Term → Term → Prop) :
    ∀ a b : List Term, List.Forall₂ R a b →
      ∀ (i : Nat) (e : Term), b[i]? = some e → ∃ r, a[i]? = some r ∧ R r e := by
  intro a b h
  induction h with
  | nil => intro i e he; simp at he
  | cons h1 _ ih =>
    intro i e he
    cases i with
    | zero =>
      simp only [List.getElem?_cons_zero, Option.some.injEq] at he
      subst he
      exact ⟨_, by simp, h1⟩
    | succ j =>
      simp only [List.getElem?_cons_succ] at he ⊢
      exact ih j e he

theorem forall2_snoc (R : Term → Term → Prop) :
    ∀ (b a : List Term) (m : Term), List.Forall₂ R a (b ++ [m]) →
      ∃ f x, a = f ++ [x] ∧ List.Forall₂ R f b ∧ R x m := by
  intro b
  induction b with
  | nil =>
    intro a m h
    cases h with
    | cons h1 t1 =>
      cases t1
      exact ⟨[], _, rfl, List.Forall₂.nil, h1⟩
  | cons y b ih =>
    intro a m h
    cases h with
    | cons h1 t1 =>
      obtain ⟨f, x, hf, hfb, hx⟩ := ih _ m t1
      exact ⟨_ :: f, x, by rw [hf]; rfl, List.Forall₂.cons h1 hfb, hx⟩

/-- When the inner loop of `margeTerms` widens an entry, every entry of the new
list contains the entry at its place, and one of them contains the incoming term. -/
theorem margeInto_covers (m1 : Term) :
    ∀ terms merged : List Term, margeInto m1 terms = some merged →
      List.Forall₂ (fun r e => r.Start ≤ e.Start ∧ e.End ≤ r.End) merged terms ∧
      ∃ r ∈ merged, r.Start ≤ m1.Start ∧ m1.End ≤ r.End := by
  intro terms
  induction terms with
  | nil => intro merged h; simp [margeInto] at h
  | cons m2 rest ih =>
    intro merged h
    rw [margeInto] at h
    split at h
    · cases h
      simp only [Time.Before]
      refine ⟨List.Forall₂.cons ?_ (forall2_self _ (fun x => ⟨le_refl _, le_refl _⟩) rest),
        _, List.mem_cons_self _ _, ?_⟩
      · by_cases ha : m1.Start < m2.Start <;> by_cases hb : m2.End < m1.End <;>
          simp [ha, hb] <;> omega
      · by_cases ha : m1.Start < m2.Start <;> by_cases hb : m2.End < m1.End <;>
          simp [ha, hb] <;> omega
    · cases hm : margeInto m1 rest with
      | none => rw [hm] at h; simp at h
      | some l =>
        rw [hm] at h
        simp only [Option.map_some', Option.some.injEq] at h
        subst h
        obtain ⟨h1, r, hr, hrm⟩ := ih l hm
        exact ⟨List.Forall₂.cons ⟨le_refl _, le_refl _⟩ h1, r, List.mem_cons_of_mem _ hr, hrm⟩

/-- The result of `margeTerms` is a list of entries that contain the existing
entries place by place, followed by at most as many entries as there are
incoming terms; every incoming term is contained in an entry. -/
theorem margeTerms_covers (c : RecurringCommand) (incoming : List Term) :
    ∀ existing : List Term, ∃ front back,
      c.margeTerms existing incoming = front ++ back ∧
      List.Forall₂ (fun r e => r.Start ≤ e.Start ∧ e.End ≤ r.End) front existing ∧
      back.length ≤ incoming.length ∧
      ∀ e ∈ incoming, ∃ r ∈ front ++ back, r.Start ≤ e.Start ∧ e.End ≤ r.End := by
  have htrans : ∀ x y z : Term, (x.Start ≤ y.Start ∧ y.End ≤ x.End) →
      (y.Start ≤ z.Start ∧ z.End ≤ y.End) → (x.Start ≤ z.Start ∧ z.End ≤ x.End) := by
    intro x y z h1 h2
    constructor <;> omega
  induction incoming with
  | nil =>
    intro existing
    exact ⟨existing, [], by rw [margeTerms_nil, List.append_nil],
      forall2_self _ (fun x => ⟨le_refl _, le_refl _⟩) existing, le_refl _, by simp⟩
  | cons m1 rest ih =>
    intro existing
    rw [RecurringCommand.margeTerms]
    cases hm : margeInto m1 existing with
    | some merged =>
      obtain ⟨hf, r, hr, hrm⟩ := margeInto_covers m1 existing merged hm
      obtain ⟨front, back, h1, h2, h3, h4⟩ := ih merged
      refine ⟨front, back, h1, forall2_trans _ htrans _ _ _ h2 hf,
        by simp only [List.length_cons]; omega, ?_⟩
      intro e he
      rcases List.mem_cons.mp he with h5 | h5
      · subst h5
        obtain ⟨x, hx, hxr⟩ := forall2_mem _ _ _ h2 r hr
        exact ⟨x, List.mem_append_left _ hx, htrans _ _ _ hxr hrm⟩
      · exact h4 e h5
    | none =>
      obtain ⟨front, back, h1, h2, h3, h4⟩ := ih (existing ++ [m1])
      obtain ⟨f, x, hf, hfb, hx⟩ := forall2_snoc _ existing front m1 h2
      subst hf
      refine ⟨f, x :: back, by simp only [h1, List.append_assoc, List.singleton_append],
        hfb, by simp only [List.length_cons]; omega, ?_⟩
      intro e he
      rcases List.mem_cons.mp he with h5 | h5
      · subst h5
        exact ⟨x, by simp, hx⟩
      · obtain ⟨r, hr, hre⟩ := h4 e h5
        exact ⟨r, by simpa using hr, hre⟩

/-- C28: `margeTerms` loses no coverage and removes no entry.  Every existing
entry and every incoming term is contained, start and end, in an entry of the
result; the entry of the result at the place of an existing entry contains that
entry; and the result has at least as many entries as the existing list and at
most as many as the existing list and the incoming terms together. -/
theorem margeTerms_coverage (c : RecurringCommand) (existing incoming : List Term) :
    (∀ e ∈ existing ++ incoming, ∃ r ∈ c.margeTerms existing incoming,
      r.Start ≤ e.Start ∧ e.End ≤ r.End) ∧
    (∀ (i : Nat) (e : Term), existing[i]? = some e →
      ∃ r, (c.margeTerms existing incoming)[i]? = some r ∧
        r.Start ≤ e.Start ∧ e.End ≤ r.End) ∧
    existing.length ≤ (c.margeTerms existing incoming).length ∧
    (c.margeTerms existing incoming).length ≤ existing.length + incoming.length := by
  obtain ⟨front, back, h1, h2, h3, h4⟩ := margeTerms_covers c incoming existing
  have hlen : front.length = existing.length := h2.length_eq
  rw [h1]
  refine ⟨?_, ?_, ?_, ?_⟩
  · intro e he
    rcases List.mem_append.mp he with h5 | h5
    · obtain ⟨x, hx, hxe⟩ := forall2_mem _ _ _ h2 e h5
      exact ⟨x, List.mem_append_left _ hx, hxe⟩
    · exact h4 e h5
  · intro i e he
    obtain ⟨r, hr, hre⟩ := forall2_getElem _ _ _ h2 i e he
    have hi : i < front.length := by
      by_contra hn
      rw [List.getElem?_eq_none (by omega)] at hr
      cases hr
    exact ⟨r, by rw [List.getElem?_append_left hi, hr], hre⟩
  · rw [List.length_append]
    omega
  · rw [List.length_append]
    omega

/-- The theorem `margeTerms_coverage` at the entries 10:00 to 11:00 and 12:00 to
13:00 with the incoming terms 10:30 to 12:30 and 14:00 to 15:00: the first entry
is widened, the second stays, and the last incoming term is appended. -/
theorem margeTerms_coverage_witness :
    ((∀ e ∈ [(⟨timeOf 2020 1 1 10 0, timeOf 2020 1 1 11 0⟩ : Term),
          ⟨timeOf 2020 1 1 12 0, timeOf 2020 1 1 13 0⟩] ++
          [⟨timeOf 2020 1 1 10 30, timeOf 2020 1 1 12 30⟩,
            ⟨timeOf 2020 1 1 14 0, timeOf 2020 1 1 15 0⟩],
        ∃ r ∈ testCommand.margeTerms [⟨timeOf 2020 1 1 10 0, timeOf 2020 1 1 11 0⟩,
            ⟨timeOf 2020 1 1 12 0, timeOf 2020 1 1 13 0⟩]
            [⟨timeOf 2020 1 1 10 30, timeOf 2020 1 1 12 30⟩,
              ⟨timeOf 2020 1 1 14 0, timeOf 2020 1 1 15 0⟩],
          r.Start ≤ e.Start ∧ e.End ≤ r.End) ∧
      (∀ (i : Nat) (e : Term),
        [(⟨timeOf 2020 1 1 10 0, timeOf 2020 1 1 11 0⟩ : Term),
          ⟨timeOf 2020 1 1 12 0, timeOf 2020 1 1 13 0⟩][i]? = some e →
        ∃ r, (testCommand.margeTerms [⟨timeOf 2020 1 1 10 0, timeOf 2020 1 1 11 0⟩,
            ⟨timeOf 2020 1 1 12 0, timeOf 2020 1 1 13 0⟩]
            [⟨timeOf 2020 1 1 10 30, timeOf 2020 1 1 12 30⟩,
              ⟨timeOf 2020 1 1 14 0, timeOf 2020 1 1 15 0⟩])[i]? = some r ∧
          r.Start ≤ e.Start ∧ e.End ≤ r.End) ∧
      [(⟨timeOf 2020 1 1 10 0, timeOf 2020 1 1 11 0⟩ : Term),
          ⟨timeOf 2020 1 1 12 0, timeOf 2020 1 1 13 0⟩].length ≤
        (testCommand.margeTerms [⟨timeOf 2020 1 1 10 0, timeOf 2020 1 1 11 0⟩,
            ⟨timeOf 2020 1 1 12 0, timeOf 2020 1 1 13 0⟩]
            [⟨timeOf 2020 1 1 10 30, timeOf 2020 1 1 12 30⟩,
              ⟨timeOf 2020 1 1 14 0, timeOf 2020 1 1 15 0⟩]).length ∧
      (testCommand.margeTerms [⟨timeOf 2020 1 1 10 0, timeOf 2020 1 1 11 0⟩,
            ⟨timeOf 2020 1 1 12 0, timeOf 2020 1 1 13 0⟩]
            [⟨timeOf 2020 1 1 10 30, timeOf 2020 1 1 12 30⟩,
              ⟨timeOf 2020 1 1 14 0, timeOf 2020 1 1 15 0⟩]).length ≤
        [(⟨timeOf 2020 1 1 10 0, timeOf 2020 1 1 11 0⟩ : Term),
          ⟨timeOf 2020 1 1 12 0, timeOf 2020 1 1 13 0⟩].length +
        [(⟨timeOf 2020 1 1 10 30, timeOf 2020 1 1 12 30⟩ : Term),
          ⟨timeOf 2020 1 1 14 0, timeOf 2020 1 1 15 0⟩].length) ∧
    testCommand.margeTerms [⟨timeOf 2020 1 1 10 0, timeOf 2020 1 1 11 0⟩,
        ⟨timeOf 2020 1 1 12 0, timeOf 2020 1 1 13 0⟩]
        [⟨timeOf 2020 1 1 10 30, timeOf 2020 1 1 12 30⟩,
          ⟨timeOf 2020 1 1 14 0, timeOf 2020 1 1 15 0⟩] =
      [⟨timeOf 2020 1 1 10 0, timeOf 2020 1 1 12 30⟩,
       ⟨timeOf 2020 1 1 12 0, timeOf 2020 1 1 13 0⟩,
       ⟨timeOf 2020 1 1 14 0, timeOf 2020 1 1 15 0⟩] :=
  ⟨margeTerms_coverage testCommand _ _, by decide⟩

/-! ## Terms of one rule that overlap each other -/

/-- The dates of a range of `n` days. -/
theorem datesOfRange_days (first : Int) (n : Nat) (hn : 1 ≤ n) :
    datesOfRange first (first + ((n : Int) - 1) * nsPerDay) =
      (List.range n).map (fun (k : Nat) => first + (k : Int) * nsPerDay) := by
  have h : ((first + ((n : Int) - 1) * nsPerDay - first) / nsPerDay + 1).toNat = n := by
    simp only [nsPerDay]
    omega
  rw [datesOfRange, h]

/-- The terms that `CreateTerms` returns for a rule `everyday` over `n` days. -/
theorem createTerms_everyday (s : RecurringSchedules) (first o d : Int) (n : Nat)
    (hE : s.isEveryDay = true) (ho : ParseDuration s.Start = some o)
    (hd : ParseDuration s.Time = some d) (hf : first % nsPerDay = 0) (hn : 1 ≤ n) :
    s.CreateTerms first (first + ((n : Int) - 1) * nsPerDay) =
      .ok ((List.range n).map (fun (k : Nat) =>
        Term.mk (first + (k : Int) * nsPerDay + o) (first + (k : Int) * nsPerDay + o + d))) := by
  have hv : s.validDay = true := by simp [RecurringSchedules.validDay, hE]
  have hl : (first + ((n : Int) - 1) * nsPerDay) % nsPerDay = 0 := by
    simp only [nsPerDay] at hf ⊢
    omega
  have hall : (fun D => decide (s.IsMaintenanceDay D = .ok true)) = fun _ => true := by
    funext D
    simp [isMaintenanceDay_everyday s hE D]
  have hterm : s.termAt = fun D => Term.mk (D + o) (D + o + d) := by
    funext D
    simp only [RecurringSchedules.termAt, ho, hd, Option.getD_some, Time.Add]
  rw [createTerms_termAt s first _ hv hf hl, hall, List.filter_true, datesOfRange_days first n hn,
    hterm, List.map_map]
  rfl

theorem margeInto_none (m1 : Term) :
    ∀ terms : List Term, (∀ e ∈ terms, e.End ≤ m1.Start) → margeInto m1 terms = none := by
  intro terms
  induction terms with
  | nil => intro _; rfl
  | cons m2 rest ih =>
    intro h
    have h2 := h m2 (List.mem_cons_self _ _)
    have hno : ¬ m1.Start < m2.End := by omega
    rw [margeInto]
    simp only [Time.Before, hno, decide_False, Bool.false_and, Bool.false_eq_true, if_false,
      ih (fun e he => h e (List.mem_cons_of_mem _ he)), Option.map_none']

/-- Terms every 24 hours that last longer than 24 hours are merged into the entry. -/
theorem margeTerms_chain (c : RecurringCommand) (base o d : Int) (hd : nsPerDay < d) (j : Nat) :
    ∀ k : Nat, c.margeTerms [Term.mk (base + o) (base + (k : Int) * nsPerDay + o + d)]
      ((List.range j).map (fun (i : Nat) =>
        Term.mk (base + ((k + 1 + i : Nat) : Int) * nsPerDay + o)
          (base + ((k + 1 + i : Nat) : Int) * nsPerDay + o + d))) =
      [Term.mk (base + o) (base + ((k + j : Nat) : Int) * nsPerDay + o + d)] := by
  induction j with
  | zero => intro k; rfl
  | succ j ih =>
    intro k
    have hfun : ((fun (i : Nat) =>
        Term.mk (base + ((k + 1 + i : Nat) : Int) * nsPerDay + o)
          (base + ((k + 1 + i : Nat) : Int) * nsPerDay + o + d)) ∘ Nat.succ) =
        (fun (i : Nat) =>
        Term.mk (base + ((k + 1 + 1 + i : Nat) : Int) * nsPerDay + o)
          (base + ((k + 1 + 1 + i : Nat) : Int) * nsPerDay + o + d)) := by
      funext i
      simp only [Function.comp, Nat.succ_eq_add_one]
      have e : k + 1 + (i + 1) = k + 1 + 1 + i := by omega
      rw [e]
    rw [List.range_succ_eq_map, List.map_cons, List.map_map, hfun, RecurringCommand.margeTerms]
    have h1 : base + ((k + 1 + 0 : Nat) : Int) * nsPerDay + o <
        base + (k : Int) * nsPerDay + o + d := by
      simp only [nsPerDay] at hd ⊢
      push_cast
      omega
    have h2 : base + o < base + ((k + 1 + 0 : Nat) : Int) * nsPerDay + o + d := by
      simp only [nsPerDay] at hd ⊢
      push_cast
      omega
    have h3 : ¬ base + ((k + 1 + 0 : Nat) : Int) * nsPerDay + o < base + o := by
      simp only [nsPerDay]
      push_cast
      omega
    have h4 : base + (k : Int) * nsPerDay + o + d <
        base + ((k + 1 + 0 : Nat) : Int) * nsPerDay + o + d := by
      simp only [nsPerDay]
      push_cast
      omega
    simp only [margeInto, Time.Before, Time.After, h1, h2, h3, h4, decide_True, decide_False,
      Bool.and_self, if_true, Bool.false_eq_true, if_false]
    have e : k + (j + 1) = k + 1 + j := by omega
    rw [e]
    exact ih (k + 1)

/-- Terms every 24 hours that last 24 hours at most stay separate entries. -/
theorem margeTerms_separate (c : RecurringCommand) (base o d : Int) (hd : d ≤ nsPerDay)
    (j : Nat) :
    ∀ (k : Nat) (acc : List Term), (∀ e ∈ acc, e.End ≤ base + (k : Int) * nsPerDay + o) →
      c.margeTerms acc ((List.range j).map (fun (i : Nat) =>
        Term.mk (base + ((k + i : Nat) : Int) * nsPerDay + o)
          (base + ((k + i : Nat) : Int) * nsPerDay + o + d))) =
      acc ++ (List.range j).map (fun (i : Nat) =>
        Term.mk (base + ((k + i : Nat) : Int) * nsPerDay + o)
          (base + ((k + i : Nat) : Int) * nsPerDay + o + d)) := by
  induction j with
  | zero => intro k acc _; simp [margeTerms_nil]
  | succ j ih =>
    intro k acc hacc
    have hfun : ((fun (i : Nat) =>
        Term.mk (base + ((k + i : Nat) : Int) * nsPerDay + o)
          (base + ((k + i : Nat) : Int) * nsPerDay + o + d)) ∘ Nat.succ) =
        (fun (i : Nat) =>
        Term.mk (base + ((k + 1 + i : Nat) : Int) * nsPerDay + o)
          (base + ((k + 1 + i : Nat) : Int) * nsPerDay + o + d)) := by
      funext i
      simp only [Function.comp, Nat.succ_eq_add_one]
      have e : k + (i + 1) = k + 1 + i := by omega
      rw [e]
    rw [List.range_succ_eq_map, List.map_cons, List.map_map, hfun, RecurringCommand.margeTerms]
    have hnone := margeInto_none
      (Term.mk (base + ((k + 0 : Nat) : Int) * nsPerDay + o)
        (base + ((k + 0 : Nat) : Int) * nsPerDay + o + d)) acc
      (by
        intro e he
        have := hacc e he
        simpa using this)
    rw [hnone]
    simp only
    rw [ih (k + 1)]
    · simp
    · intro e he
      rcases List.mem_append.mp he with h | h
      · have := hacc e h
        simp only [nsPerDay] at this ⊢
        push_cast
        omega
      · rw [List.mem_singleton.mp h]
        simp only [nsPerDay] at hd ⊢
        push_cast
        omega

/-- C29: for a definition with the single rule `everyday`, start offset `o` and
duration `d`, over the `n` days from `FromDate` (at midnight): when `d` is longer
than 24 hours `CreateSchedule` returns the one term from `FromDate + o` to
`FromDate` plus `n - 1` days plus `o + d`, because the term of each day overlaps
the entry that the terms of the days before have become; when `d` is 24 hours or
less, so that the terms at most touch, it returns the `n` terms of the days. -/
theorem createSchedule_everyday_merged (c : RecurringCommand) (ps : RecurringMaintenance)
    (s : RecurringSchedules) (o d : Int) (n : Nat)
    (hrules : ps.RecurringSchedules = [s]) (hday : s.Day = "everyday")
    (ho : ParseDuration s.Start = some o) (hd : ParseDuration s.Time = some d)
    (hf : c.FromDate % nsPerDay = 0) (hn : 1 ≤ n)
    (hto : c.ToDate = c.FromDate + ((n : Int) - 1) * nsPerDay) :
    (nsPerDay < d →
      c.CreateSchedule [ps] =
        .ok [{ Service := ps.Service, Title := ps.Title, Body := ps.Body,
               Start := c.FromDate + o,
               End := c.FromDate + ((n : Int) - 1) * nsPerDay + o + d }]) ∧
    (d ≤ nsPerDay →
      c.CreateSchedule [ps] =
        .ok ((List.range n).map (fun (k : Nat) =>
          { Service := ps.Service, Title := ps.Title, Body := ps.Body,
            Start := c.FromDate + (k : Int) * nsPerDay + o,
            End := c.FromDate + (k : Int) * nsPerDay + o + d }))) := by
  have hE : s.isEveryDay = true := by
    simp only [RecurringSchedules.isEveryDay, hday]
    decide
  have hc : s.CreateTerms c.FromDate c.ToDate =
      .ok ((List.range n).map (fun (k : Nat) =>
        Term.mk (c.FromDate + (k : Int) * nsPerDay + o)
          (c.FromDate + (k : Int) * nsPerDay + o + d))) := by
    rw [hto]
    exact createTerms_everyday s c.FromDate o d n hE ho hd hf hn
  have hrun : c.CreateSchedule [ps] =
      .ok (scheduledTermsOf ps (c.margeTerms [] ((List.range n).map (fun (k : Nat) =>
        Term.mk (c.FromDate + (k : Int) * nsPerDay + o)
          (c.FromDate + (k : Int) * nsPerDay + o + d))))) := by
    rw [RecurringCommand.CreateSchedule, createScheduleLoop_eq c [ps] []]
    · simp only [List.nil_append, List.flatMap_cons, List.flatMap_nil, List.append_nil,
        mergedTerms, hrules, List.foldl_cons, List.foldl_nil, createdTerms_ok c s _ hc]
    · intro qs hqs t ht
      rw [List.mem_singleton.mp hqs, hrules] at ht
      rw [List.mem_singleton.mp ht]
      exact ⟨_, hc⟩
  constructor
  · intro hlong
    obtain ⟨j, rfl⟩ : ∃ j, n = j + 1 := ⟨n - 1, by omega⟩
    have hchain := margeTerms_chain c c.FromDate o d hlong j 0
    have hfun : ((fun (k : Nat) =>
        Term.mk (c.FromDate + (k : Int) * nsPerDay + o)
          (c.FromDate + (k : Int) * nsPerDay + o + d)) ∘ Nat.succ) =
        (fun (i : Nat) =>
        Term.mk (c.FromDate + ((0 + 1 + i : Nat) : Int) * nsPerDay + o)
          (c.FromDate + ((0 + 1 + i : Nat) : Int) * nsPerDay + o + d)) := by
      funext i
      simp only [Function.comp, Nat.succ_eq_add_one]
      have e : 0 + 1 + i = i + 1 := by omega
      rw [e]
    rw [hrun, List.range_succ_eq_map, List.map_cons, List.map_map, hfun,
      RecurringCommand.margeTerms]
    simp only [margeInto, List.nil_append]
    have e0 : c.FromDate + ((0 : Nat) : Int) * nsPerDay + o = c.FromDate + o := by simp
    rw [e0] at hchain ⊢
    rw [hchain]
    simp only [scheduledTermsOf, List.map_cons, List.map_nil]
    have e1 : ((0 + j : Nat) : Int) = ((j + 1 : Nat) : Int) - 1 := by
      push_cast
      omega
    rw [e1]
  · intro hshort
    have hsep := margeTerms_separate c c.FromDate o d hshort n 0 [] (by simp)
    simp only [Nat.zero_add, List.nil_append] at hsep
    rw [hrun, hsep]
    simp only [scheduledTermsOf, List.map_map]
    rfl

/-- The theorem `createSchedule_everyday_merged` at the five days from 2020-01-01
with the rule from 22:00 for 25 hours, which gives the one term from January 1
22:00 to January 6 23:00; with the duration of 24 hours the five terms stay. -/
theorem createSchedule_everyday_merged_witness :
    (testCommand.FromDate % nsPerDay = 0 ∧
      testCommand.ToDate = testCommand.FromDate + (((5 : Nat) : Int) - 1) * nsPerDay ∧
      ParseDuration "22h" = some (22 * nsPerHour) ∧ ParseDuration "25h" = some (25 * nsPerHour) ∧
      nsPerDay < 25 * nsPerHour) ∧
    testCommand.CreateSchedule
        [{ Service := "testService", Title := "long", Body := "long maintenance",
           RecurringSchedules := [{ Day := "everyday", Start := "22h", Time := "25h" }] }] =
      .ok [{ Service := "testService", Title := "long", Body := "long maintenance",
             Start := testCommand.FromDate + 22 * nsPerHour,
             End := testCommand.FromDate + (((5 : Nat) : Int) - 1) * nsPerDay +
               22 * nsPerHour + 25 * nsPerHour }] ∧
    testCommand.CreateSchedule longMaintenance =
      .ok [{ Service := "testService", Title := "long", Body := "long maintenance",
             Start := timeOf 2020 1 1 22 0, End := timeOf 2020 1 6 23 0 }] ∧
    (testCommand.CreateSchedule fullDayMaintenance).map List.length = .ok 5 :=
  ⟨by decide,
    (createSchedule_everyday_merged testCommand
      { Service := "testService", Title := "long", Body := "long maintenance",
        RecurringSchedules := [{ Day := "everyday", Start := "22h", Time := "25h" }] }
      { Day := "everyday", Start := "22h", Time := "25h" } (22 * nsPerHour) (25 * nsPerHour) 5
      rfl rfl (by decide) (by decide) (by decide) (by decide) (by decide)).1 (by decide),
    by decide, by decide⟩

/-! ## Rules for the n-th weekday of a month -/

/-- The value of `IsMaintenanceDay` for a rule `<n-th> <w>`. -/
theorem isMaintenanceDay_nth (s : RecurringSchedules) (n w : Int) (n0 : 1 ≤ n) (n1 : n ≤ 5)
    (w0 : 0 ≤ w) (w1 : w ≤ 6) (hday : s.Day = ordinalName n ++ " " ++ weekdayName w) :
    s.validDay = true ∧
    ∀ D, s.IsMaintenanceDay D =
      .ok (decide (Time.Weekday D = w ∧ (Time.Day D - 1) / 7 + 1 = n)) := by
  have ht := ordinal_table n.toNat (List.mem_range.mpr (by omega)) w.toNat
    (List.mem_range.mpr (by omega)) (by omega)
  rw [Int.toNat_of_nonneg w0, Int.toNat_of_nonneg (by omega : (0 : Int) ≤ n), ← hday] at ht
  have hE : s.isEveryDay = false := ht.1
  have hW : s.weekday = .ok (n, weekdayName w, none) := ht.2
  constructor
  · simp only [RecurringSchedules.validDay, hE, hW, Bool.false_or]
  · intro D
    rw [isMaintenanceDay_ordinal s n (weekdayName w) hE hW
      (by simp only [everyOrdinal]; omega) D, occurrenceInMonth_eq]
    congr 1
    rw [← Bool.decide_and, decide_eq_decide, weekdayName_eq_iff w w0 w1 D]
    constructor
    · rintro ⟨h1, h2⟩
      exact ⟨h2, h1.symm⟩
    · rintro ⟨h1, h2⟩
      exact ⟨h2.symm, h1⟩

/-- The day and the weekday of the date `d` of a month, from the weekday of its first day. -/
theorem fields_in_month (y m d : Int) (hm0 : 1 ≤ m) (hm1 : m ≤ 12) (hd0 : 1 ≤ d)
    (hd1 : d ≤ daysIn (isLeap y) m) :
    Time.Day (Date y m d 0 0 0 0) = d ∧
    Time.Weekday (Date y m d 0 0 0 0) =
      (Time.Weekday (Date y m 1 0 0 0 0) + (d - 1)) % 7 ∧
    Date y m d 0 0 0 0 = Date y m 1 0 0 0 0 + (d - 1) * nsPerDay ∧
    Date y m 1 0 0 0 0 % nsPerDay = 0 := by
  obtain ⟨_, _, f3⟩ := fields_of_date y m d 0 hm0 hm1 hd0 hd1 (le_refl _) (by decide)
  rw [add_zero] at f3
  refine ⟨f3, ?_, ?_, ?_⟩
  · rw [date_eq y m d 0 0 0 0 hm0 hm1, date_eq y m 1 0 0 0 0 hm0 hm1]
    generalize daysSinceEpoch y + daysBefore (m - 1) +
      (if isLeap y && decide (m ≥ 3) then 1 else 0) = B
    simp only [Time.Weekday, Time.dayNumber, nsPerDay, nsPerHour, nsPerMinute, nsPerSecond]
    omega
  · rw [date_eq y m d 0 0 0 0 hm0 hm1, date_eq y m 1 0 0 0 0 hm0 hm1]
    ring
  · rw [date_eq y m 1 0 0 0 0 hm0 hm1]
    generalize daysSinceEpoch y + daysBefore (m - 1) +
      (if isLeap y && decide (m ≥ 3) then 1 else 0) = B
    simp only [nsPerDay, nsPerHour, nsPerMinute, nsPerSecond]
    omega

set_option maxRecDepth 100000 in
theorem five_occurrences_table : ∀ L ∈ List.range 32, 28 ≤ L → ∀ a ∈ List.range 7,
    ∀ w ∈ List.range 7,
      (((List.range L).filter (fun (k : Nat) => decide ((a + k) % 7 = w))).length = 5 ↔
        29 + (w + 7 - a) % 7 ≤ L) := by
  decide

theorem filter_length_le_one (p : Int → Bool) :
    ∀ l : List Int, l.Pairwise (fun a b => a < b) →
      (∀ x ∈ l, ∀ y ∈ l, p x = true → p y = true → x = y) → (l.filter p).length ≤ 1 := by
  intro l
  induction l with
  | nil => intro _ _; simp
  | cons x l ih =>
    intro hp hu
    have hp2 := List.pairwise_cons.mp hp
    have ih2 := ih hp2.2 (fun a ha b hb => hu a (List.mem_cons_of_mem _ ha) b
      (List.mem_cons_of_mem _ hb))
    cases hx : p x with
    | false =>
      rw [List.filter_cons_of_neg (by simp [hx])]
      exact ih2
    | true =>
      have hnil : l.filter p = [] := by
        rw [List.filter_eq_nil_iff]
        intro y hy hpy
        have h1 := hu x (List.mem_cons_self _ _) y (List.mem_cons_of_mem _ hy) hx hpy
        have h2 := hp2.1 y hy
        omega
      rw [List.filter_cons_of_pos hx, hnil]
      simp

theorem weekday_from_first (y m d : Int) (hm0 : 1 ≤ m) (hm1 : m ≤ 12) :
    Time.Weekday (Date y m d 0 0 0 0) =
      (Time.Weekday (Date y m 1 0 0 0 0) + (d - 1)) % 7 := by
  rw [date_eq y m d 0 0 0 0 hm0 hm1, date_eq y m 1 0 0 0 0 hm0 hm1]
  generalize daysSinceEpoch y + daysBefore (m - 1) +
    (if isLeap y && decide (m ≥ 3) then 1 else 0) = B
  simp only [Time.Weekday, Time.dayNumber, nsPerDay, nsPerHour, nsPerMinute, nsPerSecond]
  omega

/-- The value of `IsMaintenanceDay` for a rule `<n-th> <w>` on the date `d` of a
month whose first day has the weekday `a`. -/
theorem isMaintenanceDay_in_month (s : RecurringSchedules) (n w y m : Int)
    (n0 : 1 ≤ n) (n1 : n ≤ 5) (w0 : 0 ≤ w) (w1 : w ≤ 6)
    (hday : s.Day = ordinalName n ++ " " ++ weekdayName w) (hm0 : 1 ≤ m) (hm1 : m ≤ 12)
    (d : Int) (hd0 : 1 ≤ d) (hd1 : d ≤ daysIn (isLeap y) m) :
    s.IsMaintenanceDay (Date y m d 0 0 0 0) =
      .ok (decide ((Time.Weekday (Date y m 1 0 0 0 0) + (d - 1)) % 7 = w ∧
        (d - 1) / 7 + 1 = n)) := by
  obtain ⟨f1, f2, _, _⟩ := fields_in_month y m d hm0 hm1 hd0 hd1
  rw [(isMaintenanceDay_nth s n w n0 n1 w0 w1 hday).2, f1, f2]

/-- C30: for a rule `<n-th> <w>` with `n` from 1 to 5 and a calendar month `y`,
`m`: at most one date of the month is a maintenance day; for `n` from 1 to 4
there is one; for `n = 5` there is one exactly when the month has five days with
the weekday `w`; and `CreateTerms` over dates of that month returns at most one
term. -/
theorem nth_weekday_once (s : RecurringSchedules) (n w y m : Int)
    (n0 : 1 ≤ n) (n1 : n ≤ 5) (w0 : 0 ≤ w) (w1 : w ≤ 6)
    (hday : s.Day = ordinalName n ++ " " ++ weekdayName w) (hm0 : 1 ≤ m) (hm1 : m ≤ 12) :
    (∀ d d2 : Int, 1 ≤ d → d ≤ daysIn (isLeap y) m → 1 ≤ d2 → d2 ≤ daysIn (isLeap y) m →
      s.IsMaintenanceDay (Date y m d 0 0 0 0) = .ok true →
      s.IsMaintenanceDay (Date y m d2 0 0 0 0) = .ok true → d = d2) ∧
    (n ≤ 4 → ∃ d, 1 ≤ d ∧ d ≤ daysIn (isLeap y) m ∧
      s.IsMaintenanceDay (Date y m d 0 0 0 0) = .ok true) ∧
    (n = 5 →
      ((∃ d, 1 ≤ d ∧ d ≤ daysIn (isLeap y) m ∧
          s.IsMaintenanceDay (Date y m d 0 0 0 0) = .ok true) ↔
        ((List.range (daysIn (isLeap y) m).toNat).filter (fun (k : Nat) =>
          decide (Time.Weekday (Date y m ((k : Int) + 1) 0 0 0 0) = w))).length = 5)) ∧
    (∀ a b : Int, 1 ≤ a → a ≤ daysIn (isLeap y) m → 1 ≤ b → b ≤ daysIn (isLeap y) m →
      ∃ terms, s.CreateTerms (Date y m a 0 0 0 0) (Date y m b 0 0 0 0) = .ok terms ∧
        terms.length ≤ 1) := by
  obtain ⟨hL0, hL1⟩ := daysIn_le (isLeap y) m hm0 hm1
  obtain ⟨hW0, hW1⟩ := weekday_range (Date y m 1 0 0 0 0)
  have hval := isMaintenanceDay_in_month s n w y m n0 n1 w0 w1 hday hm0 hm1
  generalize hLdef : daysIn (isLeap y) m = L at hL0 hL1 hval ⊢
  generalize hWdef : Time.Weekday (Date y m 1 0 0 0 0) = W at hW0 hW1 hval
  have htrue : ∀ d, 1 ≤ d → d ≤ L →
      (s.IsMaintenanceDay (Date y m d 0 0 0 0) = .ok true ↔
        ((W + (d - 1)) % 7 = w ∧ (d - 1) / 7 + 1 = n)) := by
    intro d hd0 hd1
    rw [hval d hd0 hd1]
    simp
  have huniq : ∀ d d2 : Int, 1 ≤ d → d ≤ L → 1 ≤ d2 → d2 ≤ L →
      s.IsMaintenanceDay (Date y m d 0 0 0 0) = .ok true →
      s.IsMaintenanceDay (Date y m d2 0 0 0 0) = .ok true → d = d2 := by
    intro d d2 hd0 hd1 he0 he1 h1 h2
    rw [htrue d hd0 hd1] at h1
    rw [htrue d2 he0 he1] at h2
    omega
  refine ⟨huniq, ?_, ?_, ?_⟩
  · intro hn4
    refine ⟨7 * (n - 1) + (w - W) % 7 + 1, by omega, by omega, ?_⟩
    rw [htrue _ (by omega) (by omega)]
    omega
  · intro hn5
    have hpred : (fun (k : Nat) =>
        decide (Time.Weekday (Date y m ((k : Int) + 1) 0 0 0 0) = w)) =
        (fun (k : Nat) => decide ((W.toNat + k) % 7 = w.toNat)) := by
      funext k
      rw [decide_eq_decide, weekday_from_first y m _ hm0 hm1, hWdef]
      omega
    have htab := five_occurrences_table L.toNat (List.mem_range.mpr (by omega)) (by omega)
      W.toNat (List.mem_range.mpr (by omega)) w.toNat (List.mem_range.mpr (by omega))
    rw [hpred, htab]
    constructor
    · rintro ⟨d, hd0, hd1, hd⟩
      rw [htrue d hd0 hd1] at hd
      omega
    · intro h
      refine ⟨29 + (w - W) % 7, by omega, by omega, ?_⟩
      rw [htrue _ (by omega) (by omega)]
      omega
  · intro a b ha0 ha1 hb0 hb1
    obtain ⟨_, _, fa, f0⟩ := fields_in_month y m a hm0 hm1 ha0 (by rw [hLdef]; exact ha1)
    obtain ⟨_, _, fb, _⟩ := fields_in_month y m b hm0 hm1 hb0 (by rw [hLdef]; exact hb1)
    have hv := (isMaintenanceDay_nth s n w n0 n1 w0 w1 hday).1
    have hfa : Date y m a 0 0 0 0 % nsPerDay = 0 := by
      rw [fa]
      simp only [nsPerDay] at f0 ⊢
      omega
    have hfb : Date y m b 0 0 0 0 % nsPerDay = 0 := by
      rw [fb]
      simp only [nsPerDay] at f0 ⊢
      omega
    refine ⟨_, createTerms_termAt s _ _ hv hfa hfb, ?_⟩
    rw [List.length_map]
    apply filter_length_le_one _ _ (datesOfRange_increasing _ _)
    intro x hx z hz hpx hpz
    rw [mem_datesOfRange _ _ hfa hfb] at hx hz
    simp only [decide_eq_true_eq] at hpx hpz
    have hxd : x = Date y m ((x - Date y m 1 0 0 0 0) / nsPerDay + 1) 0 0 0 0 := by
      obtain ⟨_, _, fx, _⟩ := fields_in_month y m 1 hm0 hm1 (le_refl _) (by rw [hLdef]; omega)
      rw [date_eq y m _ 0 0 0 0 hm0 hm1]
      rw [date_eq y m 1 0 0 0 0 hm0 hm1] at f0 ⊢
      generalize daysSinceEpoch y + daysBefore (m - 1) +
        (if isLeap y && decide (m ≥ 3) then 1 else 0) = B at f0 ⊢
      obtain ⟨hx1, _, _⟩ := hx
      simp only [nsPerDay, nsPerHour, nsPerMinute, nsPerSecond] at hx1 f0 ⊢
      omega
    have hzd : z = Date y m ((z - Date y m 1 0 0 0 0) / nsPerDay + 1) 0 0 0 0 := by
      rw [date_eq y m _ 0 0 0 0 hm0 hm1]
      rw [date_eq y m 1 0 0 0 0 hm0 hm1] at f0 ⊢
      generalize daysSinceEpoch y + daysBefore (m - 1) +
        (if isLeap y && decide (m ≥ 3) then 1 else 0) = B at f0 ⊢
      obtain ⟨hz1, _, _⟩ := hz
      simp only [nsPerDay, nsPerHour, nsPerMinute, nsPerSecond] at hz1 f0 ⊢
      omega
    have hxb : 1 ≤ (x - Date y m 1 0 0 0 0) / nsPerDay + 1 ∧
        (x - Date y m 1 0 0 0 0) / nsPerDay + 1 ≤ L := by
      obtain ⟨hx1, hx2, hx3⟩ := hx
      rw [fa] at hx2
      rw [fb] at hx3
      simp only [nsPerDay] at hx1 hx2 hx3 f0 ⊢
      omega
    have hzb : 1 ≤ (z - Date y m 1 0 0 0 0) / nsPerDay + 1 ∧
        (z - Date y m 1 0 0 0 0) / nsPerDay + 1 ≤ L := by
      obtain ⟨hz1, hz2, hz3⟩ := hz
      rw [fa] at hz2
      rw [fb] at hz3
      simp only [nsPerDay] at hz1 hz2 hz3 f0 ⊢
      omega
    rw [hxd] at hpx
    rw [hzd] at hpz
    have := huniq _ _ hxb.1 hxb.2 hzb.1 hzb.2 hpx hpz
    rw [hxd, hzd, this]

/-- The theorem `nth_weekday_once` at the rule `5th thursday` and December 2020,
whose fifth Thursday is the 31st: `CreateTerms` over the month returns the one
term of that day; over November 2020, which has four Thursdays, it returns none. -/
theorem nth_weekday_once_witness :
    ((1 : Int) ≤ 5 ∧ (5 : Int) ≤ 5 ∧ (0 : Int) ≤ 4 ∧ (4 : Int) ≤ 6 ∧
      (ruleOf "5th thursday").Day = ordinalName 5 ++ " " ++ weekdayName 4 ∧
      (1 : Int) ≤ 12 ∧ (12 : Int) ≤ 12 ∧ (31 : Int) ≤ daysIn (isLeap 2020) 12) ∧
    (∃ terms, (ruleOf "5th thursday").CreateTerms (Date 2020 12 1 0 0 0 0)
        (Date 2020 12 31 0 0 0 0) = .ok terms ∧ terms.length ≤ 1) ∧
    (ruleOf "5th thursday").CreateTerms (timeOf 2020 12 1 0 0) (timeOf 2020 12 31 0 0) =
      .ok [{ Start := timeOf 2020 12 31 23 50, End := timeOf 2021 1 1 0 10 }] ∧
    (ruleOf "5th thursday").IsMaintenanceDay (timeOf 2020 12 31 0 0) = .ok true ∧
    (ruleOf "5th thursday").CreateTerms (timeOf 2020 11 1 0 0) (timeOf 2020 11 30 0 0) =
      .ok [] :=
  ⟨by decide,
    (nth_weekday_once (ruleOf "5th thursday") 5 4 2020 12 (by decide) (by decide) (by decide)
      (by decide) (by decide) (by decide) (by decide)).2.2.2 1 31 (by decide) (by decide)
      (by decide) (by decide),
    by decide, by decide, by decide⟩

/-! ## Deletions are computed from the adjusted schedule -/

/-- Terms with the same request are blocked by the same incidents. -/
theorem blockedBy_of_addRequest (config : StatuspageConfig) (now : Int) (s t : ScheduledTerm)
    (h : addRequest config now t = addRequest config now s) :
    t.blockedBy config = s.blockedBy config := by
  simp only [addRequest, CreateMaintenanceStatuspageData,
    StatuspageCreateIncidentRequest.mk.injEq, StatuspageIncidentRequest.mk.injEq] at h
  funext i
  simp only [ScheduledTerm.blockedBy]
  obtain ⟨_, _, _, h1, h2, _, _, h3⟩ := h
  rw [h1, h2, h3]

/-- C31: `Run` passes the adjusted schedule to `deleteIncidents`.  In a run
whose services are all mapped, let `r` be a recurring schedule of the tool among
the incidents read, with `FromDate < r.ScheduledFor < ToDate`, that has the
component ids, start and end of a desired term `s` which `adjustIncients` drops
because an incident blocks it, and that matches no surviving term.  Then `s` is
not in the adjusted schedule, `r` is selected for deletion from the adjusted
schedule although the desired schedule would keep it, a run that ends without
failure has issued `Delete` for `r`, and no run issues the `Add` of `s`. -/
theorem run_deletes_from_adjusted {σ : Type} (c : RecurringCommand)
    (maintenances : List RecurringMaintenance) (config : StatuspageConfig)
    (repository : StatuspageRepository σ) (now : Int) (st : RunState σ)
    (S : List ScheduledTerm) (incidents : List StatuspageIncident)
    (r : StatuspageIncident) (s : ScheduledTerm)
    (hS : c.CreateSchedule maintenances = .ok S)
    (hF : (repository.FindAllScheduledIncidents st.repo 1 200).2 = .ok incidents)
    (hlen : incidents.length < 200)
    (hmap : ∀ t ∈ S, (config.findComponentByServiceName t.Service).isSome)
    (hr : r ∈ incidents) (hrec : r.isRecurringSchedule = true)
    (hfrom : c.FromDate < r.ScheduledFor) (hto : r.ScheduledFor < c.ToDate)
    (hs : s ∈ S) (hmatch : r.sameAs config s = true)
    (hdrop : incidents.any (s.blockedBy config) = true)
    (hnone : ∀ t ∈ adjustedTerms config incidents S, r.sameAs config t = false) :
    (∃ out D, c.adjustIncients incidents S config = .ok (adjustedTerms config incidents S, out) ∧
      s ∉ adjustedTerms config incidents S ∧
      c.toBeDeleted incidents config (adjustedTerms config incidents S) = .ok D ∧ r ∈ D) ∧
    (∃ D2, c.toBeDeleted incidents config S = .ok D2 ∧ r ∉ D2) ∧
    ((c.Run maintenances config repository now st).2 = none →
      Call.Delete r ∈ (c.Run maintenances config repository now st).1.calls) ∧
    (Call.Add (addRequest config now s) ∉ st.calls →
      Call.Add (addRequest config now s) ∉
        (c.Run maintenances config repository now st).1.calls) := by
  have hA := adjustLoop_eq incidents config S hmap [] []
  simp only [List.nil_append] at hA
  have hAdef : S.filter (fun t => !incidents.any (t.blockedBy config)) =
      adjustedTerms config incidents S := rfl
  rw [hAdef] at hA
  have hA2 : c.adjustIncients incidents S config = .ok (adjustedTerms config incidents S,
      S.filterMap (fun t => (incidents.find? (t.blockedBy config)).map (adjustLine t))) := hA
  have hsA : s ∉ adjustedTerms config incidents S := by
    simp only [adjustedTerms, List.mem_filter, not_and, Bool.not_eq_true']
    intro _
    simp [hdrop]
  have hmapA : ∀ t ∈ adjustedTerms config incidents S,
      (config.findComponentByServiceName t.Service).isSome :=
    fun t ht => hmap t (List.mem_of_mem_filter ht)
  have hD := toBeDeletedLoop_eq c config (adjustedTerms config incidents S) hmapA incidents []
  simp only [List.nil_append] at hD
  have hD2 : c.toBeDeleted incidents config (adjustedTerms config incidents S) =
      .ok (incidents.filter (c.deletable config (adjustedTerms config incidents S))) := hD
  have hrD : r ∈ incidents.filter (c.deletable config (adjustedTerms config incidents S)) := by
    rw [List.mem_filter]
    refine ⟨hr, ?_⟩
    have hany : (adjustedTerms config incidents S).any (fun t => r.sameAs config t) = false := by
      rw [List.any_eq_false]
      intro t ht
      simp [hnone t ht]
    simp only [RecurringCommand.deletable, hrec, hany, Bool.not_false, Bool.and_true,
      Bool.true_and, Bool.and_eq_true, decide_eq_true_eq]
    exact ⟨hfrom, hto⟩
  have hraw := toBeDeletedLoop_eq c config S hmap incidents []
  simp only [List.nil_append] at hraw
  have hraw2 : c.toBeDeleted incidents config S =
      .ok (incidents.filter (c.deletable config S)) := hraw
  have hrraw : r ∉ incidents.filter (c.deletable config S) := by
    rw [List.mem_filter]
    rintro ⟨_, hdel⟩
    have hany : S.any (fun t => r.sameAs config t) = true :=
      List.any_eq_true.mpr ⟨s, hs, hmatch⟩
    simp [RecurringCommand.deletable, hany] at hdel
  have hR := toBeRegisteredLoop_eq c incidents config now (adjustedTerms config incidents S)
    hmapA [] []
  simp only [List.nil_append] at hR
  have hR2 : c.toBeRegistered incidents config (adjustedTerms config incidents S) now =
      .ok ((adjustedTerms config incidents S).filter (c.addable incidents config now),
        ((adjustedTerms config incidents S).filter
          (fun t => !c.addable incidents config now t)).map
            (fun t => LogLine.skipRegister t.Service t.Start t.End)) := hR
  obtain ⟨hdel, hadd⟩ := run_issue c maintenances config repository now st S
    (adjustedTerms config incidents S) incidents _ _ hS hF hlen hA2 hD2
  have hnoadd : ∀ t ∈ adjustedTerms config incidents S,
      addRequest config now t ≠ addRequest config now s := by
    intro t ht heq
    have hb := blockedBy_of_addRequest config now s t heq
    simp only [adjustedTerms, List.mem_filter, Bool.not_eq_true'] at ht
    rw [hb, hdrop] at ht
    exact absurd ht.2 (by decide)
  refine ⟨⟨_, _, hA2, hsA, hD2, hrD⟩, ⟨_, hraw2, hrraw⟩, ?_, ?_⟩
  · intro hok
    obtain ⟨rq, hq⟩ : ∃ q, (issueCalls repository
        ((incidents.filter (c.deletable config (adjustedTerms config incidents S))).map
          Call.Delete)
        (repository.FindAllScheduledIncidents st.repo 1 200).1).2.2 = q := ⟨_, rfl⟩
    cases rq with
    | some f =>
      rw [hdel f hq] at hok
      cases hok
    | none =>
      have hrun := hadd _ _ hq hR2
      rw [hrun] at hok ⊢
      simp only at hok ⊢
      obtain ⟨k, _, h1, h2⟩ := issueCalls_take repository
        ((incidents.filter (c.deletable config (adjustedTerms config incidents S))).map
            Call.Delete ++
          ((adjustedTerms config incidents S).filter (c.addable incidents config now)).map
            (fun t => Call.Add (addRequest config now t)))
        (repository.FindAllScheduledIncidents st.repo 1 200).1
      rw [h1, h2 hok, List.take_length]
      exact List.mem_append_right _ (List.mem_append_left _ (List.mem_map_of_mem _ hrD))
  · intro hst hmem
    obtain ⟨rq, hq⟩ : ∃ q, (issueCalls repository
        ((incidents.filter (c.deletable config (adjustedTerms config incidents S))).map
          Call.Delete)
        (repository.FindAllScheduledIncidents st.repo 1 200).1).2.2 = q := ⟨_, rfl⟩
    cases rq with
    | some f =>
      rw [hdel f hq] at hmem
      simp only at hmem
      obtain ⟨k, _, h1, _⟩ := issueCalls_take repository
        ((incidents.filter (c.deletable config (adjustedTerms config incidents S))).map
            Call.Delete)
        (repository.FindAllScheduledIncidents st.repo 1 200).1
      rw [h1] at hmem
      rcases List.mem_append.mp hmem with h | h
      · exact hst h
      · have := List.mem_of_mem_take h
        simp at this
    | none =>
      have hrun := hadd _ _ hq hR2
      rw [hrun] at hmem
      simp only at hmem
      obtain ⟨k, _, h1, _⟩ := issueCalls_take repository
        ((incidents.filter (c.deletable config (adjustedTerms config incidents S))).map
            Call.Delete ++
          ((adjustedTerms config incidents S).filter (c.addable incidents config now)).map
            (fun t => Call.Add (addRequest config now t)))
        (repository.FindAllScheduledIncidents st.repo 1 200).1
      rw [h1] at hmem
      rcases List.mem_append.mp hmem with h | h
      · exact hst h
      · rcases List.mem_append.mp (List.mem_of_mem_take h) with h3 | h3
        · simp at h3
        · obtain ⟨t, ht, hte⟩ := List.mem_map.mp h3
          exact hnoadd t (List.mem_of_mem_filter ht) (Call.Add.inj hte)

/-- The theorem `run_deletes_from_adjusted` at the run of `dailyMaintenance`
from 2020-01-01 to 2020-01-05 over the store in memory with the recurring
schedule of January 3 02:00 and an incident of other origin from 02:05 to 02:30
of that day: the term of January 3 is dropped, the recurring schedule is
deleted, and the terms of the four other days are added. -/
theorem run_deletes_from_adjusted_witness :
    (testCommand.CreateSchedule dailyMaintenance = .ok dailyTerms ∧
      [staleIncident, foreignIncident].length < 200 ∧
      (∀ t ∈ dailyTerms, (testConfig.findComponentByServiceName t.Service).isSome) ∧
      staleIncident.isRecurringSchedule = true ∧
      testCommand.FromDate < staleIncident.ScheduledFor ∧
      staleIncident.ScheduledFor < testCommand.ToDate ∧
      thirdDailyTerm ∈ dailyTerms ∧ staleIncident.sameAs testConfig thirdDailyTerm = true ∧
      [staleIncident, foreignIncident].any (thirdDailyTerm.blockedBy testConfig) = true ∧
      (∀ t ∈ adjustedTerms testConfig [staleIncident, foreignIncident] dailyTerms,
        staleIncident.sameAs testConfig t = false)) ∧
    Call.Delete staleIncident ∈
      (testCommand.Run dailyMaintenance testConfig memoryRepository (timeOf 2019 12 31 0 0)
        { repo := [staleIncident, foreignIncident] }).1.calls ∧
    Call.Add (addRequest testConfig (timeOf 2019 12 31 0 0) thirdDailyTerm) ∉
      (testCommand.Run dailyMaintenance testConfig memoryRepository (timeOf 2019 12 31 0 0)
        { repo := [staleIncident, foreignIncident] }).1.calls ∧
    (testCommand.Run dailyMaintenance testConfig memoryRepository (timeOf 2019 12 31 0 0)
        { repo := [staleIncident, foreignIncident] }).1.calls =
      Call.Delete staleIncident ::
        (dailyTerms.filter (fun t => decide (t ≠ thirdDailyTerm))).map
          (fun t => Call.Add (addRequest testConfig (timeOf 2019 12 31 0 0) t)) ∧
    testCommand.toBeDeleted [staleIncident, foreignIncident] testConfig dailyTerms = .ok [] :=
  ⟨by decide,
    (run_deletes_from_adjusted testCommand dailyMaintenance testConfig memoryRepository
      (timeOf 2019 12 31 0 0) { repo := [staleIncident, foreignIncident] } dailyTerms
      [staleIncident, foreignIncident] staleIncident thirdDailyTerm (by decide) rfl (by decide)
      (by decide) (by decide) (by decide) (by decide) (by decide) (by decide) (by decide)
      (by decide) (by decide)).2.2.1 (by decide),
    (run_deletes_from_adjusted testCommand dailyMaintenance testConfig memoryRepository
      (timeOf 2019 12 31 0 0) { repo := [staleIncident, foreignIncident] } dailyTerms
      [staleIncident, foreignIncident] staleIncident thirdDailyTerm (by decide) rfl (by decide)
      (by decide) (by decide) (by decide) (by decide) (by decide) (by decide) (by decide)
      (by decide) (by decide)).2.2.2 (by decide),
    by decide, by decide⟩

/-! ## Durations with a fraction -/

/-- Values of `ParseDuration` on texts with a fraction: the fraction of a unit
is the one that `float64` arithmetic gives, which for a third of an hour written
with nineteen digits is the full twenty minutes and for `.50000000000000h` is
one nanosecond less than half an hour. -/
theorem parseDuration_fractions :
    ParseDuration "1.5h" = some 5400000000000 ∧
    ParseDuration "0.5s" = some 500000000 ∧
    ParseDuration "0.3333333333333333333h" = some 1200000000000 ∧
    ParseDuration "1.50000000000000h" = some 5399999999999 ∧
    ParseDuration "0.99999999999999999ns" = some 1 := by
  decide

end Maintenance
